import Mathlib

/-!
# Verification of the dactylic keyer library (yack.c / yack.h)

Shallow embedding of the Fibonacci numeral codec (`yackchar`, the build rule
of `yackiambic`), the paddle latch (`keylatch`), the power manager
(`yackpower`) and the keyer state machine (`yackiambic`), followed by the
theorems settled about them.

Machine integers are natural numbers; `byte` results are reduced modulo 256 and
`word` results modulo 65536 wherever the C code can wrap.
-/

namespace Yack

/-! ## Constants of yack.h -/

def NFIB : Nat := 13

def MODE : Nat := 0b00001110
def SIDETONE : Nat := 0b00010000
def TXKEY : Nat := 0b00100000
def PDLSWAP : Nat := 0b10000000

def IAMBA : Nat := 0b00000000
def IAMBB : Nat := 0b00000010
def ULTIM : Nat := 0b00000100
def DITPR : Nat := 0b00001000
def DAHPR : Nat := 0b00001010
def DACTYL : Nat := 0b00001110

def FLAGDEFAULT : Nat := DACTYL ||| TXKEY ||| SIDETONE

def DITLATCH : Nat := 0b00000001
def DAHLATCH : Nat := 0b00000010
def SQUEEZED : Nat := 0b00000011

def YACKBEAT : Nat := 10
def YACKSECS (n : Nat) : Nat := n * (10000 / YACKBEAT)
def YACKCNTS : Nat := 2
def PSTIME : Nat := 30

def MAXWPM : Nat := 50
def MINWPM : Nat := 6
def DEFWPM : Nat := 16

def WPMCALC (n : Nat) : Nat := (12000 / YACKBEAT) / n

def IEGLEN : Nat := 1
def DITLEN : Nat := 2
def DAHLEN : Nat := 4
def ICGLEN : Nat := 2
def IWGLEN : Nat := 4

def DIT : Nat := 1
def DAH : Nat := 2

def UP : Nat := 1
def DOWN : Nat := 2

def ON : Nat := 1
def OFF : Nat := 0

def C_SPACE : Nat := 1
def C_E : Nat := 2

def MAX_WORD : Nat := 65535
def MAX_BYTE : Nat := 255

def CONFLOCK : Nat := 0b00000001
def TXINV : Nat := 0b01000000

def DIRTYFLAG : Nat := 0b00000100
def CKLATCH : Nat := 0b00001000

def PRESCALE : Nat := 8

/-- The macro `CTCVAL(n) ((F_CPU/n/2/PRESCALE)-1)`. F_CPU is defined by the build (main.c
refuses to compile without it), so it is a parameter here. The value is that of the C expression
when `16 * n ≤ fcpu`, where the quotient is at least 1. -/
def CTCVAL (fcpu n : Nat) : Nat := fcpu / n / 2 / PRESCALE - 1

/-- The clock of the processor in Hz. The build defines `F_CPU`; yack.c states the value in
`yackinit`: "CK runs at 1 MHz". -/
def F_CPU : Nat := 1000000

def DEFFREQ : Nat := 800
def MAXFREQ : Nat := 1500
def MINFREQ : Nat := 400

def MAXCTC (fcpu : Nat) : Nat := CTCVAL fcpu MAXFREQ
def MINCTC (fcpu : Nat) : Nat := CTCVAL fcpu MINFREQ
def DEFCTC (fcpu : Nat) : Nat := CTCVAL fcpu DEFFREQ

def MAGPAT : Nat := 0xa5

def TRUE : Nat := 1
def FALSE : Nat := 0

/-- Bit numbers of the timer 0 control registers (avr/io.h, ATtiny45). -/
def COM0B0 : Nat := 4
def WGM01 : Nat := 1
def CS01 : Nat := 1

def RBSIZE : Nat := 100

def DEFTIMEOUT : Nat := 5

def RECORD : Nat := 1
def PLAY : Nat := 2

def C_A : Nat := 7
def C_B : Nat := 14
def C_C : Nat := 27
def C_D : Nat := 9
def C_F : Nat := 16
def C_G : Nat := 17
def C_H : Nat := 8
def C_I : Nat := 3
def C_J : Nat := 54
def C_K : Nat := 19
def C_L : Nat := 15
def C_M : Nat := 12
def C_N : Nat := 6
def C_O : Nat := 33
def C_P : Nat := 28
def C_Q : Nat := 51
def C_R : Nat := 10
def C_S : Nat := 5
def C_T : Nat := 4
def C_U : Nat := 11
def C_V : Nat := 18
def C_W : Nat := 20
def C_X : Nat := 30
def C_Y : Nat := 53
def C_Z : Nat := 25
def C_EE : Nat := 24
def C_AE : Nat := 30
def C_AA : Nat := 31
def C_UE : Nat := 32
def C_HH : Nat := 55

def C_0 : Nat := 232
def C_1 : Nat := 143
def C_2 : Nat := 87
def C_3 : Nat := 52
def C_4 : Nat := 29
def C_5 : Nat := 13
def C_6 : Nat := 22
def C_7 : Nat := 38
def C_8 : Nat := 67
def C_9 : Nat := 122

def C_SLASH : Nat := 43
def C_PLUS : Nat := 44
def C_AS : Nat := 61
def C_QUEST : Nat := 66
def C_SK : Nat := 81
def C_DOT : Nat := 133
def C_BK : Nat := 209

def READ : Nat := 1
def WRITE : Nat := 2

/-! ## Machine arithmetic -/

/-- Value stored in a `byte` (uint8_t) variable. -/
def toByte (x : Nat) : Nat := x % 256

/-- Value stored in a `word` (uint16_t) variable. -/
def toWord (x : Nat) : Nat := x % 65536

/-- Subtraction `c -= x` on a `byte` variable: the difference wraps modulo 256. -/
def byteSub (c x : Nat) : Nat := (c % 256 + 256 - x % 256) % 256

/-! ## Fibonacci table -/

/-- The table `const byte f[NFIB]` of yack.c (NFIB == 13). -/
def fTable : List Nat := [1, 1, 2, 3, 5, 8, 13, 21, 34, 55, 89, 144, 233]

/-- Read of `f[i]`; an index outside the table reads as 0. -/
def f (i : Nat) : Nat := fTable.getD i 0

/-! ## Morse elements -/

/-- The two Morse elements; `yackplay` receives them as `DIT` and `DAH`. -/
inductive Element where
  | dit
  | dah
  deriving DecidableEq, Repr

/-- Length of an element sequence in units, a dit counting 1 and a dah 2. -/
def unitLength : List Element → Nat
  | [] => 0
  | Element.dit :: s => 1 + unitLength s
  | Element.dah :: s => 2 + unitLength s

/-! ## Playback: the decomposition loop of `yackchar` -/

/-- The `for (n = NFIB-2; n > 1; n--)` loop of `yackchar`, entered with loop
variable `n`, remaining code `c` (a byte) and the element buffer `buf` filled so
far (`buf[0]` first; 1 is a dah, 0 a dit). Returns the buffer at loop exit. -/
def yackcharLoop : Nat → Nat → List Nat → List Nat
  | 0, _, buf => buf
  | 1, _, buf => buf
  | n + 2, c, buf =>
    if c ≥ f (n + 2) then
      let c1 := byteSub c (f n)
      if c1 ≥ f (n + 2) then
        -- c -= f[--n]; buf[i++] = 1; then the loop's n--
        yackcharLoop n (byteSub c1 (f (n + 1))) (buf ++ [1])
      else
        yackcharLoop (n + 1) c1 (buf ++ [0])
    else
      yackcharLoop (n + 1) c buf

/-- The element passed to `yackplay` for a buffer entry: `buf[--i] ? DAH : DIT`. -/
def playOf (b : Nat) : Element := if b ≠ 0 then Element.dah else Element.dit

/-- The sequence of `yackplay` calls made by `yackchar (c)`, in call order
(transmission order): nothing for 0 and for the space code 1, otherwise the
buffer filled by the loop, read from its last entry down to its first. -/
def yackcharPlays (c : Nat) : List Element :=
  if c = 0 then []
  else if c = 1 then []
  else ((yackcharLoop (NFIB - 2) c []).reverse).map playOf

/-! ## Recognition: the build rule of `yackiambic` -/

/-- The dit branch of `yackiambic`:
`if (bcntr < NFIB-2) buffer += f[bcntr++]; else buffer = MAX_BYTE;`
on the pair (buffer, bcntr). -/
def buildDit (b : Nat × Nat) : Nat × Nat :=
  if b.2 < NFIB - 2 then (toByte (b.1 + f b.2), toByte (b.2 + 1))
  else (MAX_BYTE, b.2)

/-- The dah branch of `yackiambic`:
`if (bcntr < NFIB-3) { buffer += f[++bcntr]; buffer += f[++bcntr]; } else buffer = MAX_BYTE;`
on the pair (buffer, bcntr). -/
def buildDah (b : Nat × Nat) : Nat × Nat :=
  if b.2 < NFIB - 3 then
    let i1 := toByte (b.2 + 1)
    let b1 := toByte (b.1 + f i1)
    let i2 := toByte (i1 + 1)
    (toByte (b1 + f i2), i2)
  else (MAX_BYTE, b.2)

/-- One element accumulated by the recognizer. -/
def buildStep (b : Nat × Nat) : Element → Nat × Nat
  | Element.dit => buildDit b
  | Element.dah => buildDah b

/-- The accumulator and index after keying the elements of `s` in order, from
`buffer = 1`, `bcntr = 0`. -/
def build (s : List Element) : Nat × Nat := s.foldl buildStep (1, 0)

/-- The value `yackiambic` returns when a character ends with accumulator
`buffer`: `(buffer < f[NFIB-1]) ? buffer : 0`. -/
def charOf (buffer : Nat) : Nat := if buffer < f (NFIB - 1) then buffer else 0

/-! ## Keyer state -/

/-- The `enum FSMSTATE` of yack.c. -/
inductive FSMSTATE where
  | S_DAH
  | S_DIT
  | S_IDLE
  deriving DecidableEq, Repr

/-- The variables read or written by `yackiambic`, `keylatch` and `yackpower`: the module
variables `yackflags`, `volflags`, `wpmcnt`, the statics `ditcnt`, `dahcnt` of `keylatch`, the
static `shdntimer` of `yackpower`, and the statics of `yackiambic`. -/
structure Keyer where
  yackflags : Nat
  volflags : Nat
  wpmcnt : Nat
  ditcnt : Nat
  dahcnt : Nat
  shdntimer : Nat
  state : FSMSTATE
  timer : Nat
  idletimer : Nat
  lastkey : Nat
  bcntr : Nat
  prelatch : Nat
  buffer : Nat
  deriving DecidableEq, Repr

/-- The levels of the two paddle bits of `KEYINP` on one tick; a contact reads low (`false`)
when it is closed. -/
structure Pins where
  ditpin : Bool
  dahpin : Bool
  deriving DecidableEq, Repr

/-- The state after `yackinit`, before the first call of `yackiambic`: every static at its
initializer (`timer` is zero-initialized), with the given flags and speed. -/
def initKeyer (yackflags volflags wpmcnt : Nat) : Keyer :=
  { yackflags := yackflags, volflags := volflags, wpmcnt := wpmcnt,
    ditcnt := 0, dahcnt := 0, shdntimer := 0,
    state := FSMSTATE.S_IDLE, timer := 0, idletimer := 0, lastkey := 0,
    bcntr := 0, prelatch := 0, buffer := 1 }

/-! ## Paddle latch -/

/-- One debounce counter of `keylatch`:
`if (cnt < YACKCNTS && level) cnt++; if (cnt > 0 && (!level)) cnt--;`. -/
def debounce (cnt : Nat) (level : Bool) : Nat :=
  let c1 := if cnt < YACKCNTS ∧ level = true then cnt + 1 else cnt
  if c1 > 0 ∧ level = false then c1 - 1 else c1

/-- One latch update of `keylatch` for the latch bit `latch`:
`if ((cnt >= YACKCNTS) && (lastkey & latch)) volflags &= ~latch;
 else if ((cnt <= 0) && !(lastkey & latch)) volflags |= latch;`. -/
def latchUpdate (volflags cnt lastkey latch : Nat) : Nat :=
  if cnt ≥ YACKCNTS ∧ lastkey &&& latch ≠ 0 then volflags &&& (MAX_BYTE - latch)
  else if cnt ≤ 0 ∧ ¬ (lastkey &&& latch ≠ 0) then volflags ||| latch
  else volflags

/-- The function `keylatch (lastkey)`. -/
def keylatch (s : Keyer) (p : Pins) (lastkey : Nat) : Keyer :=
  let swap := s.yackflags &&& PDLSWAP
  let dit := if swap ≠ 0 then p.dahpin else p.ditpin
  let dah := if swap ≠ 0 then p.ditpin else p.dahpin
  let ditcnt := debounce s.ditcnt dit
  let dahcnt := debounce s.dahcnt dah
  let v1 := latchUpdate s.volflags ditcnt lastkey DITLATCH
  let v2 := latchUpdate v1 dahcnt lastkey DAHLATCH
  { s with ditcnt := ditcnt, dahcnt := dahcnt, volflags := v2 }

/-! ## Power manager -/

/-- The function `yackpower (n)`; the second component tells whether the call entered sleep.
`shdntimer` is a uint32_t. -/
def yackpower (s : Keyer) (n : Bool) : Keyer × Bool :=
  if n then
    if s.shdntimer = YACKSECS PSTIME then ({ s with shdntimer := 0 }, true)
    else ({ s with shdntimer := (s.shdntimer + 1) % 4294967296 }, false)
  else ({ s with shdntimer := 0 }, false)

/-! ## Keyer state machine -/

/-- What one call of `yackiambic` produces besides the new state: the returned character, the
arguments of its `yackkey` calls in call order, and whether `yackpower` entered sleep. -/
structure Out where
  retchar : Nat
  keys : List Nat
  sleep : Bool
  deriving DecidableEq, Repr

/-- The block `if (state == S_IDLE) { ... }` of `yackiambic`, run when the timer is 0; the
second component is `retchar`. -/
def idleBlock (s : Keyer) (ctrl : Nat) : Keyer × Nat :=
  if s.state = FSMSTATE.S_IDLE then
    let r : Keyer × Nat :=
      if s.bcntr > 0 then
        ({ s with bcntr := 0, buffer := C_SPACE }, charOf s.buffer)
      else if ctrl ≠ 0 ∧ s.idletimer = toWord (IWGLEN * s.wpmcnt) then (s, C_SPACE)
      else (s, 0)
    let s2 := if r.1.idletimer < MAX_BYTE then { r.1 with idletimer := r.1.idletimer + 1 } else r.1
    (s2, r.2)
  else (s, 0)

/-- The state chosen for the next element when the latched key set `key` is not empty. -/
def nextState (mode : Nat) (state : FSMSTATE) (lastkey key : Nat) : FSMSTATE :=
  if mode = IAMBA ∧ key = SQUEEZED then
    (if state = FSMSTATE.S_DIT then FSMSTATE.S_DAH else FSMSTATE.S_DIT)
  else if ((lastkey = 0 ∨ mode ≠ DACTYL) ∧ key &&& DITLATCH ≠ 0)
      ∨ (mode = DACTYL ∧ lastkey = key) then
    FSMSTATE.S_DIT
  else
    FSMSTATE.S_DAH

/-- The part of `yackiambic` that evaluates the latch and starts the next element, run when
the timer is 0; the second component lists the `yackkey` calls made. -/
def elementBlock (s : Keyer) (mode : Nat) : Keyer × List Nat :=
  let key := s.volflags &&& SQUEEZED
  let s1 := { s with prelatch := s.prelatch / 2 }
  let r : Keyer × List Nat :=
    if key > 0 then
      let st := nextState mode s1.state s1.lastkey key
      if st = FSMSTATE.S_DIT then
        let b := buildDit (s1.buffer, s1.bcntr)
        ({ s1 with state := st, timer := toWord (DITLEN * s1.wpmcnt),
                   buffer := b.1, bcntr := b.2 }, [DOWN])
      else
        let b := buildDah (s1.buffer, s1.bcntr)
        ({ s1 with state := st, prelatch := DITLEN / 2, timer := toWord (DAHLEN * s1.wpmcnt),
                   buffer := b.1, bcntr := b.2 }, [DOWN])
    else
      let s2 := { s1 with prelatch := 0 }
      let s3 := if s2.state ≠ FSMSTATE.S_IDLE then
                  { s2 with timer := toWord (ICGLEN * s2.wpmcnt) } else s2
      ({ s3 with state := FSMSTATE.S_IDLE }, [])
  ({ r.1 with lastkey := key }, r.2)

/-- The first part of `yackiambic`, up to the latch sampling:
`if (timer > 0) timer--; yackpower (state == S_IDLE); if (timer >= prelatch) keylatch (lastkey);`.
The second component tells whether `yackpower` entered sleep. -/
def sampleStage (s : Keyer) (p : Pins) : Keyer × Bool :=
  let s1 := if s.timer > 0 then { s with timer := s.timer - 1 } else s
  let pw := yackpower s1 (decide (s1.state = FSMSTATE.S_IDLE))
  let s2 := pw.1
  let s3 := if s2.timer ≥ s2.prelatch then keylatch s2 p s2.lastkey else s2
  (s3, pw.2)

/-- The block `if (timer == 0) { ... }` of `yackiambic`, with `mode = yackflags & MODE`; the
result holds the new state, `retchar` and the `yackkey` calls made. -/
def decisionStage (s : Keyer) (ctrl mode : Nat) : Keyer × Nat × List Nat :=
  if s.timer = 0 then
    let i := idleBlock s ctrl
    let e := elementBlock i.1 mode
    (e.1, i.2, e.2)
  else (s, 0, [])

/-- One call `yackiambic (ctrl)` on a heartbeat tick with paddle levels `p`. -/
def yackiambic (s : Keyer) (ctrl : Nat) (p : Pins) : Keyer × Out :=
  let mode := s.yackflags &&& MODE
  let pre := sampleStage s p
  let d := decisionStage pre.1 ctrl mode
  -- if (timer <= IEGLEN * wpmcnt) yackkey (UP);
  let keys := if d.1.timer ≤ toWord (IEGLEN * d.1.wpmcnt) then d.2.2 ++ [UP] else d.2.2
  (d.1, { retchar := d.2.1, keys := keys, sleep := pre.2 })

/-- One heartbeat tick as seen by the keyer: the argument `ctrl` and the paddle levels. -/
structure Tick where
  ctrl : Nat
  pins : Pins
  deriving DecidableEq, Repr

/-- The successive results of calling `yackiambic` once per tick of `ts`, from state `s`. -/
def trace : Keyer → List Tick → List (Keyer × Out)
  | _, [] => []
  | s, t :: ts =>
    let r := yackiambic s t.ctrl t.pins
    r :: trace r.1 ts

/-- The state after the ticks `ts`. -/
def runKeyer (s : Keyer) (ts : List Tick) : Keyer :=
  ts.foldl (fun k t => (yackiambic k t.ctrl t.pins).1) s

/-- The values returned by `yackiambic` on the ticks of a trace. -/
def returns (tr : List (Keyer × Out)) : List Nat := tr.map (fun r => r.2.retchar)

/-- The element started on a tick, if any: the tick requested key-down, and the element is the
one of the state entered. -/
def startedElement (r : Keyer × Out) : Option Element :=
  if DOWN ∈ r.2.keys then
    match r.1.state with
    | FSMSTATE.S_DIT => some Element.dit
    | FSMSTATE.S_DAH => some Element.dah
    | FSMSTATE.S_IDLE => none
  else none

/-- The elements started along a trace, in order. -/
def elements (tr : List (Keyer × Out)) : List Element := tr.filterMap startedElement

/-- The paddle levels read when the dit and dah paddles are pressed or not, under the paddle
assignment of `yackflags` (PDLSWAP exchanges the two pins). -/
def paddlePins (yackflags : Nat) (ditPressed dahPressed : Bool) : Pins :=
  if yackflags &&& PDLSWAP ≠ 0 then { ditpin := !dahPressed, dahpin := !ditPressed }
  else { ditpin := !ditPressed, dahpin := !dahPressed }

/-- A tick with the given `ctrl` and paddles, under the paddle assignment of `yackflags`. -/
def paddleTick (yackflags ctrl : Nat) (ditPressed dahPressed : Bool) : Tick :=
  { ctrl := ctrl, pins := paddlePins yackflags ditPressed dahPressed }

/-- The speed constant `wpmcnt` computed by `yackspeed` for `wpm`. -/
def speedCount (wpm : Nat) : Nat := toWord ((12000 / YACKBEAT + wpm / 2) / wpm)

/-! ## Observation of runs -/

/-- What is observed of a tick: the value returned and the element started. -/
def observe (r : Keyer × Out) : Nat × Option Element := (r.2.retchar, startedElement r)

/-- The ticks of a trace on which anything is observed: a value other than 0 is returned or an
element is started. -/
def events (tr : List (Keyer × Out)) : List (Nat × Option Element) :=
  (tr.map observe).filter (fun o => o.1 != 0 || o.2 != none)

/-- The elements started along a trace, each with the accumulator `buffer` after it was keyed. -/
def accumulators (tr : List (Keyer × Out)) : List (Element × Nat) :=
  tr.filterMap (fun r => (startedElement r).map (fun e => (e, r.1.buffer)))

/-- The flags of an Iambic A keyer that keys the transmitter and the sidetone. -/
def flagsIambicA : Nat := IAMBA ||| TXKEY ||| SIDETONE

/-- The working flags after `yackinhibit (OFF)` with TXKEY and SIDETONE configured and no
latch set. -/
def volInit : Nat := TXKEY ||| SIDETONE

/-- Paddle input keying dit dah dah dah dah dah in Iambic A at 50 wpm (wpmcnt 24): the dit
paddle is tapped, then the dah paddle is held into the fifth dah, then both are released. -/
def keyDitFiveDahs : List Tick :=
  List.replicate 2 (paddleTick flagsIambicA OFF false false) ++
  List.replicate 2 (paddleTick flagsIambicA OFF true false) ++
  List.replicate 10 (paddleTick flagsIambicA OFF false false) ++
  List.replicate 430 (paddleTick flagsIambicA OFF false true) ++
  List.replicate 140 (paddleTick flagsIambicA OFF false false)

/-- Paddle input keying ten dits, a dah and a dit in Iambic A at 50 wpm (wpmcnt 24): the dit
paddle is held into the tenth dit, the dah paddle is held into the dah, and the dit paddle is
held again until the last dit has started. -/
def keyTenDitsDahDit : List Tick :=
  List.replicate 2 (paddleTick flagsIambicA OFF false false) ++
  List.replicate 448 (paddleTick flagsIambicA OFF true false) ++
  List.replicate 50 (paddleTick flagsIambicA OFF false true) ++
  List.replicate 85 (paddleTick flagsIambicA OFF true false)

/-- Both paddles held for `n` ticks. -/
def squeeze (fl n : Nat) : List Tick := List.replicate n (paddleTick fl OFF true true)

/-! ## Definitions used in the statements and proofs -/

/-- The buffer entry `yackchar` stores for an element. -/
def bufCode : Element → Nat
  | Element.dit => 0
  | Element.dah => 1

/-- The fields that drive the keyer, with the two latch bits `k` of `volflags`. -/
def Core (s : Keyer) (fl w : Nat) (st : FSMSTATE) (t lk bc pl bf k dc hc : Nat) : Prop :=
  s.yackflags = fl ∧ s.wpmcnt = w ∧ s.state = st ∧ s.timer = t ∧ s.lastkey = lk ∧
    s.bcntr = bc ∧ s.prelatch = pl ∧ s.buffer = bf ∧ s.volflags &&& 3 = k ∧ s.volflags < 256 ∧
    s.ditcnt = dc ∧ s.dahcnt = hc ∧ s.idletimer ≤ 255

/-- The latch bits after the sampling stage of a tick. -/
def sampledLatch (t pl k dc hc lk : Nat) (d h : Bool) : Nat :=
  if pl ≤ t - 1 then
    latchUpdate (latchUpdate k (debounce dc (!d)) lk DITLATCH) (debounce hc (!h)) lk DAHLATCH
  else k

/-- A debounce counter after the sampling stage of a tick. -/
def sampledCount (t pl c : Nat) (pressed : Bool) : Nat :=
  if pl ≤ t - 1 then debounce c (!pressed) else c

/-- The driving fields while the dah paddle stays released and no dah was keyed: the prelatch
window is closed and the dah counter is free. -/
def CoreD (s : Keyer) (fl w : Nat) (st : FSMSTATE) (t lk bc bf k dc : Nat) : Prop :=
  ∃ hc, Core s fl w st t lk bc 0 bf k dc hc

/-- The element that alternates with the one of state `st`: a dah after a dit, a dit otherwise. -/
def alternate (st : FSMSTATE) : Element :=
  if st = FSMSTATE.S_DIT then Element.dah else Element.dit

/-- The state in which an element is keyed. -/
def stateOf : Element → FSMSTATE
  | Element.dit => FSMSTATE.S_DIT
  | Element.dah => FSMSTATE.S_DAH

/-- The sequence of `m` elements that alternates dit and dah from `e` on. -/
def alternation : Element → Nat → List Element
  | _, 0 => []
  | e, m + 1 => e :: alternation (alternate (stateOf e)) m

/-- The invariant of a squeeze in Iambic A after its first element: both counters read pressed
and both latches are set. -/
def Squeezed (s : Keyer) (fl w : Nat) (st : FSMSTATE) : Prop :=
  ∃ t lk bc pl bf, Core s fl w st t lk bc pl bf 3 0 0 ∧ pl ≤ 1 ∧ st ≠ FSMSTATE.S_IDLE

/-- The number of pressed samples that set the dit latch when the paddle has been released for
`a` ticks since start-up: the debounce counter has then climbed to `min a YACKCNTS`. -/
def latchTicks (a : Nat) : Nat := if a < YACKCNTS then 1 else YACKCNTS

/-- The paddle input of a single dit: both paddles released for `a` ticks, the dit paddle pressed
until it is latched and for `e` ticks more, then both paddles released for `n` ticks. -/
def singleDit (fl ctrl a e n : Nat) : List Tick :=
  List.replicate a (paddleTick fl ctrl false false) ++
    List.replicate (latchTicks a + e) (paddleTick fl ctrl true false) ++
    List.replicate n (paddleTick fl ctrl false false)

/-- The invariant of a squeeze with the timer and the prelatch window made explicit. -/
def SqueezedAt (s : Keyer) (fl w : Nat) (st : FSMSTATE) (t pl : Nat) : Prop :=
  ∃ lk bc bf, Core s fl w st t lk bc pl bf 3 0 0

/-! ## Library state: configuration, EEPROM and output ports -/

/-- The EEPROM variables of yack.c. -/
structure Eeprom where
  magic : Nat
  flagstor : Nat
  ctcstor : Nat
  wpmstor : Nat
  user1 : Nat
  user2 : Nat
  eebuffer1 : List Nat
  eebuffer2 : List Nat
  deriving DecidableEq, Repr

/-- The hardware registers written by `yackkey`: the bit OUTPIN of OUTPORT and the registers
of timer 0, which generates the sidetone. -/
structure Ports where
  outpin : Bool
  ocr0a : Nat
  ocr0b : Nat
  tccr0a : Nat
  tccr0b : Nat
  deriving DecidableEq, Repr

/-- The state of the library: the variables of the keyer (`yackflags`, `volflags`, `wpmcnt` and
the statics), the module variables `ctcvalue` and `wpm`, the EEPROM and the output ports. -/
structure Chip where
  keyer : Keyer
  ctcvalue : Nat
  wpm : Nat
  ee : Eeprom
  ports : Ports
  deriving DecidableEq, Repr

/-- The EEPROM variables as destinations of a write. -/
inductive Cell where
  | magic
  | flagstor
  | ctcstor
  | wpmstor
  | user1
  | user2
  | eebuffer1
  | eebuffer2
  deriving DecidableEq, Repr

/-- What the library does to the outside, in the order it does it: a call of `yackkey`, one
heartbeat waited for in `yackbeat`, a write of a byte or word to the EEPROM, a write of a
block to the EEPROM. -/
inductive Event where
  | key (mode : Nat)
  | beat
  | store (cell : Cell) (value : Nat)
  | storeBlock (cell : Cell) (values : List Nat)
  deriving DecidableEq, Repr

/-- Whether an event is a write to the EEPROM. -/
def Event.isStore : Event → Bool
  | Event.store _ _ => true
  | Event.storeBlock _ _ => true
  | _ => false

/-- The EEPROM writes among the events. -/
def storeWrites (evs : List Event) : List Event := evs.filter Event.isStore

/-! ## Control functions -/

/-- The registers after `yackkey (mode)`: on DOWN the sidetone timer is started with the pitch
`ctcvalue` and the key line is asserted, on UP the timer is stopped and the line released, each
only when enabled in `volflags`; TXINV inverts the line. -/
def keyPorts (volflags yackflags ctcvalue : Nat) (p : Ports) (mode : Nat) : Ports :=
  let p1 : Ports :=
    if mode = DOWN then
      let a : Ports :=
        if volflags &&& SIDETONE ≠ 0 then
          { p with ocr0a := toByte ctcvalue, ocr0b := toByte ctcvalue,
                   tccr0a := p.tccr0a ||| (1 <<< COM0B0 ||| 1 <<< WGM01),
                   tccr0b := 1 <<< CS01 }
        else p
      if volflags &&& TXKEY ≠ 0 then
        (if yackflags &&& TXINV ≠ 0 then { a with outpin := false }
         else { a with outpin := true })
      else a
    else p
  if mode = UP then
    let a : Ports :=
      if volflags &&& SIDETONE ≠ 0 then { p1 with tccr0a := 0, tccr0b := 0 } else p1
    if volflags &&& TXKEY ≠ 0 then
      (if yackflags &&& TXINV ≠ 0 then { a with outpin := true }
       else { a with outpin := false })
    else a
  else p1

/-- The function `yackkey (mode)`. -/
def yackkey (c : Chip) (mode : Nat) : Chip × List Event :=
  ({ c with ports := keyPorts c.keyer.volflags c.keyer.yackflags c.ctcvalue c.ports mode },
    [Event.key mode])

/-- The function `yacksave`: writes the record when DIRTYFLAG is set and clears the flag. -/
def yacksave (c : Chip) : Chip × List Event :=
  if c.keyer.volflags &&& DIRTYFLAG ≠ 0 then
    ({ c with
        ee := { c.ee with magic := MAGPAT, ctcstor := c.ctcvalue, wpmstor := c.wpm,
                          flagstor := c.keyer.yackflags },
        keyer := { c.keyer with volflags := c.keyer.volflags &&& (MAX_BYTE - DIRTYFLAG) } },
      [Event.store Cell.magic MAGPAT, Event.store Cell.ctcstor c.ctcvalue,
        Event.store Cell.wpmstor c.wpm, Event.store Cell.flagstor c.keyer.yackflags])
  else (c, [])

/-- The function `yackreset`, for the clock `fcpu`: the defaults are assigned (`ctcvalue` is a
word), DIRTYFLAG is set and `yacksave` is called. -/
def yackreset (fcpu : Nat) (c : Chip) : Chip × List Event :=
  yacksave
    { c with
      ctcvalue := toWord (DEFCTC fcpu),
      wpm := toByte DEFWPM,
      keyer := { c.keyer with
        wpmcnt := toWord ((12000 / YACKBEAT) / DEFWPM),
        yackflags := toByte FLAGDEFAULT,
        volflags := c.keyer.volflags ||| DIRTYFLAG } }

/-- The function `yackinhibit (mode)`. -/
def yackinhibit (c : Chip) (mode : Nat) : Chip × List Event :=
  if mode ≠ 0 then
    ({ c with keyer := { c.keyer with
        volflags := (c.keyer.volflags &&& (MAX_BYTE - (TXKEY ||| SIDETONE))) ||| SIDETONE } }, [])
  else
    yackkey
      { c with keyer := { c.keyer with
          volflags := (c.keyer.volflags &&& (MAX_BYTE - (TXKEY ||| SIDETONE)))
            ||| (c.keyer.yackflags &&& (TXKEY ||| SIDETONE)) } }
      UP

/-- The function `yackinit`, for the clock `fcpu`: the configuration is read from the EEPROM
when the magic byte is MAGPAT and reset otherwise, then keying is enabled. The set-up of the
port directions, pull-ups, wake-up mask and heartbeat timer is not part of the state here.
A stored speed of 0 divides by zero in C; the quotient reads as 0 here. -/
def yackinit (fcpu : Nat) (c : Chip) : Chip × List Event :=
  let r : Chip × List Event :=
    if c.ee.magic = MAGPAT then
      ({ c with
          ctcvalue := c.ee.ctcstor,
          wpm := c.ee.wpmstor,
          keyer := { c.keyer with
            wpmcnt := toWord ((12000 / YACKBEAT) / c.ee.wpmstor),
            yackflags := c.ee.flagstor } }, [])
    else yackreset fcpu c
  let i := yackinhibit r.1 OFF
  (i.1, r.2 ++ i.2)

/-- The function `yackwpm`. -/
def yackwpm (c : Chip) : Nat := c.wpm

/-! ## Playback -/

/-- The inner loop `while (x--) yackbeat ();` of `yackdel`. -/
def beats : Nat → List Event
  | 0 => []
  | x + 1 => Event.beat :: beats x

/-- The outer loop `while (n--) { byte x = wpmcnt; ... }` of `yackdel`, with `x` the byte that
`wpmcnt` is stored into. -/
def delayLoop (x : Nat) : Nat → List Event
  | 0 => []
  | n + 1 => beats x ++ delayLoop x n

/-- The function `yackdel (n)`: `n` is a byte and waits `n` times `(byte) wpmcnt` beats. -/
def yackdel (c : Chip) (n : Nat) : List Event := delayLoop (toByte c.keyer.wpmcnt) (toByte n)

/-- The function `yackplay (i)`: key down, no power-down, the element's time less the gap, key
up, the inter-element gap. -/
def yackplay (c : Chip) (i : Nat) : Chip × List Event :=
  let k1 := yackkey c DOWN
  let c1 : Chip := { k1.1 with keyer := (yackpower k1.1.keyer false).1 }
  let d : List Event :=
    if i = DAH then yackdel c1 (DAHLEN - IEGLEN)
    else if i = DIT then yackdel c1 (DITLEN - IEGLEN)
    else []
  let k2 := yackkey c1 UP
  (k2.1, k1.2 ++ d ++ k2.2 ++ yackdel k2.1 IEGLEN)

/-- The loop `while (i > 0) yackplay (buf[--i] ? DAH : DIT);` of `yackchar`, on the buffer
entries in the order they are read. -/
def playBuffer : Chip → List Nat → Chip × List Event
  | c, [] => (c, [])
  | c, b :: bs =>
    let r := yackplay c (if b ≠ 0 then DAH else DIT)
    let rest := playBuffer r.1 bs
    (rest.1, r.2 ++ rest.2)

/-- The function `yackchar (c)`. -/
def yackchar (c : Chip) (ch : Nat) : Chip × List Event :=
  if ch = 0 then (c, [])
  else if ch = 1 then (c, yackdel c IWGLEN)
  else
    let r := playBuffer c (yackcharLoop (NFIB - 2) ch []).reverse
    (r.1, r.2 ++ yackdel r.1 ICGLEN)

/-! ## Speed, pitch and flags -/

/-- The function `yackspeed (dir)`. With `wpm` = 0 the division is by zero in C; the quotient
reads as 0 here. -/
def yackspeed (c : Chip) (dir : Nat) : Chip × List Event :=
  let w1 := if dir = UP ∧ c.wpm < MAXWPM then toByte (c.wpm + 1) else c.wpm
  let w2 := if dir = DOWN ∧ w1 > MINWPM then toByte (w1 - 1) else w1
  let c1 : Chip :=
    { c with
      wpm := w2,
      keyer := { c.keyer with
        wpmcnt := speedCount w2,
        volflags := c.keyer.volflags ||| DIRTYFLAG } }
  let p1 := yackplay c1 DIT
  let p2 := yackplay p1.1 DAH
  (p2.1, p1.2 ++ p2.2)

/-- The function `yackpitch (dir)`, for the clock `fcpu`; `ctcvalue` is a word and wraps. -/
def yackpitch (fcpu : Nat) (c : Chip) (dir : Nat) : Chip :=
  let v1 := if dir = UP then toWord (c.ctcvalue + 65535) else c.ctcvalue
  let v2 := if dir = DOWN then toWord (v1 + 1) else v1
  let v3 := if v2 < MAXCTC fcpu then toWord (MAXCTC fcpu) else v2
  let v4 := if v3 > MINCTC fcpu then toWord (MINCTC fcpu) else v3
  { c with
    ctcvalue := v4,
    keyer := { c.keyer with volflags := c.keyer.volflags ||| DIRTYFLAG } }

/-- The function `yackmode (mode)`; the second component is the value returned. -/
def yackmode (c : Chip) (mode : Nat) : Chip × Nat :=
  let oldmode := c.keyer.yackflags &&& MODE
  let f1 := c.keyer.yackflags &&& (MAX_BYTE - MODE)
  let f2 := f1 ||| (MODE &&& mode)
  ({ c with keyer := { c.keyer with
      yackflags := f2, volflags := c.keyer.volflags ||| DIRTYFLAG } }, oldmode)

/-- The function `yackflag (flag)`. -/
def yackflag (c : Chip) (flag : Nat) : Nat := c.keyer.yackflags &&& flag

/-- The function `yacktoggle (flag)`. -/
def yacktoggle (c : Chip) (flag : Nat) : Chip :=
  { c with keyer := { c.keyer with
      yackflags := toByte (c.keyer.yackflags ^^^ flag),
      volflags := c.keyer.volflags ||| DIRTYFLAG } }

/-! ## Control key -/

/-- The loop `while (!(BTNINP & (1 << BTNPIN))) { ... }` of `yackctrlkey`, run once for each
entry of `held`: the entry tells whether the DIT pin and the DAH pin read closed in that pass.
The state carried is the chip and the local `volbfr`. -/
def ctrlLoop : Chip → Nat → List (Bool × Bool) → Chip × Nat × List Event
  | c, volbfr, [] => (c, volbfr, [])
  | c, volbfr, (dit, dah) :: rest =>
    let a : Chip × Nat × List Event :=
      if dit = true then
        let s := yackspeed c UP
        (s.1, volbfr &&& (MAX_BYTE - CKLATCH), s.2)
      else (c, volbfr, [])
    let b : Chip × Nat × List Event :=
      if dah = true then
        let s := yackspeed a.1 DOWN
        (s.1, a.2.1 &&& (MAX_BYTE - CKLATCH), a.2.2 ++ s.2)
      else a
    let r := ctrlLoop b.1 b.2.1 rest
    (r.1, r.2.1, b.2.2 ++ r.2.2)

/-- The function `yackctrlkey (mode)`. `pressed` tells whether the command button reads closed
at the first test, and `held` lists the passes of the busy-wait loop made before the button
reads open. The two debounce delays of 50 ms have no effect on the state. The second
component is the value returned. -/
def yackctrlkey (c : Chip) (mode : Nat) (pressed : Bool) (held : List (Bool × Bool)) :
    Chip × Nat × List Event :=
  let volbfr := c.keyer.volflags
  let r : Chip × Nat × List Event :=
    if pressed = true then
      let i := yackinhibit c ON
      let l := ctrlLoop i.1 (volbfr ||| CKLATCH) held
      (l.1, l.2.1, i.2 ++ l.2.2)
    else (c, volbfr, [])
  let c1 : Chip := { r.1 with keyer := { r.1.keyer with volflags := r.2.1 } }
  let c2 : Chip :=
    if mode = TRUE then
      { c1 with keyer := { c1.keyer with volflags := c1.keyer.volflags &&& (MAX_BYTE - CKLATCH) } }
    else c1
  let s := yacksave c2
  (s.1, (if r.2.1 &&& CKLATCH ≠ 0 then 1 else 0), r.2.2 ++ s.2)

/-- A chip at power-up: the keyer statics at their initializers, `volflags` = 0, the given
EEPROM content, the key line and the sidetone timer off. The module variables without
initializer start at 0. -/
def powerUp (ee : Eeprom) : Chip :=
  { keyer := initKeyer 0 0 0, ctcvalue := 0, wpm := 0, ee := ee,
    ports := { outpin := false, ocr0a := 0, ocr0b := 0, tccr0a := 0, tccr0b := 0 } }

/-! ## Definitions used in the statements on the library state -/

/-- The events of one element as keyed at speed count `w`: key-down, held for the element's
length less the inter-element gap, then key-up, held for the inter-element gap. -/
def keyedElement (w : Nat) : Element → List Event
  | Element.dit =>
    Event.key DOWN :: beats ((DITLEN - IEGLEN) * w) ++ Event.key UP :: beats (IEGLEN * w)
  | Element.dah =>
    Event.key DOWN :: beats ((DAHLEN - IEGLEN) * w) ++ Event.key UP :: beats (IEGLEN * w)

/-- The events of a sequence of elements keyed one after the other at speed count `w`. -/
def keyedElements (w : Nat) : List Element → List Event
  | [] => []
  | e :: es => keyedElement w e ++ keyedElements w es

/-- An erased EEPROM: every cell reads 0xFF. -/
def erasedEeprom : Eeprom :=
  { magic := 255, flagstor := 255, ctcstor := 65535, wpmstor := 255, user1 := 65535,
    user2 := 65535, eebuffer1 := List.replicate 100 255, eebuffer2 := List.replicate 100 255 }

/-- The chip after power-up with an erased EEPROM and `yackinit` at a clock of 1 MHz: the
defaults are in memory and in the EEPROM. -/
def freshChip : Chip := (yackinit 1000000 (powerUp erasedEeprom)).1


/-- The store writes of one `yacksave` that finds the dirty flag set: the validity marker,
the pitch, the speed and the flags, in this order. -/
def recordWrite (c : Chip) : List Event :=
  [Event.store Cell.magic MAGPAT, Event.store Cell.ctcstor c.ctcvalue,
    Event.store Cell.wpmstor c.wpm, Event.store Cell.flagstor c.keyer.yackflags]

/-- A chip whose pitch control value is 65535, outside the range of the clock of 1 MHz. -/
def fastChip : Chip := { powerUp erasedEeprom with ctcvalue := 65535 }

/-- The chip of `freshChip` after the lock command of command mode, `yacktoggle (CONFLOCK)`. -/
def lockedChip : Chip := yacktoggle freshChip CONFLOCK

/-! ## Character constants, code table and Morse patterns -/

/-- A character with a constant in yack.h: its name, the value of the constant `C_x`, the value
listed for the character in the code table of yack.c (the comment `Morse code encoding`), and
its Morse pattern. The patterns are those of the International Morse code, with the usual
patterns of the prosigns and of the letters É, Ä, Å, Ü; they are reference data, the source
gives patterns only in its worked examples (SK, I, T, Å). -/
structure Sign where
  name : String
  constant : Nat
  listed : Nat
  pattern : List Element
  deriving DecidableEq, Repr

/-- Reads a pattern written with `.` for a dit and any other character for a dah. -/
def morse (s : String) : List Element :=
  s.toList.map (fun ch => if ch = '.' then Element.dit else Element.dah)

/-- The characters whose constant agrees with the code table and with the recognizer. -/
def signs : List Sign :=
  [ { name := "A", constant := C_A, listed := 7, pattern := morse ".-" },
    { name := "B", constant := C_B, listed := 14, pattern := morse "-..." },
    { name := "C", constant := C_C, listed := 27, pattern := morse "-.-." },
    { name := "D", constant := C_D, listed := 9, pattern := morse "-.." },
    { name := "E", constant := C_E, listed := 2, pattern := morse "." },
    { name := "F", constant := C_F, listed := 16, pattern := morse "..-." },
    { name := "G", constant := C_G, listed := 17, pattern := morse "--." },
    { name := "H", constant := C_H, listed := 8, pattern := morse "...." },
    { name := "I", constant := C_I, listed := 3, pattern := morse ".." },
    { name := "J", constant := C_J, listed := 54, pattern := morse ".---" },
    { name := "K", constant := C_K, listed := 19, pattern := morse "-.-" },
    { name := "L", constant := C_L, listed := 15, pattern := morse ".-.." },
    { name := "M", constant := C_M, listed := 12, pattern := morse "--" },
    { name := "N", constant := C_N, listed := 6, pattern := morse "-." },
    { name := "O", constant := C_O, listed := 33, pattern := morse "---" },
    { name := "P", constant := C_P, listed := 28, pattern := morse ".--." },
    { name := "Q", constant := C_Q, listed := 51, pattern := morse "--.-" },
    { name := "R", constant := C_R, listed := 10, pattern := morse ".-." },
    { name := "S", constant := C_S, listed := 5, pattern := morse "..." },
    { name := "T", constant := C_T, listed := 4, pattern := morse "-" },
    { name := "U", constant := C_U, listed := 11, pattern := morse "..-" },
    { name := "V", constant := C_V, listed := 18, pattern := morse "...-" },
    { name := "W", constant := C_W, listed := 20, pattern := morse ".--" },
    { name := "X", constant := C_X, listed := 30, pattern := morse "-..-" },
    { name := "Y", constant := C_Y, listed := 53, pattern := morse "-.--" },
    { name := "Z", constant := C_Z, listed := 25, pattern := morse "--.." },
    { name := "0", constant := C_0, listed := 232, pattern := morse "-----" },
    { name := "1", constant := C_1, listed := 143, pattern := morse ".----" },
    { name := "2", constant := C_2, listed := 87, pattern := morse "..---" },
    { name := "3", constant := C_3, listed := 52, pattern := morse "...--" },
    { name := "4", constant := C_4, listed := 29, pattern := morse "....-" },
    { name := "5", constant := C_5, listed := 13, pattern := morse "....." },
    { name := "6", constant := C_6, listed := 22, pattern := morse "-...." },
    { name := "7", constant := C_7, listed := 38, pattern := morse "--..." },
    { name := "8", constant := C_8, listed := 67, pattern := morse "---.." },
    { name := "9", constant := C_9, listed := 122, pattern := morse "----." },
    { name := "SLASH", constant := C_SLASH, listed := 43, pattern := morse "-..-." },
    { name := "PLUS", constant := C_PLUS, listed := 44, pattern := morse ".-.-." },
    { name := "QUEST", constant := C_QUEST, listed := 66, pattern := morse "..--.." },
    { name := "DOT", constant := C_DOT, listed := 133, pattern := morse ".-.-.-" },
    { name := "SK", constant := C_SK, listed := 81, pattern := morse "...-.-" },
    { name := "HH", constant := C_HH, listed := 55, pattern := morse "........" },
    { name := "EE", constant := C_EE, listed := 24, pattern := morse "..-.." },
    { name := "UE", constant := C_UE, listed := 32, pattern := morse "..--" } ]

/-- The wait prosign AS. -/
def signAS : Sign := { name := "AS", constant := C_AS, listed := 23, pattern := morse ".-..." }

/-- The letter Ä. -/
def signAE : Sign := { name := "AE", constant := C_AE, listed := 31, pattern := morse ".-.-" }

/-- The letter Å; its pattern is the worked example `Å ·--·-` of yack.c. -/
def signAA : Sign := { name := "AA", constant := C_AA, listed := 83, pattern := morse ".--.-" }

/-- The break prosign BK. -/
def signBK : Sign := { name := "BK", constant := C_BK, listed := 209, pattern := morse "-...-.-" }

/-- The code the recognizer accumulates for the pattern of a character. -/
def recognized (s : Sign) : Nat := (build s.pattern).1

/-! ## Numbers -/

/-- The first loop of `yacknumber`: `while (n > 0) { buffer[i++] = n % 10; n /= 10; }`; the
result lists `buffer[0]`, `buffer[1]`, ... -/
def numberDigits (n : Nat) : List Nat :=
  if h : n > 0 then (n % 10) :: numberDigits (n / 10) else []
decreasing_by omega

/-- The `switch (buffer[--i])` of `yacknumber`: the argument of the `yackchar` call made for a
buffer entry; the switch has no default. -/
def digitCalls (d : Nat) : List Nat :=
  match d with
  | 0 => [C_0]
  | 1 => [C_1]
  | 2 => [C_2]
  | 3 => [C_3]
  | 4 => [C_4]
  | 5 => [C_5]
  | 6 => [C_6]
  | 7 => [C_7]
  | 8 => [C_8]
  | 9 => [C_9]
  | _ => []

/-- The arguments of the `yackchar` calls made by `yacknumber (n)`, in call order: the second
loop reads the buffer from its last entry down, then `yackchar (C_SPACE)` follows. -/
def yacknumberCalls (n : Nat) : List Nat :=
  ((numberDigits (toWord n)).reverse.map digitCalls).flatten ++ [C_SPACE]

/-- Successive calls of `yackchar` with the given arguments. -/
def sendChars : Chip → List Nat → Chip × List Event
  | c, [] => (c, [])
  | c, ch :: chs =>
    let r := yackchar c ch
    let rest := sendChars r.1 chs
    (rest.1, r.2 ++ rest.2)

/-- The function `yacknumber (n)`. -/
def yacknumber (c : Chip) (n : Nat) : Chip × List Event := sendChars c (yacknumberCalls n)

/-- The Morse code constant of a decimal digit. -/
def digitConstant (d : Nat) : Nat := [C_0, C_1, C_2, C_3, C_4, C_5, C_6, C_7, C_8, C_9].getD d 0

/-! ## The keyer on the library state -/

/-- The `yackkey` calls of one `yackiambic` call, made in order. -/
def keyCalls : Chip → List Nat → Chip × List Event
  | c, [] => (c, [])
  | c, m :: ms =>
    let k := yackkey c m
    let rest := keyCalls k.1 ms
    (rest.1, k.2 ++ rest.2)

/-- The call `yackiambic (ctrl)` on the library state with paddle levels `p`: the keyer step,
with its `yackkey` calls acting on the ports. `yackkey` reads the TXKEY, SIDETONE and TXINV
bits and `ctcvalue`, none of which `yackiambic` writes. The result holds the new state, the
value returned and the events. -/
def iambicCall (c : Chip) (ctrl : Nat) (p : Pins) : Chip × Nat × List Event :=
  let r := yackiambic c.keyer ctrl p
  let k := keyCalls { c with keyer := r.1 } r.2.keys
  (k.1, r.2.retchar, k.2)

/-! ## Messages -/

/-- What is sampled during one pass of the recording loop of `yackmessage`: the level of the
command key when `yackctrlkey` reads it (`pressed`), the paddle contacts on the passes of its
wait loop while the key stays pressed (`held`), and the paddle levels read by `yackiambic`. -/
structure Pass where
  pressed : Bool
  held : List (Bool × Bool)
  pins : Pins
  deriving DecidableEq, Repr

/-- How the recording loop was left: the end-of-message timer ran out, `yackctrlkey` reported
the command key (the function returns), or the passes given ran out with the loop running. -/
inductive Ending where
  | timeout
  | aborted
  | running
  deriving DecidableEq, Repr

/-- The recording loop of `yackmessage` as observed: the library state, the locals `extimer`,
`i` and `rambuffer`, how the loop was left, the writes `rambuffer[i++] = c` made (index and
character, in order), the arguments of the `yackchar` calls made, and the events. -/
structure Capture where
  chip : Chip
  extimer : Nat
  i : Nat
  rambuffer : List Nat
  ending : Ending
  writes : List (Nat × Nat)
  sent : List Nat
  events : List Event
  deriving DecidableEq, Repr

/-- One pass through the body of the recording loop, entered with the locals as given
(`extimer` already decremented by the loop test). The result is marked `aborted` when
`yackctrlkey` reported the command key, `running` otherwise. -/
def recordPass (c : Chip) (e i : Nat) (ram : List Nat) (p : Pass) : Capture :=
  -- if (yackctrlkey (FALSE)) return;
  let k := yackctrlkey c FALSE p.pressed p.held
  if k.2.1 ≠ 0 then
    { chip := k.1, extimer := e, i := i, rambuffer := ram, ending := Ending.aborted,
      writes := [], sent := [], events := k.2.2 }
  else
    -- if ((c = yackiambic (ON))) { rambuffer[i++] = c; extimer = YACKSECS (DEFTIMEOUT); }
    let y := iambicCall k.1 ON p.pins
    let ch := y.2.1
    let ram1 := if ch ≠ 0 then ram.set i ch else ram
    let i1 := if ch ≠ 0 then toByte (i + 1) else i
    let e1 := if ch ≠ 0 then YACKSECS DEFTIMEOUT else e
    let w : List (Nat × Nat) := if ch ≠ 0 then [(i, ch)] else []
    -- if (i >= RBSIZE) { yackchar (C_HH); i = 0; }
    let h : Chip × List Event := if i1 ≥ RBSIZE then yackchar y.1 C_HH else (y.1, [])
    let i2 := if i1 ≥ RBSIZE then 0 else i1
    let s : List Nat := if i1 ≥ RBSIZE then [C_HH] else []
    -- yackbeat ();
    { chip := h.1, extimer := e1, i := i2, rambuffer := ram1, ending := Ending.running,
      writes := w, sent := s, events := k.2.2 ++ y.2.2 ++ h.2 ++ [Event.beat] }

/-- The loop `while (extimer--) { ... }` of `yackmessage (RECORD, ...)`, entered with the given
locals, one pass of the loop per entry of the list. The value of `extimer` after the loop is
not used by the function. -/
def recordLoop : Chip → Nat → Nat → List Nat → List Pass → Capture
  | c, 0, i, ram, _ =>
    { chip := c, extimer := 0, i := i, rambuffer := ram, ending := Ending.timeout,
      writes := [], sent := [], events := [] }
  | c, e + 1, i, ram, [] =>
    { chip := c, extimer := e + 1, i := i, rambuffer := ram, ending := Ending.running,
      writes := [], sent := [], events := [] }
  | c, e + 1, i, ram, p :: ps =>
    let b := recordPass c e i ram p
    if b.ending = Ending.aborted then b
    else
      let r := recordLoop b.chip b.extimer b.i b.rambuffer ps
      { r with writes := b.writes ++ r.writes, sent := b.sent ++ r.sent,
               events := b.events ++ r.events }

/-- The slot written by a block write for message `msgnr`: `case 1` is `eebuffer1`, `default`
is `eebuffer2`. -/
def storeSlot (c : Chip) (msgnr : Nat) (block : List Nat) : Chip × List Event :=
  if msgnr = 1 then
    ({ c with ee := { c.ee with eebuffer1 := block } }, [Event.storeBlock Cell.eebuffer1 block])
  else
    ({ c with ee := { c.ee with eebuffer2 := block } }, [Event.storeBlock Cell.eebuffer2 block])

/-- The stored buffer of message `msgnr`. -/
def slotOf (ee : Eeprom) (msgnr : Nat) : List Nat :=
  if msgnr = 1 then ee.eebuffer1 else ee.eebuffer2

/-- The result of `yackmessage`: the library state, the buffer `rambuffer` when the function
returns, the arguments of its `yackchar` calls in order, the events, and how the recording loop
was left when the function was called to record. -/
structure Message where
  chip : Chip
  rambuffer : List Nat
  sent : List Nat
  events : List Event
  ending : Option Ending
  deriving DecidableEq, Repr

/-- The part of `yackmessage (RECORD, msgnr)` after the loop has timed out with `i` characters
in `rambuffer`: the end marker is written over the last one, the message is replayed and the
buffer is written to the EEPROM; with nothing captured the error prosign is sent. -/
def recordFinish (c : Chip) (i : Nat) (ram : List Nat) (msgnr : Nat) : Message :=
  if i > 0 then
    let i1 := toByte (i + 255)
    let ram1 := ram.set i1 0
    let replay := ram1.take i1
    let p := sendChars c replay
    let s := storeSlot p.1 msgnr ram1
    { chip := s.1, rambuffer := ram1, sent := replay, events := p.2 ++ s.2,
      ending := some Ending.timeout }
  else
    let p := yackchar c C_HH
    { chip := p.1, rambuffer := ram, sent := [C_HH], events := p.2,
      ending := some Ending.timeout }

/-- The characters `yackmessage (PLAY, ...)` plays from `rambuffer`:
`for (n = 0; (c = rambuffer[n]) && (n < RBSIZE); n++) yackchar (c);`. -/
def playedFrom (ram : List Nat) : List Nat := (ram.take RBSIZE).takeWhile (fun ch => ch ≠ 0)

/-- The function `yackmessage (function, msgnr)`. The local `rambuffer` has RBSIZE entries and
is not initialized by the function: `ram` is what they hold when the function is entered.
`passes` are the inputs of the recording loop. The two blocks `if (function == RECORD)` and
`if (function == PLAY)` exclude each other. -/
def yackmessage (c : Chip) (function msgnr : Nat) (ram : List Nat) (passes : List Pass) :
    Message :=
  if function = RECORD then
    let l := recordLoop c (YACKSECS DEFTIMEOUT) 0 ram passes
    match l.ending with
    | Ending.timeout =>
      let f := recordFinish l.chip l.i l.rambuffer msgnr
      { f with sent := l.sent ++ f.sent, events := l.events ++ f.events }
    | e =>
      { chip := l.chip, rambuffer := l.rambuffer, sent := l.sent, events := l.events,
        ending := some e }
  else if function = PLAY then
    -- eeprom_write_block (rambuffer, eebufferN, RBSIZE);
    let s := storeSlot c msgnr ram
    let p := sendChars s.1 (playedFrom ram)
    { chip := p.1, rambuffer := ram, sent := playedFrom ram, events := s.2 ++ p.2,
      ending := none }
  else
    { chip := c, rambuffer := ram, sent := [], events := [], ending := none }

/-! ## Runs of `keylatch` and `yackpower` -/

/-- Successive calls of `keylatch`, each with its paddle levels and its argument `lastkey`. -/
def latchRun (s : Keyer) (calls : List (Pins × Nat)) : Keyer :=
  calls.foldl (fun k c => keylatch k c.1 c.2) s

/-- The level `keylatch` reads for the dit contact: `swap ? DAHPIN : DITPIN`. -/
def ditLevel (yackflags : Nat) (p : Pins) : Bool :=
  if yackflags &&& PDLSWAP ≠ 0 then p.dahpin else p.ditpin

/-- The level `keylatch` reads for the dah contact: `swap ? DITPIN : DAHPIN`. -/
def dahLevel (yackflags : Nat) (p : Pins) : Bool :=
  if yackflags &&& PDLSWAP ≠ 0 then p.ditpin else p.dahpin

/-- The number of calls that sample the dit contact pressed (level low). -/
def ditPressed (yackflags : Nat) (calls : List (Pins × Nat)) : Nat :=
  (calls.filter (fun c => !ditLevel yackflags c.1)).length

/-- The number of calls that sample the dah contact pressed (level low). -/
def dahPressed (yackflags : Nat) (calls : List (Pins × Nat)) : Nat :=
  (calls.filter (fun c => !dahLevel yackflags c.1)).length

/-- Successive calls of `yackpower`; the second component tells for each call whether it
entered sleep. -/
def powerCalls : Keyer → List Bool → Keyer × List Bool
  | s, [] => (s, [])
  | s, n :: ns =>
    let r := yackpower s n
    let rest := powerCalls r.1 ns
    (rest.1, r.2 :: rest.2)

/-! ## States used in the statements on messages and inhibition -/

/-- The EEPROM as programmed from the initializers of yack.c, for the clock `fcpu`: the two
messages read MESSAGE 1 and MESSAGE 2. -/
def factoryEeprom (fcpu : Nat) : Eeprom :=
  { magic := MAGPAT, flagstor := IAMBA ||| TXKEY ||| SIDETONE, ctcstor := toWord (DEFCTC fcpu),
    wpmstor := DEFWPM, user1 := 0, user2 := 0,
    eebuffer1 := [C_M, C_E, C_S, C_S, C_A, C_G, C_E, C_SPACE, C_1] ++ List.replicate 91 0,
    eebuffer2 := [C_M, C_E, C_S, C_S, C_A, C_G, C_E, C_SPACE, C_2] ++ List.replicate 91 0 }

/-- The chip after power-up with the programmed EEPROM and `yackinit` at a clock of 1 MHz. -/
def factoryChip : Chip := (yackinit 1000000 (powerUp (factoryEeprom 1000000))).1

/-- The chip of `freshChip` one heartbeat after the dit paddle was pressed: `yackiambic` has
started a dit and `yackkey (DOWN)` has keyed the transmitter. -/
def keyedChip : Chip := (iambicCall freshChip OFF (paddlePins FLAGDEFAULT true false)).1

/-- A keyer at rest: both paddles have been released long enough for the two debounce counters
to stand at YACKCNTS, and no latch is set. -/
def restingKeyer : Keyer :=
  { initKeyer FLAGDEFAULT volInit 75 with ditcnt := YACKCNTS, dahcnt := YACKCNTS }

/-- The dit contact bounces: one pressed sample between released ones, with the dah paddle
released and no previous key. -/
def bounce : List (Pins × Nat) :=
  [(paddlePins FLAGDEFAULT false false, 0), (paddlePins FLAGDEFAULT true false, 0),
    (paddlePins FLAGDEFAULT false false, 0), (paddlePins FLAGDEFAULT false false, 0)]

/-- A pass of the recording loop with the command key and both paddles released. -/
def quietPass : Pass := { pressed := false, held := [], pins := { ditpin := true, dahpin := true } }

/-- A pass of the recording loop with the dit paddle pressed. -/
def ditPass : Pass := { pressed := false, held := [], pins := { ditpin := false, dahpin := true } }

/-- Whether the library is at rest for the recording loop at the default speed: the keyer is
idle with no element pending and no latch set, the command key latch and the dirty flag are
clear, and the idle timer cannot reach the inter-word count. -/
def quietChip (c : Chip) : Bool :=
  decide (c.keyer.state = FSMSTATE.S_IDLE ∧
    c.keyer.timer = 0 ∧ c.keyer.lastkey = 0 ∧ c.keyer.bcntr = 0 ∧ c.keyer.prelatch = 0 ∧
    c.keyer.buffer = 1 ∧ c.keyer.volflags &&& 3 = 0 ∧ c.keyer.volflags < 256 ∧
    c.keyer.idletimer ≤ 255 ∧ c.keyer.ditcnt ≤ 2 ∧
    255 < toWord (IWGLEN * c.keyer.wpmcnt) ∧
    c.keyer.volflags &&& CKLATCH = 0 ∧ c.keyer.volflags &&& DIRTYFLAG = 0)

/-- Passes that key the letter E twice at the default speed: the dit paddle is tapped, the
character ends 300 heartbeats later, the paddle is tapped again (two pressed samples pass the
debounce counter) and the second character ends. -/
def keyTwoE : List Pass :=
  [ditPass] ++ List.replicate 300 quietPass ++ [ditPass, ditPass] ++ List.replicate 300 quietPass

/-- The passes of `keyTwoE` followed by silence until the end-of-message timer runs out. -/
def recordTwoE : List Pass := keyTwoE ++ List.replicate (YACKSECS DEFTIMEOUT) quietPass

/-! ## Definitions used in the statements on Dactylic mode -/

/-- The flags of a Dactylic keyer that keys the transmitter and the sidetone (FLAGDEFAULT). -/
def flagsDactyl : Nat := DACTYL ||| TXKEY ||| SIDETONE

/-- A tick on which only the paddle of the latch `k` is held: the dit paddle for DITLATCH, the
dah paddle for DAHLATCH. -/
def heldTick (fl ctrl k : Nat) : Tick :=
  paddleTick fl ctrl (decide (k = DITLATCH)) (decide (k = DAHLATCH))

/-- Only the dah paddle held for `n` ticks. -/
def holdDah (fl n : Nat) : List Tick := List.replicate n (paddleTick fl OFF false true)

/-- Only the dit paddle held for `n` ticks. -/
def holdDit (fl n : Nat) : List Tick := List.replicate n (paddleTick fl OFF true false)

/-- The debounce counters while only the paddle of latch `k` is held: its counter reads pressed
and the other counter does not. -/
def HeldCounts (k dc hc : Nat) : Prop :=
  (k = DITLATCH ∧ dc = 0 ∧ 1 ≤ hc) ∨ (k = DAHLATCH ∧ hc = 0 ∧ 1 ≤ dc)

/-- The invariant of one paddle held after the first element: the latch of the paddle is the
only one set, and it is also the previous key set. -/
def HeldAt (s : Keyer) (fl w k : Nat) (st : FSMSTATE) (t : Nat) : Prop :=
  ∃ bc pl bf dc hc, Core s fl w st t k bc pl bf k dc hc ∧ HeldCounts k dc hc

/-- The invariant of one paddle held, in some keyed state. -/
def Held (s : Keyer) (fl w k : Nat) : Prop := ∃ st t, HeldAt s fl w k st t

/-! ## Definitions used in the statements on element timing -/

/-- The length of an element in units of the speed count: DITLEN for a dit, DAHLEN for a
dah. -/
def elementLen : Element → Nat
  | Element.dit => DITLEN
  | Element.dah => DAHLEN

/-! ## User storage and the beacon of main.c -/

/-- The function `yackuser (func, nr, content)`, with `content` a word; the second component is
the value returned: the stored word on a read of slot 1 or 2, FALSE otherwise. -/
def yackuser (c : Chip) (func nr content : Nat) : Chip × Nat × List Event :=
  if func = READ ∧ nr = 1 then (c, c.ee.user1, [])
  else if func = READ ∧ nr = 2 then (c, c.ee.user2, [])
  else if func = WRITE ∧ nr = 1 then
    ({ c with ee := { c.ee with user1 := toWord content } }, FALSE,
      [Event.store Cell.user1 (toWord content)])
  else if func = WRITE ∧ nr = 2 then
    ({ c with ee := { c.ee with user2 := toWord content } }, FALSE,
      [Event.store Cell.user2 (toWord content)])
  else (c, FALSE, [])

/-- The `switch (c)` in the loop of `beacon`: a digit character sets the local `i` to its
value, any other value of `c` leaves `i` as it is. -/
def beaconDigit (ch i : Nat) : Nat :=
  if ch = C_0 then 0
  else if ch = C_1 then 1
  else if ch = C_2 then 2
  else if ch = C_3 then 3
  else if ch = C_4 then 4
  else if ch = C_5 then 5
  else if ch = C_6 then 6
  else if ch = C_7 then 7
  else if ch = C_8 then 8
  else if ch = C_9 then 9
  else i

/-- The statics `interval` and `timer` and the local `i` of `beacon`, with the library state,
and how the loop of the RECORD branch was left: by its test (`timeout`), or still `running` when
the inputs given ran out. -/
structure Beacon where
  chip : Chip
  interval : Nat
  timer : Nat
  i : Nat
  ending : Ending
  deriving DecidableEq, Repr

/-- One pass through the body of the loop `while (--timer) { ... }` of `beacon (RECORD)`, with
the paddle levels `p` read by `yackiambic`; `timer` is the value left by the loop test.
`yackbeat` waits for the heartbeat and changes no state. `interval` is a word. -/
def beaconPass (c : Chip) (interval timer i : Nat) (p : Pins) : Beacon :=
  -- byte c = yackiambic (OFF); yackbeat ();
  let y := iambicCall c OFF p
  -- switch (c) { case C_0: i = 0; break; ... }
  let i1 := beaconDigit y.2.1 i
  -- if (i < 11) { interval *= 10; interval += i; timer = YACKSECS (DEFTIMEOUT); }
  if i1 < 11 then
    { chip := y.1, interval := toWord (toWord (interval * 10) + i1),
      timer := YACKSECS DEFTIMEOUT, i := i1, ending := Ending.running }
  else
    { chip := y.1, interval := interval, timer := timer, i := i1, ending := Ending.running }

/-- The loop `while (--timer) { ... }` of `beacon (RECORD)` over the paddle levels of the
successive passes. The test decrements the word `timer` and leaves the loop when it reaches 0.
When the inputs run out with the test still to be made and not failing, the state is returned
as `running`. -/
def beaconLoop : List Pins → Chip → Nat → Nat → Nat → Beacon
  | [], c, interval, timer, i =>
    if toWord (timer + 65535) = 0 then
      { chip := c, interval := interval, timer := 0, i := i, ending := Ending.timeout }
    else
      { chip := c, interval := interval, timer := timer, i := i, ending := Ending.running }
  | p :: ps, c, interval, timer, i =>
    if toWord (timer + 65535) = 0 then
      { chip := c, interval := interval, timer := 0, i := i, ending := Ending.timeout }
    else
      let b := beaconPass c interval (toWord (timer + 65535)) i p
      beaconLoop ps b.chip b.interval b.timer b.i

/-- The RECORD branch of `beacon (mode)`: `interval = 0; timer = YACKSECS (DEFTIMEOUT);
yackchar (C_N);`, the loop with `char i = 11`, and after the loop the store and playback of an
interval up to 9999 or the error prosign. The read of the stored interval that precedes the
branch is overwritten by `interval = 0`. While the loop is running nothing after it is done. -/
def beaconRecord (c : Chip) (ps : List Pins) : Beacon :=
  let n := yackchar c C_N
  let l := beaconLoop ps n.1 0 (YACKSECS DEFTIMEOUT) 11
  if l.ending = Ending.timeout then
    if l.interval ≤ 9999 then
      -- yackuser (WRITE, 1, interval); yacknumber (interval);
      let u := yackuser l.chip WRITE 1 l.interval
      let y := yacknumber u.1 l.interval
      { l with chip := y.1 }
    else
      { l with chip := (yackchar l.chip C_HH).1 }
  else l

/-- The EEPROM after the defaults were stored, with the speed of 50 wpm stored in place of the
default. -/
def quickEeprom : Eeprom := { freshChip.ee with wpmstor := MAXWPM }

/-- The chip after power-up with `quickEeprom` and `yackinit` at a clock of 1 MHz: Dactylic
mode at 50 wpm (speed count 24). -/
def quickChip : Chip := (yackinit 1000000 (powerUp quickEeprom)).1

/-- The paddle levels with both paddles released. -/
def releasedPins : Pins := { ditpin := true, dahpin := true }

/-- The paddle levels with only the dit paddle pressed (no paddle swap). -/
def ditPins : Pins := { ditpin := false, dahpin := true }

/-! ## Definitions used in the statements on modes, saved speed and table accesses -/

/-- The keyer state with `yackflags` replaced. -/
def withFlags (s : Keyer) (fl : Nat) : Keyer := { s with yackflags := fl }

/-- The modes other than Iambic A and Dactylic. -/
def plainModes : List Nat := [IAMBB, ULTIM, DITPR, DAHPR]

/-- The chip after the supply is switched off and on again and `yackinit` has run, for the
clock `fcpu`: the variables are initialized anew, the EEPROM is kept. -/
def powerCycle (fcpu : Nat) (c : Chip) : Chip := (yackinit fcpu (powerUp c.ee)).1

/-- The indices at which the dit branch of `yackiambic` reads the table:
`if (bcntr < NFIB-2) buffer += f[bcntr++];`. -/
def ditReads (bcntr : Nat) : List Nat := if bcntr < NFIB - 2 then [bcntr] else []

/-- The indices at which the dah branch of `yackiambic` reads the table:
`if (bcntr < NFIB-3) { buffer += f[++bcntr]; buffer += f[++bcntr]; }`. -/
def dahReads (bcntr : Nat) : List Nat :=
  if bcntr < NFIB - 3 then [toByte (bcntr + 1), toByte (toByte (bcntr + 1) + 1)] else []

/-- The indices at which one call of `yackiambic` reads the table `f`: those of the branch
taken when the timer has run out and a latch is set, none otherwise. -/
def tickReads (s : Keyer) (ctrl : Nat) (p : Pins) : List Nat :=
  let pre := (sampleStage s p).1
  if pre.timer = 0 then
    let i := (idleBlock pre ctrl).1
    let key := i.volflags &&& SQUEEZED
    if key > 0 then
      if nextState (s.yackflags &&& MODE) i.state i.lastkey key = FSMSTATE.S_DIT then
        ditReads i.bcntr
      else dahReads i.bcntr
    else []
  else []

/-- What the decomposition loop of `yackchar` does to memory: the indices at which it reads the
table `f`, each subtraction `c -= x` as the pair of the value of `c` before it and `x`, and the
element buffer at loop exit. -/
structure Access where
  reads : List Nat
  subs : List (Nat × Nat)
  buf : List Nat
  deriving DecidableEq, Repr

/-- The loop `for (n = NFIB-2; n > 1; n--)` of `yackchar` with its accesses recorded, in the
order they are made: the test `c >= f[n]`, then `c -= f[n-2]`, the test `c >= f[n]`, and for a
dah `c -= f[--n]`. -/
def yackcharAccess : Nat → Nat → List Nat → Access
  | 0, _, buf => { reads := [], subs := [], buf := buf }
  | 1, _, buf => { reads := [], subs := [], buf := buf }
  | n + 2, c, buf =>
    if c ≥ f (n + 2) then
      let c1 := byteSub c (f n)
      if c1 ≥ f (n + 2) then
        let r := yackcharAccess n (byteSub c1 (f (n + 1))) (buf ++ [1])
        { reads := [n + 2, n, n + 2, n + 1] ++ r.reads,
          subs := [(c, f n), (c1, f (n + 1))] ++ r.subs, buf := r.buf }
      else
        let r := yackcharAccess (n + 1) c1 (buf ++ [0])
        { reads := [n + 2, n, n + 2] ++ r.reads, subs := [(c, f n)] ++ r.subs, buf := r.buf }
    else
      let r := yackcharAccess (n + 1) c buf
      { reads := [n + 2] ++ r.reads, subs := r.subs, buf := r.buf }

/-- Paddle levels that key the digit 5 for the beacon interval at 50 wpm: the dit paddle is
held into the fifth dit and released; the character is returned on pass 289, and three more
passes follow. -/
def keyFive : List Pins := List.replicate 200 ditPins ++ List.replicate 92 releasedPins

/-! ## Theorems -/

theorem f_rec : ∀ k, k ≤ 10 → f (k + 2) = f (k + 1) + f k := by decide

theorem f_pos : ∀ k, k ≤ 12 → 1 ≤ f k := by decide

theorem f_le : ∀ k, k ≤ 12 → f k ≤ 233 := by decide

theorem f_mono : ∀ k, k ≤ 11 → f k ≤ f (k + 1) := by decide

theorem unitLength_append (s : List Element) (e : Element) :
    unitLength (s ++ [e]) = unitLength s + unitLength [e] := by
  induction s with
  | nil => simp [unitLength]
  | cons a s ih =>
    cases a <;> simp [unitLength, ih] <;> omega

theorem build_append (s : List Element) (e : Element) :
    build (s ++ [e]) = buildStep (build s) e := by
  simp [build, List.foldl_append]

theorem playOf_bufCode (e : Element) : playOf (bufCode e) = e := by
  cases e <;> simp [playOf, bufCode]

theorem buildDit_bounds (B L : Nat) (hL : L ≤ 9) (hlo : f (L + 1) ≤ B) (hhi : B < f (L + 2)) :
    buildDit (B, L) = (B + f L, L + 1) ∧ f (L + 2) ≤ B + f L ∧ B + f L < f (L + 3) := by
  have r0 : f (L + 2) = f (L + 1) + f L := f_rec L (by omega)
  have r1 : f (L + 3) = f (L + 2) + f (L + 1) := f_rec (L + 1) (by omega)
  have r2 : f (L + 3) ≤ 233 := f_le (L + 3) (by omega)
  have r3 : 1 ≤ f L := f_pos L (by omega)
  have r4 : f L ≤ f (L + 1) := f_mono L (by omega)
  have e1 : (B + f L) % 256 = B + f L := by omega
  have e2 : (L + 1) % 256 = L + 1 := by omega
  simp only [buildDit, NFIB, toByte]
  rw [if_pos (by omega), e1, e2]
  exact ⟨rfl, by omega, by omega⟩

theorem buildDah_bounds (B L : Nat) (hL : L ≤ 8) (hlo : f (L + 1) ≤ B) (hhi : B < f (L + 2)) :
    buildDah (B, L) = (B + f (L + 1) + f (L + 2), L + 2) ∧
      f (L + 3) ≤ B + f (L + 1) + f (L + 2) ∧ B + f (L + 1) + f (L + 2) < f (L + 4) := by
  have r0 : f (L + 2) = f (L + 1) + f L := f_rec L (by omega)
  have r1 : f (L + 3) = f (L + 2) + f (L + 1) := f_rec (L + 1) (by omega)
  have r2 : f (L + 4) = f (L + 3) + f (L + 2) := f_rec (L + 2) (by omega)
  have r3 : f (L + 4) ≤ 233 := f_le (L + 4) (by omega)
  have r4 : 1 ≤ f L := f_pos L (by omega)
  have r5 : f L ≤ f (L + 1) := f_mono L (by omega)
  have e1 : (L + 1) % 256 = L + 1 := by omega
  have e2 : (L + 1 + 1) % 256 = L + 2 := by omega
  have e3 : (B + f (L + 1)) % 256 = B + f (L + 1) := by omega
  have e4 : (B + f (L + 1) + f (L + 2)) % 256 = B + f (L + 1) + f (L + 2) := by omega
  simp only [buildDah, NFIB, toByte]
  rw [if_pos (by omega)]
  simp only [e1, e2, e3, e4]
  exact ⟨trivial, by omega, by omega⟩

/-- Within the table bound the accumulator sits in the Fibonacci interval of its index. -/
theorem build_bounds (s : List Element) :
    unitLength s ≤ 10 →
      (build s).2 = unitLength s ∧ f (unitLength s + 1) ≤ (build s).1 ∧
        (build s).1 < f (unitLength s + 2) := by
  induction s using List.reverseRecOn with
  | nil => intro _; decide
  | append_singleton s e ih =>
    intro h
    rw [unitLength_append] at h
    rw [unitLength_append, build_append]
    cases e with
    | dit =>
      simp only [unitLength] at h ⊢
      obtain ⟨h2, hlo, hhi⟩ := ih (by omega)
      obtain ⟨k1, k2, k3⟩ := buildDit_bounds (build s).1 (unitLength s) (by omega) hlo hhi
      have hb : build s = ((build s).1, unitLength s) := by rw [← h2]
      rw [buildStep, hb, k1]
      exact ⟨by simp, by simpa [Nat.add_assoc] using k2, by simpa [Nat.add_assoc] using k3⟩
    | dah =>
      simp only [unitLength] at h ⊢
      obtain ⟨h2, hlo, hhi⟩ := ih (by omega)
      obtain ⟨k1, k2, k3⟩ := buildDah_bounds (build s).1 (unitLength s) (by omega) hlo hhi
      have hb : build s = ((build s).1, unitLength s) := by rw [← h2]
      rw [buildStep, hb, k1]
      exact ⟨by simp, by simpa [Nat.add_assoc] using k2, by simpa [Nat.add_assoc] using k3⟩

theorem byteSub_eq (c x : Nat) (hx : x ≤ c) (hc : c < 256) : byteSub c x = c - x := by
  unfold byteSub
  omega

theorem yackcharLoop_dit (L B : Nat) (buf : List Nat) (hL : L ≤ 9) (hlo : f (L + 1) ≤ B)
    (hhi : B < f (L + 2)) :
    yackcharLoop (L + 2) (B + f L) buf = yackcharLoop (L + 1) B (buf ++ [0]) := by
  obtain ⟨_, k2, k3⟩ := buildDit_bounds B L hL hlo hhi
  have r2 : f (L + 3) ≤ 233 := f_le (L + 3) (by omega)
  have e1 : byteSub (B + f L) (f L) = B := by
    rw [byteSub_eq _ _ (by omega) (by omega)]; omega
  rw [yackcharLoop, if_pos k2]
  simp only [e1]
  rw [if_neg (by omega)]

theorem yackcharLoop_dah (L B : Nat) (buf : List Nat) (hL : L ≤ 8) (hlo : f (L + 1) ≤ B)
    (hhi : B < f (L + 2)) :
    yackcharLoop (L + 3) (B + f (L + 1) + f (L + 2)) buf = yackcharLoop (L + 1) B (buf ++ [1]) := by
  obtain ⟨_, k2, k3⟩ := buildDah_bounds B L hL hlo hhi
  have r1 : f (L + 3) = f (L + 2) + f (L + 1) := f_rec (L + 1) (by omega)
  have r3 : f (L + 4) ≤ 233 := f_le (L + 4) (by omega)
  have e1 : byteSub (B + f (L + 1) + f (L + 2)) (f (L + 1)) = B + f (L + 2) := by
    rw [byteSub_eq _ _ (by omega) (by omega)]; omega
  have e2 : byteSub (B + f (L + 2)) (f (L + 2)) = B := by
    rw [byteSub_eq _ _ (by omega) (by omega)]; omega
  have i1 : L + 1 + 2 = L + 3 := rfl
  have i2 : L + 1 + 1 = L + 2 := rfl
  rw [show L + 3 = (L + 1) + 2 from rfl, yackcharLoop]
  simp only [i1, i2]
  rw [if_pos k2]
  simp only [e1, e2]
  rw [if_pos (by omega)]

/-- Entered at the index just above the accumulator's, the loop of `yackchar` stores the keyed
elements last-keyed first. -/
theorem yackcharLoop_build (s : List Element) :
    unitLength s ≤ 10 → ∀ buf : List Nat,
      yackcharLoop (unitLength s + 1) (build s).1 buf = buf ++ s.reverse.map bufCode := by
  induction s using List.reverseRecOn with
  | nil => intro _ buf; simp [unitLength, build, yackcharLoop]
  | append_singleton s e ih =>
    intro h buf
    rw [unitLength_append] at h
    rw [unitLength_append, build_append]
    cases e with
    | dit =>
      simp only [unitLength] at h ⊢
      obtain ⟨h2, hlo, hhi⟩ := build_bounds s (by omega)
      obtain ⟨k1, _, _⟩ := buildDit_bounds (build s).1 (unitLength s) (by omega) hlo hhi
      have hb : build s = ((build s).1, unitLength s) := by rw [← h2]
      rw [buildStep, hb, k1]
      simp only []
      rw [show unitLength s + (1 + 0) + 1 = unitLength s + 2 from rfl,
        yackcharLoop_dit _ _ _ (by omega) hlo hhi, ih (by omega)]
      simp [bufCode]
    | dah =>
      simp only [unitLength] at h ⊢
      obtain ⟨h2, hlo, hhi⟩ := build_bounds s (by omega)
      obtain ⟨k1, _, _⟩ := buildDah_bounds (build s).1 (unitLength s) (by omega) hlo hhi
      have hb : build s = ((build s).1, unitLength s) := by rw [← h2]
      rw [buildStep, hb, k1]
      simp only []
      rw [show unitLength s + (2 + 0) + 1 = unitLength s + 3 from rfl,
        yackcharLoop_dah _ _ _ (by omega) hlo hhi, ih (by omega)]
      simp [bufCode]

theorem yackcharLoop_skip (n c : Nat) (buf : List Nat) (h : c < f (n + 2)) :
    yackcharLoop (n + 2) c buf = yackcharLoop (n + 1) c buf := by
  rw [yackcharLoop, if_neg (by omega)]

/-- Above the accumulator's index the loop of `yackchar` stores nothing. -/
theorem yackcharLoop_top (d : Nat) : ∀ L c : Nat, ∀ buf : List Nat, L + d = 10 → c < f (L + 2) →
    yackcharLoop 11 c buf = yackcharLoop (L + 1) c buf := by
  induction d with
  | zero => intro L c buf h _; have : L = 10 := by omega
            subst this; rfl
  | succ d ih =>
    intro L c buf h hc
    have m : f (L + 2) ≤ f (L + 1 + 2) := f_mono (L + 2) (by omega)
    rw [ih (L + 1) c buf (by omega) (by omega), yackcharLoop_skip L c buf hc]

theorem unitLength_pos (s : List Element) (hs : s ≠ []) : 1 ≤ unitLength s := by
  cases s with
  | nil => exact absurd rfl hs
  | cons a s => cases a <;> (simp only [unitLength]; omega)

theorem f_two_le : ∀ k, 1 ≤ k → k ≤ 10 → 2 ≤ f (k + 1) := by decide

/-- The accumulated code of a non-empty sequence within the table bound is a character code
and `yackchar` plays the sequence back. -/
theorem yackcharPlays_build (s : List Element) (hs : s ≠ []) (hl : unitLength s ≤ 10) :
    2 ≤ (build s).1 ∧ (build s).1 ≤ 232 ∧ yackcharPlays (build s).1 = s := by
  obtain ⟨_, hlo, hhi⟩ := build_bounds s hl
  have hpos := unitLength_pos s hs
  have h2 := f_two_le (unitLength s) hpos hl
  have h3 := f_le (unitLength s + 2) (by omega)
  refine ⟨by omega, by omega, ?_⟩
  unfold yackcharPlays
  rw [if_neg (by omega), if_neg (by omega)]
  rw [show NFIB - 2 = 11 from rfl,
    yackcharLoop_top (10 - unitLength s) (unitLength s) _ [] (by omega) hhi,
    yackcharLoop_build s hl []]
  simp [List.map_reverse, Function.comp_def, playOf_bufCode]

/-- C2: for every non-empty sequence of dits and dahs of unit length (dit = 1, dah = 2) at most
NFIB-3 = 10, the code accumulated by the recognizer lies in 2..232 and `yackchar` plays that code
back as the same sequence, first keyed element first; hence no other such sequence has the same
code. -/
theorem recognizer_code_decomposes (s : List Element) (hs : s ≠ [])
    (hl : unitLength s ≤ NFIB - 3) :
    (2 ≤ (build s).1 ∧ (build s).1 ≤ 232 ∧ yackcharPlays (build s).1 = s) ∧
      ∀ t : List Element, t ≠ [] → unitLength t ≤ NFIB - 3 →
        (build t).1 = (build s).1 → t = s := by
  have hs3 := yackcharPlays_build s hs hl
  refine ⟨hs3, ?_⟩
  intro t ht htl heq
  have ht3 := yackcharPlays_build t ht htl
  rw [← ht3.2.2, heq, hs3.2.2]

theorem idleBlock_retchar_lt (s : Keyer) (ctrl : Nat) : (idleBlock s ctrl).2 < 233 := by
  unfold idleBlock
  split
  · simp only []
    split
    · simp only [charOf]
      split
      · assumption
      · omega
    · split <;> simp [C_SPACE]
  · simp

theorem decisionStage_retchar_lt (s : Keyer) (ctrl mode : Nat) :
    (decisionStage s ctrl mode).2.1 < 233 := by
  unfold decisionStage
  split
  · exact idleBlock_retchar_lt _ _
  · simp

/-- C4: on every tick, in every state and for every input, the value returned by `yackiambic` is
strictly below f[NFIB-1] = 233, so the overflow sentinel MAX_BYTE = 255 is never returned. -/
theorem yackiambic_returns_below_table_top (s : Keyer) (ctrl : Nat) (p : Pins) :
    (yackiambic s ctrl p).2.retchar < f (NFIB - 1) ∧ f (NFIB - 1) = 233 ∧
      (yackiambic s ctrl p).2.retchar ≠ MAX_BYTE := by
  have h : (yackiambic s ctrl p).2.retchar < 233 := decisionStage_retchar_lt _ _ _
  have h1 : f (NFIB - 1) = 233 := by decide
  have h2 : MAX_BYTE = 255 := rfl
  exact ⟨by omega, h1, by omega⟩

set_option maxRecDepth 100000 in
theorem latch_bits : ∀ v, v < 256 →
    (v ||| 1) &&& 3 = (v &&& 3) ||| 1 ∧ (v ||| 2) &&& 3 = (v &&& 3) ||| 2 ∧
    (v &&& 254) &&& 3 = (v &&& 3) &&& 2 ∧ (v &&& 253) &&& 3 = (v &&& 3) &&& 1 ∧
    (v ||| 1) < 256 ∧ (v ||| 2) < 256 ∧ (v &&& 254) < 256 ∧ (v &&& 253) < 256 ∧
    v &&& 3 < 4 := by decide

/-- The level `keylatch` reads for the dit paddle. -/
theorem paddlePins_dit (fl : Nat) (d h : Bool) :
    (if fl &&& PDLSWAP ≠ 0 then (paddlePins fl d h).dahpin else (paddlePins fl d h).ditpin)
      = !d := by
  unfold paddlePins; split <;> simp_all

theorem paddlePins_dah (fl : Nat) (d h : Bool) :
    (if fl &&& PDLSWAP ≠ 0 then (paddlePins fl d h).ditpin else (paddlePins fl d h).dahpin)
      = !h := by
  unfold paddlePins; split <;> simp_all

/-- Effect of `keylatch` under the paddle assignment of the flags. -/
theorem keylatch_paddle (s : Keyer) (d h : Bool) (lk : Nat) :
    keylatch s (paddlePins s.yackflags d h) lk =
      { s with ditcnt := debounce s.ditcnt (!d), dahcnt := debounce s.dahcnt (!h),
               volflags := latchUpdate (latchUpdate s.volflags (debounce s.ditcnt (!d)) lk DITLATCH)
                 (debounce s.dahcnt (!h)) lk DAHLATCH } := by
  simp only [keylatch, paddlePins_dit, paddlePins_dah]

theorem yackpower_fst (s : Keyer) (n : Bool) :
    ∃ sh, (yackpower s n).1 = { s with shdntimer := sh } := by
  unfold yackpower
  split
  · split
    · exact ⟨_, rfl⟩
    · exact ⟨_, rfl⟩
  · exact ⟨_, rfl⟩

/-- The sampling stage under the paddle assignment of the flags: the timer is counted down, the
sleep counter moves, and the latch is sampled unless the timer is inside the prelatch window. -/
theorem sampleStage_paddle (s : Keyer) (d h : Bool) :
    ∃ sh, (sampleStage s (paddlePins s.yackflags d h)).1 =
      if s.timer - 1 ≥ s.prelatch then
        { s with timer := s.timer - 1, shdntimer := sh,
                 ditcnt := debounce s.ditcnt (!d), dahcnt := debounce s.dahcnt (!h),
                 volflags := latchUpdate (latchUpdate s.volflags (debounce s.ditcnt (!d))
                     s.lastkey DITLATCH) (debounce s.dahcnt (!h)) s.lastkey DAHLATCH }
      else { s with timer := s.timer - 1, shdntimer := sh } := by
  have h1 : (if s.timer > 0 then { s with timer := s.timer - 1 } else s)
      = { s with timer := s.timer - 1 } := by
    split
    · rfl
    · have h0 : s.timer = 0 := by omega
      cases s
      simp only at h0
      subst h0
      rfl
  obtain ⟨sh, hsh⟩ := yackpower_fst { s with timer := s.timer - 1 }
    (decide (({ s with timer := s.timer - 1 } : Keyer).state = FSMSTATE.S_IDLE))
  refine ⟨sh, ?_⟩
  simp only [sampleStage, h1, hsh]
  split
  · rw [show s.yackflags = ({ s with timer := s.timer - 1, shdntimer := sh } : Keyer).yackflags
      from rfl, keylatch_paddle]
  · rfl

theorem debounce_open (c : Nat) : debounce c true = if c < 2 then c + 1 else c := by
  simp [debounce, YACKCNTS]

theorem debounce_closed (c : Nat) : debounce c false = c - 1 := by
  simp only [debounce, YACKCNTS]
  split <;> simp_all

theorem small_bits : ∀ k, k < 4 →
    k &&& 254 = k &&& 2 ∧ k &&& 253 = k &&& 1 ∧ (k ||| 1) &&& 3 = k ||| 1 ∧
    (k ||| 2) &&& 3 = k ||| 2 ∧ (k &&& 2) &&& 3 = k &&& 2 ∧ (k &&& 1) &&& 3 = k &&& 1 ∧
    k &&& 3 = k := by decide

/-- A latch update acts on the two latch bits alone and keeps `volflags` a byte. -/
theorem latchUpdate_dit (v cnt lk : Nat) (hv : v < 256) :
    latchUpdate v cnt lk DITLATCH &&& 3 = latchUpdate (v &&& 3) cnt lk DITLATCH ∧
      latchUpdate v cnt lk DITLATCH < 256 := by
  obtain ⟨b1, _, b3, _, b5, _, b7, _, b9⟩ := latch_bits v hv
  obtain ⟨c1, _, c3, _, c5, _, c7⟩ := small_bits (v &&& 3) b9
  simp only [latchUpdate, DITLATCH, MAX_BYTE, Nat.reduceSub]
  split
  · rw [c1]; exact ⟨b3, b7⟩
  · split
    · exact ⟨b1, b5⟩
    · exact ⟨rfl, hv⟩

theorem latchUpdate_dah (v cnt lk : Nat) (hv : v < 256) :
    latchUpdate v cnt lk DAHLATCH &&& 3 = latchUpdate (v &&& 3) cnt lk DAHLATCH ∧
      latchUpdate v cnt lk DAHLATCH < 256 := by
  obtain ⟨_, b2, _, b4, _, b6, _, b8, b9⟩ := latch_bits v hv
  obtain ⟨_, c2, _, c4, _, c6, c7⟩ := small_bits (v &&& 3) b9
  simp only [latchUpdate, DAHLATCH, MAX_BYTE, Nat.reduceSub]
  split
  · rw [c2]; exact ⟨b4, b8⟩
  · split
    · exact ⟨b2, b6⟩
    · exact ⟨rfl, hv⟩

/-- The sampling stage on the driving fields. -/
theorem sampleStage_core (s : Keyer) (fl w : Nat) (st : FSMSTATE) (t lk bc pl bf k dc hc : Nat)
    (d h : Bool) (hcore : Core s fl w st t lk bc pl bf k dc hc) :
    Core (sampleStage s (paddlePins fl d h)).1 fl w st (t - 1) lk bc pl bf
      (if pl ≤ t - 1 then
        latchUpdate (latchUpdate k (debounce dc (!d)) lk DITLATCH) (debounce hc (!h)) lk DAHLATCH
       else k)
      (if pl ≤ t - 1 then debounce dc (!d) else dc)
      (if pl ≤ t - 1 then debounce hc (!h) else hc) := by
  obtain ⟨rfl, rfl, rfl, rfl, rfl, rfl, rfl, rfl, rfl, hv, rfl, rfl, hit⟩ := hcore
  obtain ⟨sh, hs⟩ := sampleStage_paddle s d h
  rw [hs]
  by_cases hp : s.prelatch ≤ s.timer - 1
  · obtain ⟨a1, a2⟩ := latchUpdate_dit s.volflags (debounce s.ditcnt (!d)) s.lastkey hv
    obtain ⟨a3, a4⟩ := latchUpdate_dah _ (debounce s.dahcnt (!h)) s.lastkey a2
    rw [if_pos hp, if_pos hp, if_pos hp, if_pos hp]
    refine ⟨rfl, rfl, rfl, rfl, rfl, rfl, rfl, rfl, ?_, a4, rfl, rfl, hit⟩
    show latchUpdate _ _ _ _ &&& 3 = _
    rw [a3, a1]
  · rw [if_neg hp, if_neg hp, if_neg hp, if_neg hp]
    exact ⟨rfl, rfl, rfl, rfl, rfl, rfl, rfl, rfl, rfl, hv, rfl, rfl, hit⟩

/-- Outside a decision the timer block does nothing. -/
theorem decisionStage_wait (s : Keyer) (ctrl mode : Nat) (h : s.timer ≠ 0) :
    decisionStage s ctrl mode = (s, 0, []) := by
  simp [decisionStage, h]

/-- The idle block writes `bcntr`, `buffer` and `idletimer` only. -/
theorem idleBlock_frame (s : Keyer) (ctrl : Nat) :
    (idleBlock s ctrl).1.yackflags = s.yackflags ∧ (idleBlock s ctrl).1.volflags = s.volflags ∧
    (idleBlock s ctrl).1.wpmcnt = s.wpmcnt ∧ (idleBlock s ctrl).1.ditcnt = s.ditcnt ∧
    (idleBlock s ctrl).1.dahcnt = s.dahcnt ∧ (idleBlock s ctrl).1.state = s.state ∧
    (idleBlock s ctrl).1.timer = s.timer ∧ (idleBlock s ctrl).1.lastkey = s.lastkey ∧
    (idleBlock s ctrl).1.prelatch = s.prelatch := by
  simp only [idleBlock]
  split_ifs <;> exact ⟨rfl, rfl, rfl, rfl, rfl, rfl, rfl, rfl, rfl⟩

theorem idleBlock_buffer (s : Keyer) (ctrl : Nat) :
    (idleBlock s ctrl).1.bcntr = (if s.state = FSMSTATE.S_IDLE ∧ 0 < s.bcntr then 0 else s.bcntr) ∧
    (idleBlock s ctrl).1.buffer =
      (if s.state = FSMSTATE.S_IDLE ∧ 0 < s.bcntr then C_SPACE else s.buffer) := by
  simp only [idleBlock]
  split_ifs <;> simp_all

theorem idleBlock_idletimer (s : Keyer) (ctrl : Nat) (h : s.idletimer ≤ 255) :
    (idleBlock s ctrl).1.idletimer ≤ 255 := by
  simp only [idleBlock, MAX_BYTE]
  split_ifs <;> simp_all <;> omega

/-- The idle block on the driving fields: a pending character is closed. -/
theorem idleBlock_core (s : Keyer) (fl w : Nat) (st : FSMSTATE) (t lk bc pl bf k dc hc ctrl : Nat)
    (hcore : Core s fl w st t lk bc pl bf k dc hc) :
    Core (idleBlock s ctrl).1 fl w st t lk
      (if st = FSMSTATE.S_IDLE ∧ 0 < bc then 0 else bc) pl
      (if st = FSMSTATE.S_IDLE ∧ 0 < bc then C_SPACE else bf) k dc hc := by
  obtain ⟨rfl, rfl, rfl, rfl, rfl, rfl, rfl, rfl, rfl, hv, rfl, rfl, hit⟩ := hcore
  obtain ⟨a1, a2, a3, a4, a5, a6, a7, a8, a9⟩ := idleBlock_frame s ctrl
  obtain ⟨b1, b2⟩ := idleBlock_buffer s ctrl
  refine ⟨a1, a3, a6, a7, a8, b1, a9, b2, ?_, ?_, a4, a5, idleBlock_idletimer s ctrl hit⟩
  · rw [a2]
  · rw [a2]; exact hv

theorem idleBlock_ret (s : Keyer) (ctrl : Nat) :
    (idleBlock s ctrl).2 =
      if s.state = FSMSTATE.S_IDLE then
        (if s.bcntr > 0 then charOf s.buffer
         else if ctrl ≠ 0 ∧ s.idletimer = toWord (IWGLEN * s.wpmcnt) then C_SPACE else 0)
      else 0 := by
  simp only [idleBlock]
  split
  · split
    · rfl
    · split <;> rfl
  · rfl

/-- The element block leaves the latch, the counters and the idle timer alone and records the
latched key set in `lastkey`. -/
theorem elementBlock_frame (s : Keyer) (mode : Nat) :
    (elementBlock s mode).1.yackflags = s.yackflags ∧ (elementBlock s mode).1.volflags = s.volflags ∧
    (elementBlock s mode).1.wpmcnt = s.wpmcnt ∧ (elementBlock s mode).1.ditcnt = s.ditcnt ∧
    (elementBlock s mode).1.dahcnt = s.dahcnt ∧ (elementBlock s mode).1.idletimer = s.idletimer ∧
    (elementBlock s mode).1.lastkey = s.volflags &&& SQUEEZED := by
  simp only [elementBlock]
  split_ifs <;> simp

/-- With no latch set the element block enters Idle, starting the inter-character gap when an
element was being keyed. -/
theorem elementBlock_none (s : Keyer) (mode : Nat) (h : s.volflags &&& SQUEEZED = 0) :
    (elementBlock s mode).1.state = FSMSTATE.S_IDLE ∧
    (elementBlock s mode).1.timer =
      (if s.state ≠ FSMSTATE.S_IDLE then toWord (ICGLEN * s.wpmcnt) else s.timer) ∧
    (elementBlock s mode).1.prelatch = 0 ∧ (elementBlock s mode).1.bcntr = s.bcntr ∧
    (elementBlock s mode).1.buffer = s.buffer ∧ (elementBlock s mode).2 = [] := by
  simp only [elementBlock, h]
  split_ifs <;> simp_all

/-- With a latch set the element block starts the element chosen by `nextState`. -/
theorem elementBlock_some (s : Keyer) (mode : Nat) (h : 0 < s.volflags &&& SQUEEZED) :
    (elementBlock s mode).1.state = nextState mode s.state s.lastkey (s.volflags &&& SQUEEZED) ∧
    (elementBlock s mode).2 = [DOWN] ∧
    (nextState mode s.state s.lastkey (s.volflags &&& SQUEEZED) = FSMSTATE.S_DIT →
      (elementBlock s mode).1.timer = toWord (DITLEN * s.wpmcnt) ∧
      (elementBlock s mode).1.prelatch = s.prelatch / 2 ∧
      (elementBlock s mode).1.buffer = (buildDit (s.buffer, s.bcntr)).1 ∧
      (elementBlock s mode).1.bcntr = (buildDit (s.buffer, s.bcntr)).2) ∧
    (nextState mode s.state s.lastkey (s.volflags &&& SQUEEZED) ≠ FSMSTATE.S_DIT →
      (elementBlock s mode).1.timer = toWord (DAHLEN * s.wpmcnt) ∧
      (elementBlock s mode).1.prelatch = DITLEN / 2 ∧
      (elementBlock s mode).1.buffer = (buildDah (s.buffer, s.bcntr)).1 ∧
      (elementBlock s mode).1.bcntr = (buildDah (s.buffer, s.bcntr)).2) := by
  have h' : s.volflags &&& SQUEEZED > 0 := h
  simp only [elementBlock, h']
  split_ifs <;> simp_all

theorem yackiambic_fst (s : Keyer) (ctrl : Nat) (p : Pins) :
    (yackiambic s ctrl p).1 = (decisionStage (sampleStage s p).1 ctrl (s.yackflags &&& MODE)).1 :=
  rfl

theorem yackiambic_retchar (s : Keyer) (ctrl : Nat) (p : Pins) :
    (yackiambic s ctrl p).2.retchar =
      (decisionStage (sampleStage s p).1 ctrl (s.yackflags &&& MODE)).2.1 :=
  rfl

theorem yackiambic_down (s : Keyer) (ctrl : Nat) (p : Pins) :
    DOWN ∈ (yackiambic s ctrl p).2.keys ↔
      DOWN ∈ (decisionStage (sampleStage s p).1 ctrl (s.yackflags &&& MODE)).2.2 := by
  simp only [yackiambic]
  split
  · simp [DOWN, UP]
  · rfl

theorem decisionStage_zero (s : Keyer) (ctrl mode : Nat) (h : s.timer = 0) :
    decisionStage s ctrl mode =
      ((elementBlock (idleBlock s ctrl).1 mode).1, (idleBlock s ctrl).2,
        (elementBlock (idleBlock s ctrl).1 mode).2) := by
  simp [decisionStage, h]

/-- A tick that does not reach a decision: the timer counts down and the latch is sampled. -/
theorem tick_core_wait (s : Keyer) (fl w : Nat) (st : FSMSTATE) (t lk bc pl bf k dc hc ctrl : Nat)
    (d h : Bool) (hcore : Core s fl w st t lk bc pl bf k dc hc) (ht : t - 1 ≠ 0) :
    Core (yackiambic s ctrl (paddlePins fl d h)).1 fl w st (t - 1) lk bc pl bf
        (sampledLatch t pl k dc hc lk d h) (sampledCount t pl dc d) (sampledCount t pl hc h) ∧
      (yackiambic s ctrl (paddlePins fl d h)).2.retchar = 0 ∧
      DOWN ∉ (yackiambic s ctrl (paddlePins fl d h)).2.keys := by
  have h3 := sampleStage_core s fl w st t lk bc pl bf k dc hc d h hcore
  have ht3 : (sampleStage s (paddlePins fl d h)).1.timer ≠ 0 := by
    rw [h3.2.2.2.1]; exact ht
  rw [yackiambic_fst, yackiambic_retchar, yackiambic_down,
    decisionStage_wait _ _ _ ht3]
  exact ⟨h3, rfl, by simp⟩

/-- A decision with no latch set: the keyer enters or stays in Idle. -/
theorem tick_core_none (s : Keyer) (fl w : Nat) (st : FSMSTATE) (t lk bc pl bf k dc hc ctrl : Nat)
    (d h : Bool) (hcore : Core s fl w st t lk bc pl bf k dc hc) (ht : t - 1 = 0)
    (hk : sampledLatch t pl k dc hc lk d h = 0) :
    Core (yackiambic s ctrl (paddlePins fl d h)).1 fl w FSMSTATE.S_IDLE
        (if st ≠ FSMSTATE.S_IDLE then toWord (ICGLEN * w) else 0) 0
        (if st = FSMSTATE.S_IDLE ∧ 0 < bc then 0 else bc) 0
        (if st = FSMSTATE.S_IDLE ∧ 0 < bc then C_SPACE else bf) 0
        (sampledCount t pl dc d) (sampledCount t pl hc h) ∧
      DOWN ∉ (yackiambic s ctrl (paddlePins fl d h)).2.keys := by
  have h3 := sampleStage_core s fl w st t lk bc pl bf k dc hc d h hcore
  have ht3 : (sampleStage s (paddlePins fl d h)).1.timer = 0 := by
    rw [h3.2.2.2.1]; exact ht
  have hi := idleBlock_core _ fl w st (t - 1) lk bc pl bf _ _ _ ctrl h3
  obtain ⟨i1, i2, i3, i4, i5, i6, i7, i8, i9, i10, i11, i12, i13⟩ := hi
  have hk0 : (idleBlock (sampleStage s (paddlePins fl d h)).1 ctrl).1.volflags &&& SQUEEZED = 0 := by
    rw [show SQUEEZED = 3 from rfl, i9]; exact hk
  obtain ⟨e1, e2, e3, e4, e5, e6, e7⟩ :=
    elementBlock_frame (idleBlock (sampleStage s (paddlePins fl d h)).1 ctrl).1 (fl &&& MODE)
  obtain ⟨n1, n2, n3, n4, n5, n6⟩ :=
    elementBlock_none (idleBlock (sampleStage s (paddlePins fl d h)).1 ctrl).1 (fl &&& MODE) hk0
  have hfl : s.yackflags = fl := hcore.1
  rw [yackiambic_fst, yackiambic_down, decisionStage_zero _ _ _ ht3, hfl]
  simp only []
  refine ⟨⟨?_, ?_, n1, ?_, ?_, ?_, n3, ?_, ?_, ?_, ?_, ?_, ?_⟩, ?_⟩
  · rw [e1, i1]
  · rw [e3, i2]
  · rw [n2, i3, i2, i4, ht]
  · rw [e7, hk0]
  · rw [n4, i6]
  · rw [n5, i8]
  · rw [e2, i9]; exact hk
  · rw [e2]; exact i10
  · rw [e4, i11]; rfl
  · rw [e5, i12]; rfl
  · rw [e6]; exact i13
  · rw [n6]; simp

/-- A decision with a latch set: the element chosen by `nextState` is started. -/
theorem tick_core_some (s : Keyer) (fl w : Nat) (st : FSMSTATE) (t lk bc pl bf k dc hc ctrl : Nat)
    (d h : Bool) (st' : FSMSTATE) (bc1 bf1 : Nat)
    (hcore : Core s fl w st t lk bc pl bf k dc hc) (ht : t - 1 = 0)
    (hk : 0 < sampledLatch t pl k dc hc lk d h)
    (hst : st' = nextState (fl &&& MODE) st lk (sampledLatch t pl k dc hc lk d h))
    (hbc : bc1 = if st = FSMSTATE.S_IDLE ∧ 0 < bc then 0 else bc)
    (hbf : bf1 = if st = FSMSTATE.S_IDLE ∧ 0 < bc then C_SPACE else bf) :
    Core (yackiambic s ctrl (paddlePins fl d h)).1 fl w st'
        (if st' = FSMSTATE.S_DIT then toWord (DITLEN * w) else toWord (DAHLEN * w))
        (sampledLatch t pl k dc hc lk d h)
        (if st' = FSMSTATE.S_DIT then (buildDit (bf1, bc1)).2 else (buildDah (bf1, bc1)).2)
        (if st' = FSMSTATE.S_DIT then pl / 2 else DITLEN / 2)
        (if st' = FSMSTATE.S_DIT then (buildDit (bf1, bc1)).1 else (buildDah (bf1, bc1)).1)
        (sampledLatch t pl k dc hc lk d h)
        (sampledCount t pl dc d) (sampledCount t pl hc h) ∧
      DOWN ∈ (yackiambic s ctrl (paddlePins fl d h)).2.keys := by
  have h3 := sampleStage_core s fl w st t lk bc pl bf k dc hc d h hcore
  have ht3 : (sampleStage s (paddlePins fl d h)).1.timer = 0 := by
    rw [h3.2.2.2.1]; exact ht
  have hi := idleBlock_core _ fl w st (t - 1) lk bc pl bf _ _ _ ctrl h3
  obtain ⟨i1, i2, i3, i4, i5, i6, i7, i8, i9, i10, i11, i12, i13⟩ := hi
  have hk0 : (idleBlock (sampleStage s (paddlePins fl d h)).1 ctrl).1.volflags &&& SQUEEZED
      = sampledLatch t pl k dc hc lk d h := by
    rw [show SQUEEZED = 3 from rfl, i9]; rfl
  obtain ⟨e1, e2, e3, e4, e5, e6, e7⟩ :=
    elementBlock_frame (idleBlock (sampleStage s (paddlePins fl d h)).1 ctrl).1 (fl &&& MODE)
  obtain ⟨n1, n2, n3, n4⟩ :=
    elementBlock_some (idleBlock (sampleStage s (paddlePins fl d h)).1 ctrl).1 (fl &&& MODE)
      (by rw [hk0]; exact hk)
  rw [hk0, i3, i5, ← hst] at n1 n3 n4
  rw [i2, i7, i8, i6, ← hbc, ← hbf] at n3
  rw [i2, i8, i6, ← hbc, ← hbf] at n4
  have hfl : s.yackflags = fl := hcore.1
  rw [yackiambic_fst, yackiambic_down, decisionStage_zero _ _ _ ht3, hfl]
  simp only []
  refine ⟨⟨?_, ?_, n1, ?_, ?_, ?_, ?_, ?_, ?_, ?_, ?_, ?_, ?_⟩, ?_⟩
  · rw [e1, i1]
  · rw [e3, i2]
  · by_cases hd : st' = FSMSTATE.S_DIT
    · rw [if_pos hd]; exact (n3 hd).1
    · rw [if_neg hd]; exact (n4 hd).1
  · rw [e7, hk0]
  · by_cases hd : st' = FSMSTATE.S_DIT
    · rw [if_pos hd]; exact (n3 hd).2.2.2
    · rw [if_neg hd]; exact (n4 hd).2.2.2
  · by_cases hd : st' = FSMSTATE.S_DIT
    · rw [if_pos hd]; exact (n3 hd).2.1
    · rw [if_neg hd]; exact (n4 hd).2.1
  · by_cases hd : st' = FSMSTATE.S_DIT
    · rw [if_pos hd]; exact (n3 hd).2.2.1
    · rw [if_neg hd]; exact (n4 hd).2.2.1
  · rw [e2, i9]; rfl
  · rw [e2]; exact i10
  · rw [e4, i11]; rfl
  · rw [e5, i12]; rfl
  · rw [e6]; exact i13
  · rw [n2]; simp

/-- The sampling stage counts the timer down and otherwise writes only the latch, the debounce
counters and the sleep counter. -/
theorem sampleStage_frame (s : Keyer) (p : Pins) :
    (sampleStage s p).1.timer = s.timer - 1 ∧ (sampleStage s p).1.state = s.state ∧
    (sampleStage s p).1.bcntr = s.bcntr ∧ (sampleStage s p).1.buffer = s.buffer ∧
    (sampleStage s p).1.idletimer = s.idletimer ∧ (sampleStage s p).1.wpmcnt = s.wpmcnt ∧
    (sampleStage s p).1.yackflags = s.yackflags ∧ (sampleStage s p).1.lastkey = s.lastkey ∧
    (sampleStage s p).1.prelatch = s.prelatch := by
  have h1 : (if s.timer > 0 then { s with timer := s.timer - 1 } else s)
      = { s with timer := s.timer - 1 } := by
    split
    · rfl
    · have h0 : s.timer = 0 := by omega
      cases s
      simp only at h0
      subst h0
      rfl
  obtain ⟨sh, hsh⟩ := yackpower_fst { s with timer := s.timer - 1 }
    (decide (({ s with timer := s.timer - 1 } : Keyer).state = FSMSTATE.S_IDLE))
  simp only [sampleStage, h1, hsh]
  split <;> exact ⟨rfl, rfl, rfl, rfl, rfl, rfl, rfl, rfl, rfl⟩

/-- The value returned on a tick: a character is returned only by a decision taken in Idle
with an element keyed; the space branch needs `ctrl` and an idle timer that can reach the
inter-word count. -/
theorem tick_ret (s : Keyer) (ctrl : Nat) (p : Pins) (hit : s.idletimer ≤ 255)
    (hctrl : ctrl = 0 ∨ 255 < toWord (IWGLEN * s.wpmcnt)) :
    (yackiambic s ctrl p).2.retchar =
      if s.timer - 1 = 0 ∧ s.state = FSMSTATE.S_IDLE ∧ 0 < s.bcntr then charOf s.buffer else 0 := by
  obtain ⟨f1, f2, f3, f4, f5, f6, f7, f8, f9⟩ := sampleStage_frame s p
  rw [yackiambic_retchar]
  by_cases ht : s.timer - 1 = 0
  · rw [decisionStage_zero _ _ _ (by rw [f1]; exact ht)]
    simp only []
    rw [idleBlock_ret, f2, f3, f4, f5, f6]
    have hsp : ¬ (ctrl ≠ 0 ∧ s.idletimer = toWord (IWGLEN * s.wpmcnt)) := by
      rintro ⟨h1, h2⟩
      rcases hctrl with h | h
      · exact h1 h
      · omega
    by_cases hs : s.state = FSMSTATE.S_IDLE
    · by_cases hb : 0 < s.bcntr
      · simp [ht, hs, hb]
      · simp [ht, hs, hb, hsp]
    · simp [hs]
  · rw [decisionStage_wait _ _ _ (by rw [f1]; exact ht)]
    simp [ht]

/-! ### Runs -/

theorem runKeyer_append (s : Keyer) (l1 l2 : List Tick) :
    runKeyer s (l1 ++ l2) = runKeyer (runKeyer s l1) l2 := by
  simp [runKeyer, List.foldl_append]

theorem trace_append (s : Keyer) (l1 l2 : List Tick) :
    trace s (l1 ++ l2) = trace s l1 ++ trace (runKeyer s l1) l2 := by
  induction l1 generalizing s with
  | nil => rfl
  | cons t ts ih =>
    show yackiambic s t.ctrl t.pins :: trace (yackiambic s t.ctrl t.pins).1 (ts ++ l2) = _
    rw [ih]
    rfl



theorem trace_paddle (s : Keyer) (fl ctrl : Nat) (d h : Bool) :
    trace s [paddleTick fl ctrl d h] = [yackiambic s ctrl (paddlePins fl d h)] := rfl

theorem runKeyer_paddle (s : Keyer) (fl ctrl : Nat) (d h : Bool) :
    runKeyer s [paddleTick fl ctrl d h] = (yackiambic s ctrl (paddlePins fl d h)).1 := rfl

theorem replicate_succ_append {α : Type} (n : Nat) (a : α) :
    List.replicate (n + 1) a = [a] ++ List.replicate n a := rfl

theorem startedElement_none (r : Keyer × Out) (h : DOWN ∉ r.2.keys) : startedElement r = none := by
  simp [startedElement, h]

theorem startedElement_dit (r : Keyer × Out) (h : DOWN ∈ r.2.keys)
    (hs : r.1.state = FSMSTATE.S_DIT) : startedElement r = some Element.dit := by
  simp [startedElement, h, hs]

theorem startedElement_dah (r : Keyer × Out) (h : DOWN ∈ r.2.keys)
    (hs : r.1.state = FSMSTATE.S_DAH) : startedElement r = some Element.dah := by
  simp [startedElement, h, hs]

/-! ### A single dit keyed with the dah paddle released -/

theorem latchUpdate_dah_open (k hc lk : Nat) (hlk : lk &&& DAHLATCH = 0) :
    latchUpdate k (debounce hc true) lk DAHLATCH = k := by
  have h1 : 1 ≤ debounce hc true := by rw [debounce_open]; split <;> omega
  simp only [latchUpdate, hlk]
  rw [if_neg (by simp), if_neg (by omega)]

theorem sampledLatch_dah_open (t k dc hc lk : Nat) (d : Bool) (hlk : lk &&& DAHLATCH = 0) :
    sampledLatch t 0 k dc hc lk d false = latchUpdate k (debounce dc (!d)) lk DITLATCH := by
  simp only [sampledLatch, Nat.zero_le, if_true, Bool.not_false]
  exact latchUpdate_dah_open _ _ _ hlk

theorem sampledCount_zero (t c : Nat) (d : Bool) : sampledCount t 0 c d = debounce c (!d) := by
  simp [sampledCount]

theorem tickD_wait (s : Keyer) (fl w : Nat) (st : FSMSTATE) (t lk bc bf k dc ctrl : Nat) (d : Bool)
    (hcore : CoreD s fl w st t lk bc bf k dc) (ht : t - 1 ≠ 0) (hlk : lk &&& DAHLATCH = 0)
    (hctrl : ctrl = 0 ∨ 255 < toWord (IWGLEN * w)) :
    CoreD (yackiambic s ctrl (paddlePins fl d false)).1 fl w st (t - 1) lk bc bf
        (latchUpdate k (debounce dc (!d)) lk DITLATCH) (debounce dc (!d)) ∧
      observe (yackiambic s ctrl (paddlePins fl d false)) = (0, none) := by
  obtain ⟨hc, hcore⟩ := hcore
  obtain ⟨a1, _, a3⟩ := tick_core_wait s fl w st t lk bc 0 bf k dc hc ctrl d false hcore ht
  rw [sampledLatch_dah_open _ _ _ _ _ _ hlk, sampledCount_zero] at a1
  have hw : s.wpmcnt = w := hcore.2.1
  have hr := tick_ret s ctrl (paddlePins fl d false) hcore.2.2.2.2.2.2.2.2.2.2.2.2 (by rw [hw]; exact hctrl)
  rw [hcore.2.2.2.1, if_neg (by tauto)] at hr
  refine ⟨⟨_, a1⟩, ?_⟩
  simp only [observe, hr, startedElement_none _ a3]

theorem tickD_none (s : Keyer) (fl w : Nat) (st : FSMSTATE) (t lk bc bf k dc ctrl : Nat) (d : Bool)
    (hcore : CoreD s fl w st t lk bc bf k dc) (ht : t - 1 = 0) (hlk : lk &&& DAHLATCH = 0)
    (hk : latchUpdate k (debounce dc (!d)) lk DITLATCH = 0)
    (hctrl : ctrl = 0 ∨ 255 < toWord (IWGLEN * w)) :
    CoreD (yackiambic s ctrl (paddlePins fl d false)).1 fl w FSMSTATE.S_IDLE
        (if st ≠ FSMSTATE.S_IDLE then toWord (ICGLEN * w) else 0) 0
        (if st = FSMSTATE.S_IDLE ∧ 0 < bc then 0 else bc)
        (if st = FSMSTATE.S_IDLE ∧ 0 < bc then C_SPACE else bf) 0 (debounce dc (!d)) ∧
      observe (yackiambic s ctrl (paddlePins fl d false)) =
        (if st = FSMSTATE.S_IDLE ∧ 0 < bc then charOf bf else 0, none) := by
  obtain ⟨hc, hcore⟩ := hcore
  obtain ⟨a1, a3⟩ := tick_core_none s fl w st t lk bc 0 bf k dc hc ctrl d false hcore ht
    (by rw [sampledLatch_dah_open _ _ _ _ _ _ hlk]; exact hk)
  rw [sampledCount_zero] at a1
  have hw : s.wpmcnt = w := hcore.2.1
  have hr := tick_ret s ctrl (paddlePins fl d false) hcore.2.2.2.2.2.2.2.2.2.2.2.2 (by rw [hw]; exact hctrl)
  rw [hcore.2.2.2.1, hcore.2.2.1, hcore.2.2.2.2.2.1, hcore.2.2.2.2.2.2.2.1] at hr
  refine ⟨⟨_, a1⟩, ?_⟩
  simp only [observe, hr, startedElement_none _ a3, ht, true_and]

theorem nextState_first_dit (mode : Nat) (st : FSMSTATE) : nextState mode st 0 1 = FSMSTATE.S_DIT := by
  simp [nextState, SQUEEZED, DITLATCH]

theorem tickD_dit (s : Keyer) (fl w t k dc ctrl : Nat) (d : Bool)
    (hcore : CoreD s fl w FSMSTATE.S_IDLE t 0 0 1 k dc) (ht : t - 1 = 0)
    (hk : latchUpdate k (debounce dc (!d)) 0 DITLATCH = 1)
    (hctrl : ctrl = 0 ∨ 255 < toWord (IWGLEN * w)) :
    CoreD (yackiambic s ctrl (paddlePins fl d false)).1 fl w FSMSTATE.S_DIT
        (toWord (DITLEN * w)) 1 1 2 1 (debounce dc (!d)) ∧
      observe (yackiambic s ctrl (paddlePins fl d false)) = (0, some Element.dit) := by
  obtain ⟨hc, hcore⟩ := hcore
  have hl : sampledLatch t 0 k dc hc 0 d false = 1 := by
    rw [sampledLatch_dah_open _ _ _ _ _ _ (by decide)]; exact hk
  obtain ⟨a1, a3⟩ := tick_core_some s fl w FSMSTATE.S_IDLE t 0 0 0 1 k dc hc ctrl d false
    FSMSTATE.S_DIT 0 1 hcore ht (by rw [hl]; decide)
    (by rw [hl, nextState_first_dit]) (by simp) (by simp)
  rw [hl, sampledCount_zero] at a1
  have hw : s.wpmcnt = w := hcore.2.1
  have hr := tick_ret s ctrl (paddlePins fl d false) hcore.2.2.2.2.2.2.2.2.2.2.2.2 (by rw [hw]; exact hctrl)
  rw [hcore.2.2.2.2.2.1, if_neg (by simp)] at hr
  have hb : buildDit (1, 0) = (2, 1) := by decide
  simp only [if_true, hb, Nat.zero_div] at a1
  refine ⟨⟨_, a1⟩, ?_⟩
  simp only [observe, hr, startedElement_dit _ a3 a1.2.2.1]

/-- While the timer runs and the input leaves counter and latch as they are, nothing is
observed and only the timer moves. -/
theorem waitD (fl w : Nat) (st : FSMSTATE) (lk bc bf k dc ctrl m : Nat) (d : Bool)
    (hm : 1 ≤ m) (hlk : lk &&& DAHLATCH = 0) (hdc : debounce dc (!d) = dc)
    (hk : latchUpdate k dc lk DITLATCH = k) (hctrl : ctrl = 0 ∨ 255 < toWord (IWGLEN * w)) :
    ∀ (n : Nat) (s : Keyer), CoreD s fl w st (n + m) lk bc bf k dc →
      (trace s (List.replicate n (paddleTick fl ctrl d false))).map observe
          = List.replicate n (0, none) ∧
        CoreD (runKeyer s (List.replicate n (paddleTick fl ctrl d false))) fl w st m lk bc bf k dc := by
  intro n
  induction n with
  | zero => intro s hs; exact ⟨rfl, by simpa using hs⟩
  | succ n ih =>
    intro s hs
    obtain ⟨t1, t2⟩ := tickD_wait s fl w st (n + 1 + m) lk bc bf k dc ctrl d hs (by omega) hlk hctrl
    rw [hdc, hk, show n + 1 + m - 1 = n + m by omega] at t1
    obtain ⟨i1, i2⟩ := ih _ t1
    rw [replicate_succ_append, trace_append, runKeyer_append, List.map_append, trace_paddle,
      runKeyer_paddle]
    refine ⟨?_, i2⟩
    rw [i1, List.map_singleton, t2]
    rfl

/-- With both paddles released an idle keyer with no element pending observes nothing. -/
theorem quietD (fl w ctrl : Nat) (hctrl : ctrl = 0 ∨ 255 < toWord (IWGLEN * w)) :
    ∀ (n : Nat) (s : Keyer) (dc : Nat), dc ≤ 2 → CoreD s fl w FSMSTATE.S_IDLE 0 0 0 1 0 dc →
      (trace s (List.replicate n (paddleTick fl ctrl false false))).map observe
          = List.replicate n (0, none) ∧
        CoreD (runKeyer s (List.replicate n (paddleTick fl ctrl false false))) fl w
          FSMSTATE.S_IDLE 0 0 0 1 0 (min (dc + n) 2) := by
  intro n
  induction n with
  | zero => intro s dc hdc hs; exact ⟨rfl, by simpa [Nat.min_eq_left hdc] using hs⟩
  | succ n ih =>
    intro s dc hdc hs
    have hd : debounce dc (!false) = min (dc + 1) 2 := by
      rw [Bool.not_false, debounce_open]; split <;> omega
    have hk : latchUpdate 0 (debounce dc (!false)) 0 DITLATCH = 0 := by
      rw [hd]; simp only [latchUpdate]
      rw [if_neg (by simp), if_neg (by omega)]
    obtain ⟨t1, t2⟩ := tickD_none s fl w FSMSTATE.S_IDLE 0 0 0 1 0 dc ctrl false hs rfl
      (by decide) hk hctrl
    simp only [ne_eq, not_true_eq_false, if_false, lt_irrefl, and_false] at t1 t2
    rw [hd] at t1
    obtain ⟨i1, i2⟩ := ih _ (min (dc + 1) 2) (by omega) t1
    rw [replicate_succ_append, trace_append, runKeyer_append, List.map_append, trace_paddle,
      runKeyer_paddle]
    refine ⟨?_, ?_⟩
    · rw [i1, List.map_singleton, t2]
      rfl
    · rw [show min (dc + (n + 1)) 2 = min (min (dc + 1) 2 + n) 2 by omega]
      exact i2

/-- Observations of consecutive stretches of a run follow one another. -/
theorem observe_append (s : Keyer) (l1 l2 : List Tick) (o1 o2 : List (Nat × Option Element))
    (h1 : (trace s l1).map observe = o1)
    (h2 : (trace (runKeyer s l1) l2).map observe = o2) :
    (trace s (l1 ++ l2)).map observe = o1 ++ o2 := by
  rw [trace_append, List.map_append, h1, h2]

/-- Pressing the dit paddle on an idle keyer: the dit starts on the tick that latches it. -/
theorem press_dit (fl w ctrl dc : Nat) (s : Keyer) (hdc : dc ≤ 2)
    (hctrl : ctrl = 0 ∨ 255 < toWord (IWGLEN * w))
    (hs : CoreD s fl w FSMSTATE.S_IDLE 0 0 0 1 0 dc) :
    (trace s (List.replicate (if dc < 2 then 1 else 2) (paddleTick fl ctrl true false))).map observe
        = List.replicate ((if dc < 2 then 1 else 2) - 1) (0, none) ++ [(0, some Element.dit)] ∧
      CoreD (runKeyer s (List.replicate (if dc < 2 then 1 else 2) (paddleTick fl ctrl true false)))
        fl w FSMSTATE.S_DIT (toWord (DITLEN * w)) 1 1 2 1 0 := by
  by_cases h2 : dc < 2
  · rw [if_pos h2]
    have hd : debounce dc (!true) = 0 := by rw [Bool.not_true, debounce_closed]; omega
    obtain ⟨t1, t2⟩ := tickD_dit s fl w 0 0 dc ctrl true hs rfl (by rw [hd]; decide) hctrl
    rw [hd] at t1
    exact ⟨by rw [show List.replicate 1 (paddleTick fl ctrl true false)
        = [paddleTick fl ctrl true false] from rfl, trace_paddle, List.map_singleton, t2]; rfl,
      by rw [show List.replicate 1 (paddleTick fl ctrl true false)
        = [paddleTick fl ctrl true false] from rfl, runKeyer_paddle]; exact t1⟩
  · rw [if_neg h2]
    have hdc2 : dc = 2 := by omega
    subst hdc2
    have hd : debounce 2 (!true) = 1 := by decide
    obtain ⟨t1, t2⟩ := tickD_none s fl w FSMSTATE.S_IDLE 0 0 0 1 0 2 ctrl true hs rfl
      (by decide) (by rw [hd]; decide) hctrl
    simp only [ne_eq, not_true_eq_false, if_false, lt_irrefl, and_false] at t1 t2
    rw [hd] at t1
    have hd' : debounce 1 (!true) = 0 := by decide
    obtain ⟨u1, u2⟩ := tickD_dit _ fl w 0 0 1 ctrl true t1 rfl (by rw [hd']; decide) hctrl
    rw [hd'] at u1
    rw [show List.replicate 2 (paddleTick fl ctrl true false)
        = [paddleTick fl ctrl true false] ++ [paddleTick fl ctrl true false] from rfl,
      trace_append, runKeyer_append, List.map_append, trace_paddle, runKeyer_paddle,
      trace_paddle, runKeyer_paddle, List.map_singleton, List.map_singleton, t2, u2]
    exact ⟨rfl, u1⟩

theorem replicate_split {α : Type} (x : α) (a b : Nat) :
    List.replicate (a + b) x = List.replicate a x ++ List.replicate b x :=
  List.replicate_add a b x

/-- The waiting lemma with the timer given by an equation. -/
theorem waitD_eq (fl w : Nat) (st : FSMSTATE) (lk bc bf k dc ctrl m : Nat) (d : Bool)
    (hm : 1 ≤ m) (hlk : lk &&& DAHLATCH = 0) (hdc : debounce dc (!d) = dc)
    (hk : latchUpdate k dc lk DITLATCH = k) (hctrl : ctrl = 0 ∨ 255 < toWord (IWGLEN * w))
    (n t : Nat) (ht : t = n + m) (s : Keyer) (hs : CoreD s fl w st t lk bc bf k dc) :
    (trace s (List.replicate n (paddleTick fl ctrl d false))).map observe
        = List.replicate n (0, none) ∧
      CoreD (runKeyer s (List.replicate n (paddleTick fl ctrl d false))) fl w st m lk bc bf k dc := by
  subst ht
  exact waitD fl w st lk bc bf k dc ctrl m d hm hlk hdc hk hctrl n s hs


/-- A dit that was started with the paddle released in time, followed by silence: the dit's
timer runs out, the inter-character gap runs out, and the character is returned once. -/
theorem dit_runs (fl w ctrl e M : Nat) (s : Keyer) (hw : DITLEN * w < 65536)
    (he : e + 2 < DITLEN * w) (hctrl : ctrl = 0 ∨ 255 < toWord (IWGLEN * w))
    (hs : CoreD s fl w FSMSTATE.S_DIT (toWord (DITLEN * w)) 1 1 2 1 0) :
    (trace s (List.replicate e (paddleTick fl ctrl true false) ++
        List.replicate (DITLEN * w + ICGLEN * w - e + M) (paddleTick fl ctrl false false))).map observe
      = List.replicate (DITLEN * w + ICGLEN * w - 1) (0, none) ++ [(2, none)] ++
          List.replicate M (0, none) := by
  have hD : DITLEN = 2 := rfl
  have hI : ICGLEN = 2 := rfl
  have hT : toWord (2 * w) = 2 * w := by rw [hD] at hw; unfold toWord; omega
  rw [hD] at hw he
  rw [hD, hI]
  -- the paddle is still pressed
  obtain ⟨oA, sA⟩ := waitD_eq fl w FSMSTATE.S_DIT 1 1 2 1 0 ctrl (2 * w - e) true (by omega)
    (by decide) (by decide) (by decide) hctrl e (toWord (DITLEN * w))
    (by rw [hD, hT]; omega) s hs
  -- two released samples clear the latch
  obtain ⟨sB, oB⟩ := tickD_wait _ fl w FSMSTATE.S_DIT (2 * w - e) 1 1 2 1 0 ctrl false sA
    (by omega) (by decide) hctrl
  rw [show debounce 0 (!false) = 1 by decide,
    show latchUpdate 1 1 1 DITLATCH = 1 by decide] at sB
  obtain ⟨sC, oC⟩ := tickD_wait _ fl w FSMSTATE.S_DIT (2 * w - e - 1) 1 1 2 1 1 ctrl false sB
    (by omega) (by decide) hctrl
  rw [show debounce 1 (!false) = 2 by decide,
    show latchUpdate 1 2 1 DITLATCH = 0 by decide] at sC
  -- the rest of the dit
  obtain ⟨oD, sD⟩ := waitD_eq fl w FSMSTATE.S_DIT 1 1 2 0 2 ctrl 1 false (by omega)
    (by decide) (by decide) (by decide) hctrl (2 * w - e - 3) _ (by omega) _ sC
  -- the dit's timer expires
  obtain ⟨sE, oE⟩ := tickD_none _ fl w FSMSTATE.S_DIT 1 1 1 2 0 2 ctrl false sD rfl
    (by decide) (by decide) hctrl
  rw [if_pos (by decide), if_neg (by simp), if_neg (by simp),
    show debounce 2 (!false) = 2 by decide] at sE
  rw [if_neg (by simp)] at oE
  -- the inter-character gap
  obtain ⟨oF, sF⟩ := waitD_eq fl w FSMSTATE.S_IDLE 0 1 2 0 2 ctrl 1 false (by omega)
    (by decide) (by decide) (by decide) hctrl (2 * w - 1) _ (by rw [hI, hT]; omega) _ sE
  -- the character is returned
  obtain ⟨sG, oG⟩ := tickD_none _ fl w FSMSTATE.S_IDLE 1 0 1 2 0 2 ctrl false sF rfl
    (by decide) (by decide) hctrl
  rw [if_neg (by simp), if_pos (by simp), if_pos (by simp),
    show debounce 2 (!false) = 2 by decide, show C_SPACE = 1 from rfl] at sG
  rw [if_pos (by simp), show charOf 2 = 2 by decide] at oG
  -- silence
  obtain ⟨oH, _⟩ := quietD fl w ctrl hctrl M _ 2 (by omega) sG
  -- the stretches in sequence
  have hl : List.replicate (2 * w + 2 * w - e + M) (paddleTick fl ctrl false false)
      = [paddleTick fl ctrl false false] ++ ([paddleTick fl ctrl false false] ++
        (List.replicate (2 * w - e - 3) (paddleTick fl ctrl false false) ++
        ([paddleTick fl ctrl false false] ++
        (List.replicate (2 * w - 1) (paddleTick fl ctrl false false) ++
        ([paddleTick fl ctrl false false] ++
          List.replicate M (paddleTick fl ctrl false false)))))) := by
    rw [show 2 * w + 2 * w - e + M = 1 + (1 + ((2 * w - e - 3) + (1 + ((2 * w - 1) + (1 + M)))))
      by omega]
    simp only [replicate_split]
    rfl
  have hr : List.replicate (2 * w + 2 * w - 1) ((0 : Nat), (none : Option Element)) ++ [(2, none)]
        ++ List.replicate M (0, none)
      = List.replicate e (0, none) ++ ([(0, none)] ++ ([(0, none)] ++
        (List.replicate (2 * w - e - 3) (0, none) ++ ([(0, none)] ++
        (List.replicate (2 * w - 1) (0, none) ++ ([(2, none)] ++
          List.replicate M (0, none))))))) := by
    rw [show 2 * w + 2 * w - 1 = e + (1 + (1 + ((2 * w - e - 3) + (1 + (2 * w - 1))))) by omega]
    simp only [replicate_split, List.append_assoc]
    rfl
  rw [hl, hr]
  refine observe_append _ _ _ _ _ oA ?_
  refine observe_append _ _ _ _ _ (by rw [trace_paddle, List.map_singleton, oB]) ?_
  rw [runKeyer_paddle]
  refine observe_append _ _ _ _ _ (by rw [trace_paddle, List.map_singleton, oC]) ?_
  rw [runKeyer_paddle]
  refine observe_append _ _ _ _ _ oD ?_
  refine observe_append _ _ _ _ _ (by rw [trace_paddle, List.map_singleton, oE]) ?_
  rw [runKeyer_paddle]
  refine observe_append _ _ _ _ _ oF ?_
  refine observe_append _ _ _ _ _ (by rw [trace_paddle, List.map_singleton, oG]) ?_
  rw [runKeyer_paddle]
  exact oH

/-! ### Squeeze keying -/

theorem paddlePins_squeeze (fl : Nat) : paddlePins fl true true = { ditpin := false, dahpin := false } := by
  unfold paddlePins; split <;> rfl

theorem latch_held (k lk : Nat) (hk : k < 4) (h : k = 3 ∨ lk = 0) :
    latchUpdate (latchUpdate k 0 lk DITLATCH) 0 lk DAHLATCH = 3 := by
  rcases h with h | h
  · subst h
    simp only [latchUpdate, YACKCNTS, DITLATCH, DAHLATCH]
    split_ifs <;> simp_all
  · subst h
    have : k = 0 ∨ k = 1 ∨ k = 2 ∨ k = 3 := by omega
    rcases this with h | h | h | h <;> subst h <;> decide

theorem nextState_iamba_squeeze (st : FSMSTATE) (lk : Nat) :
    nextState IAMBA st lk 3 = stateOf (alternate st) := by
  simp only [nextState, SQUEEZED, alternate]
  split_ifs <;> simp_all [stateOf]

theorem squeeze_tick (s : Keyer) (fl w ctrl : Nat) (st : FSMSTATE) (hm : fl &&& MODE = IAMBA)
    (hs : Squeezed s fl w st) :
    (startedElement (yackiambic s ctrl { ditpin := false, dahpin := false }) = none ∧
        Squeezed (yackiambic s ctrl { ditpin := false, dahpin := false }).1 fl w st) ∨
      (startedElement (yackiambic s ctrl { ditpin := false, dahpin := false })
          = some (alternate st) ∧
        Squeezed (yackiambic s ctrl { ditpin := false, dahpin := false }).1 fl w
          (stateOf (alternate st))) := by
  obtain ⟨t, lk, bc, pl, bf, hcore, hpl, hst⟩ := hs
  have hL : sampledLatch t pl 3 0 0 lk true true = 3 := by
    simp only [sampledLatch]
    split
    · exact latch_held 3 lk (by omega) (Or.inl rfl)
    · rfl
  have hC : sampledCount t pl 0 true = 0 := by
    simp only [sampledCount]; split <;> decide
  rw [← paddlePins_squeeze fl]
  by_cases ht : t - 1 = 0
  · right
    obtain ⟨a1, a2⟩ := tick_core_some s fl w st t lk bc pl bf 3 0 0 ctrl true true
      (stateOf (alternate st)) _ _ hcore ht (by rw [hL]; decide)
      (by rw [hL, hm, nextState_iamba_squeeze]) rfl rfl
    rw [hL, hC] at a1
    refine ⟨?_, ⟨_, _, _, _, _, a1, ?_, ?_⟩⟩
    · cases st <;> simp only [alternate, stateOf] at a1 ⊢
      · exact startedElement_dit _ a2 a1.2.2.1
      · exact startedElement_dah _ a2 a1.2.2.1
      · exact absurd rfl hst
    · split
      · omega
      · decide
    · cases st <;> simp [alternate, stateOf]
  · left
    obtain ⟨a1, _, a3⟩ := tick_core_wait s fl w st t lk bc pl bf 3 0 0 ctrl true true hcore ht
    rw [hL, hC] at a1
    exact ⟨startedElement_none _ a3, ⟨_, _, _, _, _, a1, hpl, hst⟩⟩

theorem elements_cons_none (r : Keyer × Out) (tr : List (Keyer × Out))
    (h : startedElement r = none) : elements (r :: tr) = elements tr := by
  simp only [elements, List.filterMap_cons, h]

theorem elements_cons_some (r : Keyer × Out) (tr : List (Keyer × Out)) (e : Element)
    (h : startedElement r = some e) : elements (r :: tr) = e :: elements tr := by
  simp only [elements, List.filterMap_cons, h]

theorem trace_cons (s : Keyer) (t : Tick) (ts : List Tick) :
    trace s (t :: ts) = yackiambic s t.ctrl t.pins :: trace (yackiambic s t.ctrl t.pins).1 ts := rfl

/-- While both paddles are held in Iambic A the elements started alternate and the keyer never
falls idle. -/
theorem squeeze_run (fl w : Nat) (hm : fl &&& MODE = IAMBA) :
    ∀ (ts : List Tick) (s : Keyer) (st : FSMSTATE),
      (∀ u ∈ ts, u.pins = { ditpin := false, dahpin := false }) → Squeezed s fl w st →
      ∃ m, elements (trace s ts) = alternation (alternate st) m ∧
        ∀ r ∈ trace s ts, r.1.state ≠ FSMSTATE.S_IDLE := by
  intro ts
  induction ts with
  | nil => intro s st _ _; exact ⟨0, rfl, by simp [trace]⟩
  | cons t ts ih =>
    intro s st hts hs
    have ht : t.pins = { ditpin := false, dahpin := false } := hts t (List.mem_cons_self _ _)
    have hts' : ∀ u ∈ ts, u.pins = { ditpin := false, dahpin := false } :=
      fun u hu => hts u (List.mem_cons_of_mem _ hu)
    rw [trace_cons, ht]
    rcases squeeze_tick s fl w t.ctrl st hm hs with ⟨h1, h2⟩ | ⟨h1, h2⟩
    · obtain ⟨m, e1, e2⟩ := ih _ st hts' h2
      refine ⟨m, by rw [elements_cons_none _ _ h1]; exact e1, ?_⟩
      intro r hr
      rcases List.mem_cons.mp hr with h | h
      · obtain ⟨_, _, _, _, _, hc, _, hne⟩ := h2
        rw [h, hc.2.2.1]; exact hne
      · exact e2 r h
    · obtain ⟨m, e1, e2⟩ := ih _ _ hts' h2
      refine ⟨m + 1, by rw [elements_cons_some _ _ _ h1, e1]; rfl, ?_⟩
      intro r hr
      rcases List.mem_cons.mp hr with h | h
      · obtain ⟨_, _, _, _, _, hc, _, hne⟩ := h2
        rw [h, hc.2.2.1]; exact hne
      · exact e2 r h

theorem initKeyer_core (fl vol w : Nat) (hv : vol < 256) :
    Core (initKeyer fl vol w) fl w FSMSTATE.S_IDLE 0 0 0 0 1 (vol &&& 3) 0 0 :=
  ⟨rfl, rfl, rfl, rfl, rfl, rfl, rfl, rfl, rfl, hv, rfl, rfl, by simp [initKeyer]⟩

/-- Both paddles held from the initial state in Iambic A: a dit is started on the first tick
and the elements alternate from there. -/
theorem squeeze_from_init (fl vol w : Nat) (hm : fl &&& MODE = IAMBA) (hv : vol < 256)
    (t : Tick) (ts : List Tick) (ht : t.pins = { ditpin := false, dahpin := false })
    (hts : ∀ u ∈ ts, u.pins = { ditpin := false, dahpin := false }) :
    ∃ m, elements (trace (initKeyer fl vol w) (t :: ts)) = alternation Element.dit (m + 1) ∧
      ∀ r ∈ trace (initKeyer fl vol w) (t :: ts), r.1.state ≠ FSMSTATE.S_IDLE := by
  have hcore := initKeyer_core fl vol w hv
  have hk4 : vol &&& 3 < 4 := (latch_bits vol hv).2.2.2.2.2.2.2.2
  have hL : sampledLatch 0 0 (vol &&& 3) 0 0 0 true true = 3 := by
    simp only [sampledLatch, Nat.zero_le, if_true]
    exact latch_held _ 0 hk4 (Or.inr rfl)
  have hC : sampledCount 0 0 0 true = 0 := by decide
  obtain ⟨a1, a2⟩ := tick_core_some (initKeyer fl vol w) fl w FSMSTATE.S_IDLE 0 0 0 0 1 (vol &&& 3)
    0 0 t.ctrl true true FSMSTATE.S_DIT _ _ hcore rfl (by rw [hL]; decide)
    (by rw [hL, hm, nextState_iamba_squeeze]; rfl) rfl rfl
  rw [hL, hC, paddlePins_squeeze] at a1
  rw [paddlePins_squeeze] at a2
  have hsq : Squeezed (yackiambic (initKeyer fl vol w) t.ctrl { ditpin := false, dahpin := false }).1
      fl w FSMSTATE.S_DIT := ⟨_, _, _, _, _, a1, by simp, by simp⟩
  obtain ⟨m, e1, e2⟩ := squeeze_run fl w hm ts _ FSMSTATE.S_DIT hts hsq
  rw [trace_cons, ht]
  refine ⟨m, by rw [elements_cons_some _ _ _ (startedElement_dit _ a2 a1.2.2.1), e1]; rfl, ?_⟩
  intro r hr
  rcases List.mem_cons.mp hr with h | h
  · rw [h, a1.2.2.1]; simp
  · exact e2 r h

/-- At a decision with a latch set, key-down is requested and the state entered is the one
`nextState` chooses from the mode, the current state, the previous key set and the latches. -/
theorem decision_element (s : Keyer) (ctrl : Nat) (p : Pins) (ht : s.timer ≤ 1)
    (hk : 0 < (yackiambic s ctrl p).1.volflags &&& SQUEEZED) :
    DOWN ∈ (yackiambic s ctrl p).2.keys ∧
      (yackiambic s ctrl p).1.state =
        nextState (s.yackflags &&& MODE) s.state s.lastkey
          ((yackiambic s ctrl p).1.volflags &&& SQUEEZED) := by
  obtain ⟨f1, f2, f3, f4, f5, f6, f7, f8, f9⟩ := sampleStage_frame s p
  have ht3 : (sampleStage s p).1.timer = 0 := by rw [f1]; omega
  obtain ⟨i1, i2, i3, i4, i5, i6, i7, i8, i9⟩ := idleBlock_frame (sampleStage s p).1 ctrl
  obtain ⟨e1, e2, e3, e4, e5, e6, e7⟩ :=
    elementBlock_frame (idleBlock (sampleStage s p).1 ctrl).1 (s.yackflags &&& MODE)
  have hv : (yackiambic s ctrl p).1.volflags = (idleBlock (sampleStage s p).1 ctrl).1.volflags := by
    rw [yackiambic_fst, decisionStage_zero _ _ _ ht3]; exact e2
  rw [hv] at hk ⊢
  obtain ⟨n1, n2, _, _⟩ :=
    elementBlock_some (idleBlock (sampleStage s p).1 ctrl).1 (s.yackflags &&& MODE) hk
  rw [yackiambic_down, yackiambic_fst, decisionStage_zero _ _ _ ht3]
  simp only []
  rw [n1, n2, i6, i8, f2, f8]
  exact ⟨by simp, rfl⟩

/-! ### One dit from the initial state -/

theorem initKeyer_coreD (fl vol w : Nat) (hv : vol < 256) (hl : vol &&& SQUEEZED = 0) :
    CoreD (initKeyer fl vol w) fl w FSMSTATE.S_IDLE 0 0 0 1 0 0 := by
  have h := initKeyer_core fl vol w hv
  rw [show vol &&& 3 = 0 from hl] at h
  exact ⟨0, h⟩

/-- What is observed of a single dit keyed from the initial state and followed by silence. -/
theorem single_dit_observed (fl vol w ctrl a e M : Nat) (hv : vol < 256)
    (hl : vol &&& SQUEEZED = 0) (hw : DITLEN * w < 65536) (he : e + 2 < DITLEN * w)
    (hctrl : ctrl = 0 ∨ 255 < toWord (IWGLEN * w)) :
    (trace (initKeyer fl vol w)
        (singleDit fl ctrl a e (DITLEN * w + ICGLEN * w - e + M))).map observe
      = List.replicate (a + latchTicks a - 1) (0, none) ++ [(0, some Element.dit)] ++
          (List.replicate (DITLEN * w + ICGLEN * w - 1) (0, none) ++ [(2, none)] ++
            List.replicate M (0, none)) := by
  obtain ⟨oA, sA⟩ := quietD fl w ctrl hctrl a _ 0 (by omega) (initKeyer_coreD fl vol w hv hl)
  have hp : (if min (0 + a) 2 < 2 then 1 else 2) = latchTicks a := by
    simp only [latchTicks, YACKCNTS]
    split <;> split <;> omega
  obtain ⟨oB, sB⟩ := press_dit fl w ctrl (min (0 + a) 2) _ (by omega) hctrl sA
  rw [hp] at oB sB
  have oC := dit_runs fl w ctrl e M _ hw he hctrl sB
  have hl : singleDit fl ctrl a e (DITLEN * w + ICGLEN * w - e + M)
      = List.replicate a (paddleTick fl ctrl false false) ++
        (List.replicate (latchTicks a) (paddleTick fl ctrl true false) ++
        (List.replicate e (paddleTick fl ctrl true false) ++
          List.replicate (DITLEN * w + ICGLEN * w - e + M) (paddleTick fl ctrl false false))) := by
    simp only [singleDit, replicate_split, List.append_assoc]
  have hpos : 1 ≤ latchTicks a := by
    simp only [latchTicks, YACKCNTS]; split <;> omega
  have hr : List.replicate (a + latchTicks a - 1) ((0 : Nat), (none : Option Element))
      = List.replicate a (0, none) ++ List.replicate (latchTicks a - 1) (0, none) := by
    rw [show a + latchTicks a - 1 = a + (latchTicks a - 1) by omega, replicate_split]
  rw [hl, observe_append _ _ _ _ _ oA (observe_append _ _ _ _ _ oB oC), hr]
  simp only [List.append_assoc]

theorem speed_counts : ∀ wpm, wpm < 51 → 6 ≤ wpm →
    (24 ≤ speedCount wpm ∧ speedCount wpm ≤ 200) ∧ (24 ≤ WPMCALC wpm ∧ WPMCALC wpm ≤ 200) := by
  decide

theorem returns_eq (tr : List (Keyer × Out)) : returns tr = (tr.map observe).map Prod.fst := by
  simp [returns, observe, Function.comp_def]

theorem started_eq (tr : List (Keyer × Out)) :
    tr.map startedElement = (tr.map observe).map Prod.snd := by
  simp [observe, Function.comp_def]

/-- C6: in every keyer mode and at every speed in [MINWPM, MAXWPM] (with the speed constant of
`yackspeed` or of `yackinit`), from the initial Idle state with both paddles released for `a`
ticks, when the dit paddle is pressed until latched (and `e` ticks longer) and is confirmed
released by YACKCNTS samples before the dit's timer expires, and both paddles then stay
released, `yackiambic (OFF)` starts one dit, on the latching tick, and returns C_E exactly once,
DITLEN*wpmcnt + ICGLEN*wpmcnt ticks after that tick, which is ICGLEN*wpmcnt ticks after the
dit's timer expired; it returns 0 on every other tick. -/
theorem single_dit_returns_E (fl vol wpm w a e M : Nat)
    (hwpm : MINWPM ≤ wpm ∧ wpm ≤ MAXWPM) (hw : w = speedCount wpm ∨ w = WPMCALC wpm)
    (hvol : vol < 256) (hlatch : vol &&& SQUEEZED = 0) (he : e + YACKCNTS < DITLEN * w) :
    returns (trace (initKeyer fl vol w) (singleDit fl OFF a e (DITLEN * w + ICGLEN * w - e + M)))
        = List.replicate (a + latchTicks a - 1 + DITLEN * w + ICGLEN * w) 0 ++ [C_E] ++
            List.replicate M 0 ∧
      (trace (initKeyer fl vol w)
          (singleDit fl OFF a e (DITLEN * w + ICGLEN * w - e + M))).map startedElement
        = List.replicate (a + latchTicks a - 1) none ++ [some Element.dit] ++
            List.replicate (DITLEN * w + ICGLEN * w + M) none := by
  have hs := speed_counts wpm (by have := hwpm.2; simp only [MAXWPM] at this; omega)
    (by have := hwpm.1; simp only [MINWPM] at this; omega)
  have hw200 : 24 ≤ w ∧ w ≤ 200 := by
    rcases hw with h | h <;> subst h
    · exact hs.1
    · exact hs.2
  have hD : DITLEN = 2 := rfl
  have hI : ICGLEN = 2 := rfl
  have hobs := single_dit_observed fl vol w OFF a e M hvol hlatch (by rw [hD]; omega)
    (by simpa [YACKCNTS] using he) (Or.inl rfl)
  rw [returns_eq, started_eq, hobs]
  constructor
  · simp only [List.map_append, List.map_replicate, List.map_cons, List.map_nil, C_E]
    rw [show a + latchTicks a - 1 + DITLEN * w + ICGLEN * w
      = (a + latchTicks a - 1) + (1 + (DITLEN * w + ICGLEN * w - 1)) by rw [hD, hI]; omega]
    simp only [replicate_split, List.append_assoc]
    rfl
  · simp only [List.map_append, List.map_replicate, List.map_cons, List.map_nil]
    rw [show DITLEN * w + ICGLEN * w + M
      = (DITLEN * w + ICGLEN * w - 1) + (1 + M) by rw [hD, hI]; omega]
    simp only [replicate_split, List.append_assoc]
    rfl

/-! ### Claims on the codec -/

set_option maxRecDepth 100000 in
theorem roundtrip_all : ∀ c, c < 233 → 2 ≤ c → (build (yackcharPlays c)).1 = c := by
  decide

/-- C1: for every character code c with 2 <= c <= 232 = f[NFIB-1] - 1, the elements that
`yackchar` keys for c, in transmission order, accumulated by the build rule of `yackiambic`
from buffer = 1 and index = 0, give back exactly c. -/
theorem yackchar_build_roundtrip (c : Nat) (hlo : 2 ≤ c) (hhi : c ≤ f (NFIB - 1) - 1) :
    f (NFIB - 1) - 1 = 232 ∧ (build (yackcharPlays c)).1 = c := by
  have h232 : f (NFIB - 1) - 1 = 232 := by decide
  exact ⟨h232, roundtrip_all c (by omega) hlo⟩

theorem yackchar_build_roundtrip_witness :
    2 ≤ 81 ∧ 81 ≤ f (NFIB - 1) - 1 ∧ (build (yackcharPlays 81)).1 = 81 :=
  ⟨by decide, by decide, (yackchar_build_roundtrip 81 (by decide) (by decide)).2⟩

theorem recognizer_code_decomposes_witness :
    [Element.dit, Element.dit, Element.dit, Element.dah, Element.dit, Element.dah] ≠ [] ∧
      unitLength [Element.dit, Element.dit, Element.dit, Element.dah, Element.dit, Element.dah]
        ≤ NFIB - 3 ∧
      yackcharPlays
          (build [Element.dit, Element.dit, Element.dit, Element.dah, Element.dit, Element.dah]).1
        = [Element.dit, Element.dit, Element.dit, Element.dah, Element.dit, Element.dah] :=
  ⟨by decide, by decide,
    (recognizer_code_decomposes
      [Element.dit, Element.dit, Element.dit, Element.dah, Element.dit, Element.dah]
      (by decide) (by decide)).1.2.2⟩

set_option maxRecDepth 1000000 in
/-- C3 fails on the code: keyed in Iambic A at 50 wpm, the six elements dit dah dah dah dah dah
(unit length 11, one more than the table allows) are not dropped. When the character ends
`yackiambic` returns 120, the accumulator 376 wrapped in its byte, and `yackchar` plays 120 as
dit dah dit dah dah dit, which is not the keyed sequence. -/
theorem overlong_symbol_is_returned :
    events (trace (initKeyer flagsIambicA volInit 24) keyDitFiveDahs) =
        [(0, some Element.dit), (0, some Element.dah), (0, some Element.dah),
          (0, some Element.dah), (0, some Element.dah), (0, some Element.dah), (120, none)] ∧
      unitLength [Element.dit, Element.dah, Element.dah, Element.dah, Element.dah, Element.dah]
        = 11 ∧
      yackcharPlays 120 = [Element.dit, Element.dah, Element.dit, Element.dah, Element.dah,
        Element.dit] := by
  decide

set_option maxRecDepth 1000000 in
/-- C5 fails on the code: keyed in Iambic A at 50 wpm, ten dits bring the accumulator to 144
with index 10, the dah that follows forces it to the sentinel 255 without moving the index, and
the dit keyed after that in the same character is accepted again: the accumulator becomes 88
(255 + f[10] wrapped in its byte), not the sentinel. -/
theorem sentinel_is_left_by_a_dit :
    accumulators (trace (initKeyer flagsIambicA volInit 24) keyTenDitsDahDit) =
      [(Element.dit, 2), (Element.dit, 3), (Element.dit, 5), (Element.dit, 8),
        (Element.dit, 13), (Element.dit, 21), (Element.dit, 34), (Element.dit, 55),
        (Element.dit, 89), (Element.dit, 144), (Element.dah, MAX_BYTE), (Element.dit, 88)] := by
  decide

/-! ### Claims on the keyer -/

theorem single_dit_returns_E_witness :
    (MINWPM ≤ 16 ∧ 16 ≤ MAXWPM) ∧ (75 = speedCount 16 ∨ 75 = WPMCALC 16) ∧
      volInit < 256 ∧ volInit &&& SQUEEZED = 0 ∧ 0 + YACKCNTS < DITLEN * 75 ∧
      returns (trace (initKeyer FLAGDEFAULT volInit 75)
          (singleDit FLAGDEFAULT OFF 2 0 (DITLEN * 75 + ICGLEN * 75 - 0 + 1)))
        = List.replicate (2 + latchTicks 2 - 1 + DITLEN * 75 + ICGLEN * 75) 0 ++ [C_E] ++
            List.replicate 1 0 :=
  ⟨by decide, Or.inl (by decide), by decide, by decide, by decide,
    (single_dit_returns_E FLAGDEFAULT volInit 16 75 2 0 1 (by decide) (Or.inl (by decide))
      (by decide) (by decide) (by decide)).1⟩

set_option maxRecDepth 1000000 in
/-- C7 fails on the code. At the default speed (DEFWPM = 16, wpmcnt = 75) with ctrl = ON, after
the character E has been returned, `yackiambic` returns 0 on each of the next M ticks of
silence, however large M is: the idle timer saturates at MAX_BYTE = 255 and never equals
IWGLEN * wpmcnt = 300, so C_SPACE is never returned. At 50 wpm (wpmcnt = 24, IWGLEN * wpmcnt =
96) a space follows the first character of a run only: the idle timer is never reset, so after
the second E of the run no space is returned. -/
theorem word_space_is_not_returned (M : Nat) :
    returns (trace (initKeyer FLAGDEFAULT volInit (WPMCALC DEFWPM))
        (singleDit FLAGDEFAULT ON 2 0 (DITLEN * 75 + ICGLEN * 75 + M)))
      = List.replicate (3 + DITLEN * 75 + ICGLEN * 75) 0 ++ [C_E] ++ List.replicate M 0 ∧
    events (trace (initKeyer flagsIambicA volInit 24)
        (singleDit flagsIambicA ON 2 0 190 ++ singleDit flagsIambicA ON 0 1 250))
      = [(0, some Element.dit), (C_E, none), (C_SPACE, none), (0, some Element.dit),
          (C_E, none)] := by
  constructor
  · have hobs := single_dit_observed FLAGDEFAULT volInit 75 ON 2 0 M (by decide) (by decide)
      (by decide) (by decide) (Or.inr (by decide))
    rw [show WPMCALC DEFWPM = 75 from by decide, returns_eq,
      show DITLEN * 75 + ICGLEN * 75 + M = DITLEN * 75 + ICGLEN * 75 - 0 + M from rfl, hobs]
    simp only [List.map_append, List.map_replicate, List.map_cons, List.map_nil, C_E]
    rw [show 3 + DITLEN * 75 + ICGLEN * 75
      = (2 + latchTicks 2 - 1) + (1 + (DITLEN * 75 + ICGLEN * 75 - 1)) from by decide]
    simp only [replicate_split, List.append_assoc]
    rfl
  · decide

theorem squeeze_latch (t pl lk : Nat) : sampledLatch t pl 3 0 0 lk true true = 3 := by
  simp only [sampledLatch]
  split
  · exact latch_held 3 lk (by omega) (Or.inl rfl)
  · rfl

theorem squeeze_count (t pl : Nat) : sampledCount t pl 0 true = 0 := by
  simp only [sampledCount]; split <;> decide

theorem squeezeAt_wait_tick (s : Keyer) (fl w ctrl : Nat) (st : FSMSTATE) (t pl : Nat)
    (hs : SqueezedAt s fl w st t pl) (ht : t - 1 ≠ 0) :
    SqueezedAt (yackiambic s ctrl (paddlePins fl true true)).1 fl w st (t - 1) pl ∧
      startedElement (yackiambic s ctrl (paddlePins fl true true)) = none := by
  obtain ⟨lk, bc, bf, hcore⟩ := hs
  obtain ⟨a1, _, a3⟩ := tick_core_wait s fl w st t lk bc pl bf 3 0 0 ctrl true true hcore ht
  rw [squeeze_latch, squeeze_count] at a1
  exact ⟨⟨_, _, _, a1⟩, startedElement_none _ a3⟩

theorem squeezeAt_decide_tick (s : Keyer) (fl w ctrl : Nat) (st : FSMSTATE) (t pl : Nat)
    (hm : fl &&& MODE = IAMBA) (hs : SqueezedAt s fl w st t pl) (ht : t - 1 = 0) :
    SqueezedAt (yackiambic s ctrl (paddlePins fl true true)).1 fl w (stateOf (alternate st))
        (if stateOf (alternate st) = FSMSTATE.S_DIT then toWord (DITLEN * w)
          else toWord (DAHLEN * w))
        (if stateOf (alternate st) = FSMSTATE.S_DIT then pl / 2 else DITLEN / 2) ∧
      startedElement (yackiambic s ctrl (paddlePins fl true true)) = some (alternate st) := by
  obtain ⟨lk, bc, bf, hcore⟩ := hs
  obtain ⟨a1, a2⟩ := tick_core_some s fl w st t lk bc pl bf 3 0 0 ctrl true true
    (stateOf (alternate st)) _ _ hcore ht (by rw [squeeze_latch]; decide)
    (by rw [squeeze_latch, hm, nextState_iamba_squeeze]) rfl rfl
  rw [squeeze_latch, squeeze_count] at a1
  refine ⟨⟨_, _, _, a1⟩, ?_⟩
  cases st <;> simp only [alternate, stateOf] at a1 ⊢
  · exact startedElement_dit _ a2 a1.2.2.1
  · exact startedElement_dah _ a2 a1.2.2.1
  · exact startedElement_dit _ a2 a1.2.2.1

/-- While the timer of an element runs during a squeeze no element is started. -/
theorem squeezeAt_wait (fl w ctrl : Nat) (st : FSMSTATE) (pl m : Nat) (hm : 1 ≤ m) :
    ∀ (n t : Nat) (s : Keyer), t = n + m → SqueezedAt s fl w st t pl →
      (trace s (List.replicate n (paddleTick fl ctrl true true))).map startedElement
          = List.replicate n none ∧
        SqueezedAt (runKeyer s (List.replicate n (paddleTick fl ctrl true true))) fl w st m pl := by
  intro n
  induction n with
  | zero => intro t s ht hs; subst ht; exact ⟨rfl, by simpa using hs⟩
  | succ n ih =>
    intro t s ht hs
    subst ht
    obtain ⟨t1, t2⟩ := squeezeAt_wait_tick s fl w ctrl st (n + 1 + m) pl hs (by omega)
    obtain ⟨i1, i2⟩ := ih (n + 1 + m - 1) _ (by omega) t1
    rw [replicate_succ_append, trace_append, runKeyer_append, List.map_append, trace_paddle,
      runKeyer_paddle]
    refine ⟨?_, i2⟩
    rw [i1, List.map_singleton, t2]
    rfl

theorem started_append (s : Keyer) (l1 l2 : List Tick) (o1 o2 : List (Option Element))
    (h1 : (trace s l1).map startedElement = o1)
    (h2 : (trace (runKeyer s l1) l2).map startedElement = o2) :
    (trace s (l1 ++ l2)).map startedElement = o1 ++ o2 := by
  rw [trace_append, List.map_append, h1, h2]

/-- One period of a squeeze in Iambic A, entered as a dit starts: the dit's time, a dah, the
dah's time, and the next dit. -/
theorem squeeze_period (fl w ctrl : Nat) (s : Keyer) (hm : fl &&& MODE = IAMBA) (hw : 1 ≤ w)
    (hw4 : DAHLEN * w < 65536)
    (hs : SqueezedAt s fl w FSMSTATE.S_DIT (toWord (DITLEN * w)) 0) :
    (trace s (List.replicate (DITLEN * w + DAHLEN * w) (paddleTick fl ctrl true true))).map
          startedElement
        = List.replicate (DITLEN * w - 1) none ++ ([some Element.dah] ++
            (List.replicate (DAHLEN * w - 1) none ++ [some Element.dit])) ∧
      SqueezedAt (runKeyer s (List.replicate (DITLEN * w + DAHLEN * w)
        (paddleTick fl ctrl true true))) fl w FSMSTATE.S_DIT (toWord (DITLEN * w)) 0 := by
  have hD : DITLEN = 2 := rfl
  have hH : DAHLEN = 4 := rfl
  rw [hH] at hw4
  have hT2 : toWord (DITLEN * w) = 2 * w := by rw [hD]; unfold toWord; omega
  have hT4 : toWord (DAHLEN * w) = 4 * w := by rw [hH]; unfold toWord; omega
  obtain ⟨oA, sA⟩ := squeezeAt_wait fl w ctrl FSMSTATE.S_DIT 0 1 (by omega) (2 * w - 1)
    (toWord (DITLEN * w)) s (by rw [hT2]; omega) hs
  obtain ⟨sB, oB⟩ := squeezeAt_decide_tick _ fl w ctrl FSMSTATE.S_DIT 1 0 hm sA rfl
  simp only [alternate, stateOf, if_true, if_false, reduceCtorEq] at sB oB
  obtain ⟨oC, sC⟩ := squeezeAt_wait fl w ctrl FSMSTATE.S_DAH (DITLEN / 2) 1 (by omega) (4 * w - 1)
    (toWord (DAHLEN * w)) _ (by rw [hT4]; omega) sB
  obtain ⟨sD, oD⟩ := squeezeAt_decide_tick _ fl w ctrl FSMSTATE.S_DAH 1 (DITLEN / 2) hm sC rfl
  simp only [alternate, stateOf, if_true, if_false, reduceCtorEq] at sD oD
  have hl : List.replicate (DITLEN * w + DAHLEN * w) (paddleTick fl ctrl true true)
      = List.replicate (2 * w - 1) (paddleTick fl ctrl true true) ++
        ([paddleTick fl ctrl true true] ++
        (List.replicate (4 * w - 1) (paddleTick fl ctrl true true) ++
          [paddleTick fl ctrl true true])) := by
    rw [show DITLEN * w + DAHLEN * w = (2 * w - 1) + (1 + ((4 * w - 1) + 1)) by
      rw [hD, hH]; omega]
    simp only [replicate_split]
    rfl
  rw [hl, hD, hH]
  constructor
  · refine started_append _ _ _ _ _ oA ?_
    refine started_append _ _ _ _ _ (by rw [trace_paddle, List.map_singleton, oB]) ?_
    rw [runKeyer_paddle]
    refine started_append _ _ _ _ _ oC ?_
    rw [trace_paddle, List.map_singleton, oD]
  · rw [runKeyer_append, runKeyer_append, runKeyer_append, runKeyer_paddle, runKeyer_paddle]
    exact sD


theorem elements_append (tr1 tr2 : List (Keyer × Out)) :
    elements (tr1 ++ tr2) = elements tr1 ++ elements tr2 := by
  simp only [elements, List.filterMap_append]

theorem elements_of_started (tr : List (Keyer × Out)) :
    elements tr = (tr.map startedElement).filterMap id := by
  simp only [elements, List.filterMap_map, Function.id_comp]

theorem filterMap_none (n : Nat) :
    (List.replicate n (none : Option Element)).filterMap id = [] := by
  induction n with
  | zero => rfl
  | succ n ih => rw [List.replicate_succ, List.filterMap_cons_none rfl, ih]

/-- The elements started over `c` periods of a squeeze in Iambic A, entered as a dit starts. -/
theorem squeeze_periods (fl w ctrl : Nat) (hm : fl &&& MODE = IAMBA) (hw : 1 ≤ w)
    (hw4 : DAHLEN * w < 65536) :
    ∀ (c : Nat) (s : Keyer), SqueezedAt s fl w FSMSTATE.S_DIT (toWord (DITLEN * w)) 0 →
      elements (trace s (List.replicate (c * (DITLEN * w + DAHLEN * w))
        (paddleTick fl ctrl true true))) = alternation Element.dah (2 * c) := by
  intro c
  induction c with
  | zero => intro s _; simp [trace, elements, alternation]
  | succ c ih =>
    intro s hs
    obtain ⟨p1, p2⟩ := squeeze_period fl w ctrl s hm hw hw4 hs
    rw [show (c + 1) * (DITLEN * w + DAHLEN * w)
        = (DITLEN * w + DAHLEN * w) + c * (DITLEN * w + DAHLEN * w) by ring,
      replicate_split, trace_append, elements_append, ih _ p2, elements_of_started, p1]
    simp only [List.filterMap_append, filterMap_none, List.nil_append]
    rw [show 2 * (c + 1) = (2 * c + 1) + 1 by ring]
    rfl

/-- The first tick of a squeeze from the initial state in Iambic A starts a dit. -/
theorem squeeze_first_tick (fl vol w ctrl : Nat) (hm : fl &&& MODE = IAMBA) (hv : vol < 256) :
    SqueezedAt (yackiambic (initKeyer fl vol w) ctrl (paddlePins fl true true)).1 fl w
        FSMSTATE.S_DIT (toWord (DITLEN * w)) 0 ∧
      startedElement (yackiambic (initKeyer fl vol w) ctrl (paddlePins fl true true))
        = some Element.dit := by
  have hcore := initKeyer_core fl vol w hv
  have hk4 : vol &&& 3 < 4 := (latch_bits vol hv).2.2.2.2.2.2.2.2
  have hL : sampledLatch 0 0 (vol &&& 3) 0 0 0 true true = 3 := by
    simp only [sampledLatch, Nat.zero_le, if_true]
    exact latch_held _ 0 hk4 (Or.inr rfl)
  have hC : sampledCount 0 0 0 true = 0 := by decide
  obtain ⟨a1, a2⟩ := tick_core_some (initKeyer fl vol w) fl w FSMSTATE.S_IDLE 0 0 0 0 1 (vol &&& 3)
    0 0 ctrl true true FSMSTATE.S_DIT _ _ hcore rfl (by rw [hL]; decide)
    (by rw [hL, hm, nextState_iamba_squeeze]; rfl) rfl rfl
  rw [hL, hC] at a1
  simp only [if_true, Nat.zero_div] at a1
  exact ⟨⟨_, _, _, a1⟩, startedElement_dit _ a2 a1.2.2.1⟩

/-- Both paddles held from the initial state in Iambic A for one tick and `c` periods: the
elements started are the first `1 + 2 * c` of dit, dah, dit, dah, ... -/
theorem squeeze_counts (fl vol w c : Nat) (hm : fl &&& MODE = IAMBA) (hv : vol < 256)
    (hw : 1 ≤ w) (hw4 : DAHLEN * w < 65536) :
    elements (trace (initKeyer fl vol w) (squeeze fl (1 + c * (DITLEN * w + DAHLEN * w))))
      = alternation Element.dit (1 + 2 * c) := by
  obtain ⟨f1, f2⟩ := squeeze_first_tick fl vol w OFF hm hv
  have hp := squeeze_periods fl w OFF hm hw hw4 c _ f1
  rw [squeeze, replicate_split, trace_append, elements_append,
    show List.replicate 1 (paddleTick fl OFF true true) = [paddleTick fl OFF true true] from rfl,
    runKeyer_paddle, hp, trace_paddle, elements_cons_some _ _ _ f2,
    show 1 + 2 * c = 2 * c + 1 by ring]
  rfl

theorem nextState_single (st : FSMSTATE) (lk : Nat) :
    nextState IAMBA st lk DITLATCH = FSMSTATE.S_DIT ∧
      nextState IAMBA st lk DAHLATCH = FSMSTATE.S_DAH := by
  simp [nextState, IAMBA, SQUEEZED, DITLATCH, DAHLATCH, DACTYL]

/-- C8: in Iambic A mode, (1) from the initial Idle state, while both paddles are held (which
keeps both latches set), a dit is started on the first tick, the elements started by
`yackiambic` alternate dit, dah, dit, dah, ... for as long as the squeeze lasts, and the keyer
never falls idle; (2) at every element decision, in any state, with both latches set the element
started is the one alternating with the current state (a dit from Idle or after a dah, a dah
after a dit), and with a single latch set it is the element of that latch; (3) at any speed
count wpmcnt >= 1 that fits the timer, the squeeze starts 1 + 2c alternating elements in its
first 1 + c * (DITLEN + DAHLEN) * wpmcnt ticks, for every c. -/
theorem iambic_a_squeeze_alternates (fl vol w : Nat) (hm : fl &&& MODE = IAMBA)
    (hv : vol < 256) :
    (∀ (t : Tick) (ts : List Tick), t.pins = { ditpin := false, dahpin := false } →
        (∀ u ∈ ts, u.pins = { ditpin := false, dahpin := false }) →
        ∃ m, elements (trace (initKeyer fl vol w) (t :: ts)) = alternation Element.dit (m + 1) ∧
          ∀ r ∈ trace (initKeyer fl vol w) (t :: ts), r.1.state ≠ FSMSTATE.S_IDLE) ∧
    (∀ (s : Keyer) (ctrl : Nat) (p : Pins), s.yackflags = fl → s.timer ≤ 1 →
        ((yackiambic s ctrl p).1.volflags &&& SQUEEZED = SQUEEZED →
          startedElement (yackiambic s ctrl p) = some (alternate s.state)) ∧
        ((yackiambic s ctrl p).1.volflags &&& SQUEEZED = DITLATCH →
          startedElement (yackiambic s ctrl p) = some Element.dit) ∧
        ((yackiambic s ctrl p).1.volflags &&& SQUEEZED = DAHLATCH →
          startedElement (yackiambic s ctrl p) = some Element.dah)) ∧
    (∀ c : Nat, 1 ≤ w → DAHLEN * w < 65536 →
        elements (trace (initKeyer fl vol w) (squeeze fl (1 + c * (DITLEN * w + DAHLEN * w))))
          = alternation Element.dit (1 + 2 * c)) := by
  refine ⟨fun t ts ht hts => squeeze_from_init fl vol w hm hv t ts ht hts, ?_,
    fun c hw hw4 => squeeze_counts fl vol w c hm hv hw hw4⟩
  intro s ctrl p hfl ht
  refine ⟨?_, ?_, ?_⟩
  · intro hk
    obtain ⟨d1, d2⟩ := decision_element s ctrl p ht (by rw [hk]; decide)
    rw [hk, hfl, hm, show SQUEEZED = 3 from rfl, nextState_iamba_squeeze] at d2
    cases hst : s.state <;> rw [hst] at d2 <;> simp only [alternate, stateOf] at d2 ⊢
    · exact startedElement_dit _ d1 d2
    · exact startedElement_dah _ d1 d2
    · exact startedElement_dit _ d1 d2
  · intro hk
    obtain ⟨d1, d2⟩ := decision_element s ctrl p ht (by rw [hk]; decide)
    rw [hk, hfl, hm, (nextState_single _ _).1] at d2
    exact startedElement_dit _ d1 d2
  · intro hk
    obtain ⟨d1, d2⟩ := decision_element s ctrl p ht (by rw [hk]; decide)
    rw [hk, hfl, hm, (nextState_single _ _).2] at d2
    exact startedElement_dah _ d1 d2

theorem iambic_a_squeeze_alternates_witness :
    flagsIambicA &&& MODE = IAMBA ∧ volInit < 256 ∧
      elements (trace (initKeyer flagsIambicA volInit 75)
          (squeeze flagsIambicA (1 + 3 * (DITLEN * 75 + DAHLEN * 75))))
        = alternation Element.dit (1 + 2 * 3) :=
  ⟨by decide, by decide,
    (iambic_a_squeeze_alternates flagsIambicA volInit 75 (by decide) (by decide)).2.2 3
      (by decide) (by decide)⟩

set_option maxRecDepth 1000000 in
/-- C9 fails on the code for DAHPR: with both latches set `nextState` chooses a dit in DAHPR mode
as it does in DITPR mode, from every state and previous key set; with both paddles held from the
initial state for 60 ticks at 50 wpm the keyer in DAHPR mode starts dit, dit. -/
theorem dahpr_squeeze_keys_dits :
    (∀ (st : FSMSTATE) (lk : Nat), nextState DAHPR st lk SQUEEZED = FSMSTATE.S_DIT ∧
        nextState DITPR st lk SQUEEZED = FSMSTATE.S_DIT) ∧
      elements (trace (initKeyer (DAHPR ||| TXKEY ||| SIDETONE) volInit 24)
          (squeeze (DAHPR ||| TXKEY ||| SIDETONE) 60))
        = [Element.dit, Element.dit] := by
  constructor
  · intro st lk
    simp [nextState, DAHPR, DITPR, IAMBA, SQUEEZED, DITLATCH, DACTYL]
  · decide

set_option maxRecDepth 1000000 in
/-- C10 fails on the code: with both latches set `nextState` chooses a dit in IAMBB mode from
every state and previous key set, also right after a dit; with both paddles held from the
initial state for 60 ticks at 50 wpm the keyer in IAMBB mode starts dit, dit where Iambic A
starts dit, dah. -/
theorem iambb_squeeze_keys_dits :
    (∀ (st : FSMSTATE) (lk : Nat), nextState IAMBB st lk SQUEEZED = FSMSTATE.S_DIT) ∧
      elements (trace (initKeyer (IAMBB ||| TXKEY ||| SIDETONE) volInit 24)
          (squeeze (IAMBB ||| TXKEY ||| SIDETONE) 60))
        = [Element.dit, Element.dit] ∧
      elements (trace (initKeyer flagsIambicA volInit 24) (squeeze flagsIambicA 60))
        = [Element.dit, Element.dah] := by
  refine ⟨?_, ?_, ?_⟩
  · intro st lk
    simp [nextState, IAMBB, IAMBA, SQUEEZED, DITLATCH, DACTYL]
  · decide
  · decide

/-! ### Playback -/

theorem beats_add (a b : Nat) : beats (a + b) = beats a ++ beats b := by
  induction a with
  | zero => simp [beats]
  | succ a ih => rw [Nat.succ_add, beats, beats, ih, List.cons_append]

theorem delayLoop_eq (x n : Nat) : delayLoop x n = beats (n * x) := by
  induction n with
  | zero => simp [delayLoop, beats]
  | succ n ih => rw [delayLoop, ih, Nat.succ_mul, Nat.add_comm, beats_add]

/-- For a byte `n`, `yackdel (n)` waits `n` times the low byte of the speed count. -/
theorem yackdel_eq (c : Chip) (n : Nat) (hn : n < 256) :
    yackdel c n = beats (n * toByte c.keyer.wpmcnt) := by
  rw [yackdel, delayLoop_eq, toByte, toByte, Nat.mod_eq_of_lt hn]

theorem yackdel_wpmcnt (c c2 : Chip) (n : Nat) (h : c2.keyer.wpmcnt = c.keyer.wpmcnt) :
    yackdel c2 n = yackdel c n := by
  rw [yackdel, yackdel, h]

theorem yackplay_wpmcnt (c : Chip) (i : Nat) :
    (yackplay c i).1.keyer.wpmcnt = c.keyer.wpmcnt := by
  obtain ⟨sh, hsh⟩ := yackpower_fst c.keyer false
  show (yackpower c.keyer false).1.wpmcnt = _
  rw [hsh]

/-- The events of `yackplay (i)`: key-down, the delay chosen by `i`, key-up, the gap. -/
theorem yackplay_events (c : Chip) (i : Nat) :
    (yackplay c i).2 =
      Event.key DOWN ::
        ((if i = DAH then yackdel c (DAHLEN - IEGLEN)
          else if i = DIT then yackdel c (DITLEN - IEGLEN) else []) ++
        Event.key UP :: yackdel c IEGLEN) := by
  have h1 : ({ (yackkey c DOWN).1 with keyer := (yackpower (yackkey c DOWN).1.keyer false).1 }
      : Chip).keyer.wpmcnt = c.keyer.wpmcnt := by
    obtain ⟨sh, hsh⟩ := yackpower_fst c.keyer false
    show (yackpower c.keyer false).1.wpmcnt = _
    rw [hsh]
  have e1 := yackdel_wpmcnt c _ (DAHLEN - IEGLEN) h1
  have e2 := yackdel_wpmcnt c _ (DITLEN - IEGLEN) h1
  have e3 := yackdel_wpmcnt c _ IEGLEN (yackplay_wpmcnt c i)
  simp only [yackplay, yackkey] at e3 ⊢
  simp only [yackkey] at e1 e2
  rw [e1, e2, e3]
  simp

/-- Playing an element produces the events of the element. -/
theorem yackplay_element (c : Chip) (e : Element) :
    (yackplay c (if bufCode e ≠ 0 then DAH else DIT)).2
      = keyedElement (toByte c.keyer.wpmcnt) e := by
  rw [yackplay_events]
  cases e with
  | dit =>
    rw [yackdel_eq c IEGLEN (by decide), yackdel_eq c (DITLEN - IEGLEN) (by decide)]
    simp [bufCode, keyedElement, DIT, DAH]
  | dah =>
    rw [yackdel_eq c IEGLEN (by decide), yackdel_eq c (DAHLEN - IEGLEN) (by decide)]
    simp [bufCode, keyedElement, DIT, DAH]

/-- The playback loop produces the events of the buffered elements in the order read. -/
theorem playBuffer_events (buf : List Nat) :
    ∀ c : Chip,
      (playBuffer c buf).1.keyer.wpmcnt = c.keyer.wpmcnt ∧
        (playBuffer c buf).2 = keyedElements (toByte c.keyer.wpmcnt) (buf.map playOf) := by
  induction buf with
  | nil => intro c; exact ⟨rfl, rfl⟩
  | cons b bs ih =>
    intro c
    have hp := yackplay_wpmcnt c (if b ≠ 0 then DAH else DIT)
    obtain ⟨i1, i2⟩ := ih (yackplay c (if b ≠ 0 then DAH else DIT)).1
    rw [hp] at i1 i2
    have he : (yackplay c (if b ≠ 0 then DAH else DIT)).2
        = keyedElement (toByte c.keyer.wpmcnt) (playOf b) := by
      have := yackplay_element c (playOf b)
      by_cases hb : b = 0
      · subst hb; simpa [playOf, bufCode] using this
      · simpa [playOf, bufCode, hb] using this
    refine ⟨i1, ?_⟩
    show (yackplay c (if b ≠ 0 then DAH else DIT)).2 ++ _ = _
    rw [he, i2]
    rfl

/-- The events of `yackchar (ch)` for a code with elements: the elements of the decomposition
in transmission order, then the inter-character gap. -/
theorem yackchar_events (c : Chip) (ch : Nat) (hch : 2 ≤ ch) :
    (yackchar c ch).2 =
      keyedElements (toByte c.keyer.wpmcnt) (yackcharPlays ch) ++
        beats (ICGLEN * toByte c.keyer.wpmcnt) := by
  obtain ⟨p1, p2⟩ := playBuffer_events (yackcharLoop (NFIB - 2) ch []).reverse c
  have hd := yackdel_eq (playBuffer c (yackcharLoop (NFIB - 2) ch []).reverse).1 ICGLEN
    (by decide)
  rw [p1] at hd
  simp only [yackchar, yackcharPlays]
  rw [if_neg (by omega), if_neg (by omega), if_neg (by omega), if_neg (by omega)]
  simp only []
  rw [p2, hd]

theorem key_not_mem_beats (m n : Nat) : Event.key m ∉ beats n := by
  induction n with
  | zero => simp [beats]
  | succ n ih => simp [beats, ih]

/-! ### Bits of the volatile flags -/

theorem or_dirty (v : Nat) : (v ||| DIRTYFLAG) &&& DIRTYFLAG ≠ 0 := by
  have h4 : Nat.testBit DIRTYFLAG 2 = true := by decide
  have h : ((v ||| DIRTYFLAG) &&& DIRTYFLAG).testBit 2 = true := by
    rw [Nat.testBit_and, Nat.testBit_or, h4]; simp
  intro h0; rw [h0] at h; simp at h

theorem and_not_dirty (v : Nat) : (v &&& (MAX_BYTE - DIRTYFLAG)) &&& DIRTYFLAG = 0 := by
  rw [Nat.and_assoc]; exact Nat.and_zero v

/-! ### Claims on playback -/

/-- C11: at every speed in [MINWPM, MAXWPM], with the speed count as yackspeed or yackinit
computes it, and for every code 2..232, the events of yackchar are, for each element of the
decomposition in transmission order, key-down, (DITLEN-IEGLEN)*wpmcnt beats for a dit or
(DAHLEN-IEGLEN)*wpmcnt beats for a dah, key-up and IEGLEN*wpmcnt beats, followed after the last
element by ICGLEN*wpmcnt beats; the events of yackchar(C_SPACE) are IWGLEN*wpmcnt beats and
contain no key event. -/
theorem yackchar_keys_elements (c : Chip) (wpm ch : Nat) (hw : MINWPM ≤ wpm ∧ wpm ≤ MAXWPM)
    (hc : c.keyer.wpmcnt = speedCount wpm ∨ c.keyer.wpmcnt = WPMCALC wpm)
    (hch : 2 ≤ ch ∧ ch ≤ 232) :
    (yackchar c ch).2 =
        keyedElements c.keyer.wpmcnt (yackcharPlays ch) ++ beats (ICGLEN * c.keyer.wpmcnt) ∧
      (yackchar c C_SPACE).2 = beats (IWGLEN * c.keyer.wpmcnt) ∧
      ∀ m, Event.key m ∉ (yackchar c C_SPACE).2 := by
  have hs := speed_counts wpm (by have := hw.2; simp only [MAXWPM] at this; omega)
    (by have := hw.1; simp only [MINWPM] at this; omega)
  have hlt : c.keyer.wpmcnt < 256 := by
    rcases hc with h | h <;> rw [h] <;> omega
  have hb : toByte c.keyer.wpmcnt = c.keyer.wpmcnt := Nat.mod_eq_of_lt hlt
  have h1 := yackchar_events c ch hch.1
  rw [hb] at h1
  have h2 : (yackchar c C_SPACE).2 = beats (IWGLEN * c.keyer.wpmcnt) := by
    have := yackdel_eq c IWGLEN (by decide)
    rw [hb] at this
    simpa [yackchar, C_SPACE] using this
  refine ⟨h1, h2, ?_⟩
  intro m
  rw [h2]
  exact key_not_mem_beats m _

theorem yackchar_keys_elements_witness :
    (MINWPM ≤ 16 ∧ 16 ≤ MAXWPM) ∧
      (freshChip.keyer.wpmcnt = speedCount 16 ∨ freshChip.keyer.wpmcnt = WPMCALC 16) ∧
      (2 ≤ 81 ∧ 81 ≤ 232) ∧
      (yackchar freshChip 81).2 =
        keyedElements freshChip.keyer.wpmcnt (yackcharPlays 81) ++
          beats (ICGLEN * freshChip.keyer.wpmcnt) :=
  ⟨by decide, Or.inl (by decide), by decide,
    (yackchar_keys_elements freshChip 16 81 (by decide) (Or.inl (by decide)) (by decide)).1⟩

/-- C12 fails on the code for the sentinel: yackchar (0) sends nothing, but the loop of
yackchar decomposes 255 into five dahs and keys them, in every state. -/
theorem sentinel_is_keyed (c : Chip) :
    (yackchar c 0).2 = [] ∧
      yackcharPlays 255 = List.replicate 5 Element.dah ∧
      (yackchar c 255).2 =
        keyedElements (toByte c.keyer.wpmcnt) (List.replicate 5 Element.dah) ++
          beats (ICGLEN * toByte c.keyer.wpmcnt) ∧
      Event.key DOWN ∈ (yackchar c 255).2 := by
  have hp : yackcharPlays 255 = List.replicate 5 Element.dah := by decide
  have h := yackchar_events c 255 (by decide)
  rw [hp] at h
  refine ⟨rfl, hp, h, ?_⟩
  rw [h]
  simp [List.replicate, keyedElements, keyedElement]

/-! ### Claims on speed and pitch -/

theorem yackplay_wpm (c : Chip) (i : Nat) :
    (yackplay c i).1.wpm = c.wpm ∧ (yackplay c i).1.ctcvalue = c.ctcvalue ∧
      (yackplay c i).1.ee = c.ee := ⟨rfl, rfl, rfl⟩

/-- The speed left by `yackspeed`: the two guarded steps of the source. -/
theorem yackspeed_wpm (c : Chip) (dir : Nat) :
    (yackspeed c dir).1.wpm =
      (if dir = DOWN ∧ (if dir = UP ∧ c.wpm < MAXWPM then toByte (c.wpm + 1) else c.wpm) > MINWPM
        then toByte ((if dir = UP ∧ c.wpm < MAXWPM then toByte (c.wpm + 1) else c.wpm) - 1)
        else (if dir = UP ∧ c.wpm < MAXWPM then toByte (c.wpm + 1) else c.wpm)) := rfl

/-- C13: for a speed in [MINWPM, MAXWPM], yackspeed (UP) raises wpm by one below MAXWPM and
leaves it at MAXWPM, yackspeed (DOWN) lowers it by one above MINWPM and leaves it at MINWPM, and
after yackspeed with any argument the speed is again in [MINWPM, MAXWPM]. -/
theorem yackspeed_clamps (c : Chip) (dir : Nat) (h : MINWPM ≤ c.wpm ∧ c.wpm ≤ MAXWPM) :
    (c.wpm < MAXWPM → (yackspeed c UP).1.wpm = c.wpm + 1) ∧
      (c.wpm = MAXWPM → (yackspeed c UP).1.wpm = c.wpm) ∧
      (c.wpm > MINWPM → (yackspeed c DOWN).1.wpm = c.wpm - 1) ∧
      (c.wpm = MINWPM → (yackspeed c DOWN).1.wpm = c.wpm) ∧
      (MINWPM ≤ (yackspeed c dir).1.wpm ∧ (yackspeed c dir).1.wpm ≤ MAXWPM) := by
  obtain ⟨h1, h2⟩ := h
  simp only [yackspeed_wpm, toByte, UP, DOWN, MINWPM, MAXWPM] at h1 h2 ⊢
  refine ⟨?_, ?_, ?_, ?_, ?_⟩
  · intro h
    simp only [h, and_true, if_true, show ¬ (1 = 2) by decide, false_and, if_false]
    omega
  · intro h
    simp only [h, show ¬ (1 = 2) by decide, false_and, if_false, Nat.lt_irrefl, and_false]
  · intro h
    simp only [show ¬ (2 = 1) by decide, false_and, if_false, true_and, gt_iff_lt, h, if_true]
    omega
  · intro h
    simp only [show ¬ (2 = 1) by decide, false_and, if_false, true_and, gt_iff_lt, h,
      Nat.lt_irrefl]
  · split_ifs <;> omega

theorem yackspeed_clamps_witness :
    (MINWPM ≤ freshChip.wpm ∧ freshChip.wpm ≤ MAXWPM) ∧
      (yackspeed freshChip UP).1.wpm = freshChip.wpm + 1 ∧
      (yackspeed freshChip DOWN).1.wpm = freshChip.wpm - 1 :=
  ⟨by decide,
    (yackspeed_clamps freshChip UP (by decide)).1 (by decide),
    (yackspeed_clamps freshChip UP (by decide)).2.2.1 (by decide)⟩

theorem yackpitch_ctcvalue (fcpu : Nat) (c : Chip) (dir : Nat) :
    (yackpitch fcpu c dir).ctcvalue =
      (if (if (if dir = DOWN then toWord ((if dir = UP then toWord (c.ctcvalue + 65535)
                else c.ctcvalue) + 1)
              else (if dir = UP then toWord (c.ctcvalue + 65535) else c.ctcvalue)) < MAXCTC fcpu
            then toWord (MAXCTC fcpu)
            else (if dir = DOWN then toWord ((if dir = UP then toWord (c.ctcvalue + 65535)
                else c.ctcvalue) + 1)
              else (if dir = UP then toWord (c.ctcvalue + 65535) else c.ctcvalue)))
          > MINCTC fcpu
        then toWord (MINCTC fcpu)
        else (if (if dir = DOWN then toWord ((if dir = UP then toWord (c.ctcvalue + 65535)
                else c.ctcvalue) + 1)
              else (if dir = UP then toWord (c.ctcvalue + 65535) else c.ctcvalue)) < MAXCTC fcpu
            then toWord (MAXCTC fcpu)
            else (if dir = DOWN then toWord ((if dir = UP then toWord (c.ctcvalue + 65535)
                else c.ctcvalue) + 1)
              else (if dir = UP then toWord (c.ctcvalue + 65535) else c.ctcvalue)))) := rfl

/-- One step of `yackpitch` at a clock whose limits lie inside the word. -/
theorem yackpitch_step (fcpu : Nat) (c : Chip) (v : Nat) (hv : c.ctcvalue = v)
    (h0 : 0 < MAXCTC fcpu) (h1 : MINCTC fcpu < 65535)
    (hr : MAXCTC fcpu ≤ v ∧ v ≤ MINCTC fcpu) :
    (yackpitch fcpu c UP).ctcvalue = max (v - 1) (MAXCTC fcpu) ∧
      (yackpitch fcpu c UP).ctcvalue ≤ v ∧
      (MAXCTC fcpu < v → (yackpitch fcpu c UP).ctcvalue < v) ∧
      (yackpitch fcpu c DOWN).ctcvalue = min (v + 1) (MINCTC fcpu) := by
  obtain ⟨h2, h3⟩ := hr
  have e1 : toWord (v + 65535) = v - 1 := by unfold toWord; omega
  have e2 : toWord (v + 1) = v + 1 := by unfold toWord; omega
  have e3 : toWord (MAXCTC fcpu) = MAXCTC fcpu := by unfold toWord; omega
  have e4 : toWord (MINCTC fcpu) = MINCTC fcpu := by unfold toWord; omega
  have hu : (yackpitch fcpu c UP).ctcvalue = max (v - 1) (MAXCTC fcpu) := by
    rw [yackpitch_ctcvalue, hv]
    simp only [UP, DOWN, show ¬ (1 = 2) by decide, if_false, if_true, e1, e3, e4]
    split_ifs <;> omega
  have hd : (yackpitch fcpu c DOWN).ctcvalue = min (v + 1) (MINCTC fcpu) := by
    rw [yackpitch_ctcvalue, hv]
    simp only [UP, DOWN, show ¬ (2 = 1) by decide, if_false, if_true, e2, e3, e4]
    split_ifs <;> omega
  refine ⟨hu, ?_, ?_, hd⟩
  · rw [hu]; omega
  · intro h; rw [hu]; omega

/-- C14: at the clock of 1 MHz that yack.c states, MAXCTC = 40 < MINCTC = 155, and for every
pitch control value v with MAXCTC <= v <= MINCTC, yackpitch (UP) sets ctcvalue to
max (v - 1, MAXCTC), which is never above v and is below v unless v = MAXCTC (the highest
frequency), and yackpitch (DOWN) sets it to min (v + 1, MINCTC). -/
theorem yackpitch_steps_and_clamps (c : Chip) (v : Nat) (hv : c.ctcvalue = v)
    (hr : MAXCTC F_CPU ≤ v ∧ v ≤ MINCTC F_CPU) :
    (MAXCTC F_CPU = 40 ∧ MINCTC F_CPU = 155 ∧ MAXCTC F_CPU < MINCTC F_CPU) ∧
      (yackpitch F_CPU c UP).ctcvalue = max (v - 1) (MAXCTC F_CPU) ∧
      (yackpitch F_CPU c UP).ctcvalue ≤ v ∧
      (MAXCTC F_CPU < v → (yackpitch F_CPU c UP).ctcvalue < v) ∧
      (yackpitch F_CPU c DOWN).ctcvalue = min (v + 1) (MINCTC F_CPU) :=
  ⟨by decide, yackpitch_step F_CPU c v hv (by decide) (by decide) hr⟩

theorem yackpitch_steps_and_clamps_witness :
    freshChip.ctcvalue = 77 ∧ (MAXCTC F_CPU ≤ 77 ∧ 77 ≤ MINCTC F_CPU) ∧
      (yackpitch F_CPU freshChip UP).ctcvalue = max (77 - 1) (MAXCTC F_CPU) ∧
      (yackpitch F_CPU freshChip DOWN).ctcvalue = min (77 + 1) (MINCTC F_CPU) :=
  ⟨by decide, by decide,
    (yackpitch_steps_and_clamps freshChip 77 (by decide) (by decide)).2.1,
    (yackpitch_steps_and_clamps freshChip 77 (by decide) (by decide)).2.2.2.2⟩

/-! ### Claims on the persistent record -/

theorem yacksave_dirty (c : Chip) (h : c.keyer.volflags &&& DIRTYFLAG ≠ 0) :
    yacksave c =
      ({ c with
          ee := { c.ee with magic := MAGPAT, ctcstor := c.ctcvalue, wpmstor := c.wpm,
                            flagstor := c.keyer.yackflags },
          keyer := { c.keyer with volflags := c.keyer.volflags &&& (MAX_BYTE - DIRTYFLAG) } },
        recordWrite c) := by
  rw [yacksave, if_pos h]; rfl

theorem yacksave_clean (c : Chip) (h : c.keyer.volflags &&& DIRTYFLAG = 0) :
    yacksave c = (c, []) := by
  rw [yacksave, if_neg (by rw [h]; exact fun h => h rfl)]

theorem yacksave_clears (c : Chip) : (yacksave c).1.keyer.volflags &&& DIRTYFLAG = 0 := by
  by_cases h : c.keyer.volflags &&& DIRTYFLAG = 0
  · rw [yacksave_clean c h]; exact h
  · rw [yacksave_dirty c h]; exact and_not_dirty _

/-- C15: in every state yacksave writes the record (magic, pitch, speed, flags, from the values
in memory) when DIRTYFLAG is set and writes nothing and changes nothing when it is clear; it
leaves DIRTYFLAG clear; so a second yacksave right after it writes nothing and changes nothing,
and the two calls together write the record at most once. -/
theorem yacksave_writes_iff_dirty (c : Chip) :
    ((yacksave c).2 = if c.keyer.volflags &&& DIRTYFLAG ≠ 0 then recordWrite c else []) ∧
      (storeWrites (yacksave c).2 ≠ [] ↔ c.keyer.volflags &&& DIRTYFLAG ≠ 0) ∧
      (c.keyer.volflags &&& DIRTYFLAG ≠ 0 →
        (yacksave c).1.ee.magic = MAGPAT ∧ (yacksave c).1.ee.ctcstor = c.ctcvalue ∧
          (yacksave c).1.ee.wpmstor = c.wpm ∧ (yacksave c).1.ee.flagstor = c.keyer.yackflags) ∧
      (c.keyer.volflags &&& DIRTYFLAG = 0 → (yacksave c).1 = c) ∧
      (yacksave c).1.keyer.volflags &&& DIRTYFLAG = 0 ∧
      yacksave (yacksave c).1 = ((yacksave c).1, []) ∧
      ((yacksave c).2 ++ (yacksave (yacksave c).1).2 = recordWrite c ∨
        (yacksave c).2 ++ (yacksave (yacksave c).1).2 = []) := by
  have h2 := yacksave_clean (yacksave c).1 (yacksave_clears c)
  by_cases h : c.keyer.volflags &&& DIRTYFLAG = 0
  · have h1 := yacksave_clean c h
    refine ⟨?_, ?_, fun hd => absurd h hd, fun _ => by rw [h1], yacksave_clears c, h2, ?_⟩
    · rw [h1, if_neg (not_not.mpr h)]
    · rw [h1]; simp [storeWrites, h]
    · right; rw [h2, h1]; rfl
  · have h1 := yacksave_dirty c h
    refine ⟨?_, ?_, fun _ => ?_, fun hd => absurd hd h, yacksave_clears c, h2, ?_⟩
    · rw [h1, if_pos h]
    · rw [h1]; simp [storeWrites, recordWrite, Event.isStore, h]
    · rw [h1]; exact ⟨rfl, rfl, rfl, rfl⟩
    · left; rw [h2, h1]; rfl

set_option maxRecDepth 1000000 in
/-- C16 fails on the code. From the state after yackinit on an erased EEPROM (record stored,
DIRTYFLAG clear, wpm = 16), the command key pressed and the dit paddle closed for one pass of the
wait loop of yackctrlkey: yackspeed (UP) sets wpm = 17 and DIRTYFLAG, then yackctrlkey restores
volflags from the copy taken on entry, so its closing yacksave finds DIRTYFLAG clear and stores
nothing: DIRTYFLAG is clear while the stored speed is still 16. -/
theorem ctrlkey_speed_change_is_not_stored :
    freshChip.keyer.volflags &&& DIRTYFLAG = 0 ∧ freshChip.wpm = 16 ∧
      freshChip.ee.wpmstor = 16 ∧
      (yackspeed (yackinhibit freshChip ON).1 UP).1.keyer.volflags &&& DIRTYFLAG ≠ 0 ∧
      (yackctrlkey freshChip TRUE true [(true, false)]).1.wpm = 17 ∧
      (yackctrlkey freshChip TRUE true [(true, false)]).1.ee.wpmstor = 16 ∧
      (yackctrlkey freshChip TRUE true [(true, false)]).1.keyer.volflags &&& DIRTYFLAG = 0 ∧
      storeWrites (yackctrlkey freshChip TRUE true [(true, false)]).2.2 = [] := by
  decide

/-- C17: after yackreset, from any state (DEFCTC a value of the word ctcvalue), ctcvalue =
DEFCTC, wpm = DEFWPM, wpmcnt = (12000/YACKBEAT)/DEFWPM, yackflags = FLAGDEFAULT, the stored magic
is MAGPAT, the stored pitch, speed and flags are those defaults, the record was written once
and DIRTYFLAG is clear. -/
theorem yackreset_commits_defaults (fcpu : Nat) (c : Chip)
    (h : 16 * DEFFREQ ≤ fcpu ∧ DEFCTC fcpu < 65536) :
    (yackreset fcpu c).1.ctcvalue = DEFCTC fcpu ∧
      (yackreset fcpu c).1.wpm = DEFWPM ∧
      (yackreset fcpu c).1.keyer.wpmcnt = (12000 / YACKBEAT) / DEFWPM ∧
      (yackreset fcpu c).1.keyer.yackflags = FLAGDEFAULT ∧
      (yackreset fcpu c).1.ee.magic = MAGPAT ∧
      (yackreset fcpu c).1.ee.ctcstor = DEFCTC fcpu ∧
      (yackreset fcpu c).1.ee.wpmstor = DEFWPM ∧
      (yackreset fcpu c).1.ee.flagstor = FLAGDEFAULT ∧
      (yackreset fcpu c).1.keyer.volflags &&& DIRTYFLAG = 0 ∧
      (yackreset fcpu c).2 =
        [Event.store Cell.magic MAGPAT, Event.store Cell.ctcstor (DEFCTC fcpu),
          Event.store Cell.wpmstor DEFWPM, Event.store Cell.flagstor FLAGDEFAULT] := by
  have hw : toWord (DEFCTC fcpu) = DEFCTC fcpu := Nat.mod_eq_of_lt h.2
  have hs := yacksave_dirty
    { c with
      ctcvalue := toWord (DEFCTC fcpu),
      wpm := toByte DEFWPM,
      keyer := { c.keyer with
        wpmcnt := toWord ((12000 / YACKBEAT) / DEFWPM),
        yackflags := toByte FLAGDEFAULT,
        volflags := c.keyer.volflags ||| DIRTYFLAG } } (or_dirty _)
  have hc := yacksave_clears
    { c with
      ctcvalue := toWord (DEFCTC fcpu),
      wpm := toByte DEFWPM,
      keyer := { c.keyer with
        wpmcnt := toWord ((12000 / YACKBEAT) / DEFWPM),
        yackflags := toByte FLAGDEFAULT,
        volflags := c.keyer.volflags ||| DIRTYFLAG } }
  rw [hw] at hs hc
  unfold yackreset
  rw [hw]
  refine ⟨?_, ?_, ?_, ?_, ?_, ?_, ?_, ?_, hc, ?_⟩ <;> rw [hs] <;> rfl

theorem yackreset_commits_defaults_witness :
    (16 * DEFFREQ ≤ 1000000 ∧ DEFCTC 1000000 < 65536) ∧
      (yackreset 1000000 (powerUp erasedEeprom)).1.ctcvalue = DEFCTC 1000000 ∧
      (yackreset 1000000 (powerUp erasedEeprom)).1.ee.ctcstor = DEFCTC 1000000 :=
  ⟨by decide, (yackreset_commits_defaults 1000000 (powerUp erasedEeprom) (by decide)).1,
    (yackreset_commits_defaults 1000000 (powerUp erasedEeprom) (by decide)).2.2.2.2.2.1⟩

theorem yackinhibit_frame (c : Chip) (mode : Nat) :
    (yackinhibit c mode).1.ctcvalue = c.ctcvalue ∧ (yackinhibit c mode).1.wpm = c.wpm ∧
      (yackinhibit c mode).1.keyer.yackflags = c.keyer.yackflags ∧
      (yackinhibit c mode).1.keyer.wpmcnt = c.keyer.wpmcnt ∧
      (yackinhibit c mode).1.ee = c.ee ∧ storeWrites (yackinhibit c mode).2 = [] := by
  unfold yackinhibit
  split
  · exact ⟨rfl, rfl, rfl, rfl, rfl, rfl⟩
  · exact ⟨rfl, rfl, rfl, rfl, rfl, rfl⟩

theorem storeWrites_append (a b : List Event) :
    storeWrites (a ++ b) = storeWrites a ++ storeWrites b := by
  simp [storeWrites]

theorem yackinit_valid (fcpu : Nat) (c : Chip) (h : c.ee.magic = MAGPAT) :
    yackinit fcpu c =
      ((yackinhibit
          { c with
            ctcvalue := c.ee.ctcstor,
            wpm := c.ee.wpmstor,
            keyer := { c.keyer with
              wpmcnt := toWord ((12000 / YACKBEAT) / c.ee.wpmstor),
              yackflags := c.ee.flagstor } } OFF).1,
        [] ++ (yackinhibit
          { c with
            ctcvalue := c.ee.ctcstor,
            wpm := c.ee.wpmstor,
            keyer := { c.keyer with
              wpmcnt := toWord ((12000 / YACKBEAT) / c.ee.wpmstor),
              yackflags := c.ee.flagstor } } OFF).2) := by
  rw [yackinit, if_pos h]

theorem yackinit_blank (fcpu : Nat) (c : Chip) (h : c.ee.magic ≠ MAGPAT) :
    yackinit fcpu c =
      ((yackinhibit (yackreset fcpu c).1 OFF).1,
        (yackreset fcpu c).2 ++ (yackinhibit (yackreset fcpu c).1 OFF).2) := by
  rw [yackinit, if_neg h]

/-- C18: yackinit loads or defaults. With the stored magic equal to MAGPAT the pitch, speed and
flags in memory become the stored ones, no store write happens and the store is unchanged. With
any other magic (DEFCTC a value of the word ctcvalue) the defaults of yackreset are in memory,
the record is written once and the store holds MAGPAT and the defaults. -/
theorem yackinit_loads_or_defaults (fcpu : Nat) (c : Chip)
    (h : 16 * DEFFREQ ≤ fcpu ∧ DEFCTC fcpu < 65536) :
    (c.ee.magic = MAGPAT →
        (yackinit fcpu c).1.ctcvalue = c.ee.ctcstor ∧
        (yackinit fcpu c).1.wpm = c.ee.wpmstor ∧
        (yackinit fcpu c).1.keyer.yackflags = c.ee.flagstor ∧
        storeWrites (yackinit fcpu c).2 = [] ∧
        (yackinit fcpu c).1.ee = c.ee) ∧
      (c.ee.magic ≠ MAGPAT →
        ((yackinit fcpu c).1.ctcvalue = DEFCTC fcpu ∧
          (yackinit fcpu c).1.wpm = DEFWPM ∧
          (yackinit fcpu c).1.keyer.wpmcnt = (12000 / YACKBEAT) / DEFWPM ∧
          (yackinit fcpu c).1.keyer.yackflags = FLAGDEFAULT) ∧
        storeWrites (yackinit fcpu c).2 =
          [Event.store Cell.magic MAGPAT, Event.store Cell.ctcstor (DEFCTC fcpu),
            Event.store Cell.wpmstor DEFWPM, Event.store Cell.flagstor FLAGDEFAULT] ∧
        ((yackinit fcpu c).1.ee.magic = MAGPAT ∧
          (yackinit fcpu c).1.ee.ctcstor = DEFCTC fcpu ∧
          (yackinit fcpu c).1.ee.wpmstor = DEFWPM ∧
          (yackinit fcpu c).1.ee.flagstor = FLAGDEFAULT)) := by
  constructor
  · intro hm
    rw [yackinit_valid fcpu c hm]
    obtain ⟨f1, f2, f3, _, f5, f6⟩ := yackinhibit_frame
      { c with
        ctcvalue := c.ee.ctcstor,
        wpm := c.ee.wpmstor,
        keyer := { c.keyer with
          wpmcnt := toWord ((12000 / YACKBEAT) / c.ee.wpmstor),
          yackflags := c.ee.flagstor } } OFF
    exact ⟨f1, f2, f3, by rw [List.nil_append]; exact f6, f5⟩
  · intro hm
    rw [yackinit_blank fcpu c hm]
    obtain ⟨f1, f2, f3, f4, f5, f6⟩ := yackinhibit_frame (yackreset fcpu c).1 OFF
    obtain ⟨r1, r2, r3, r4, r5, r6, r7, r8, _, r10⟩ := yackreset_commits_defaults fcpu c h
    refine ⟨⟨?_, ?_, ?_, ?_⟩, ?_, ?_, ?_, ?_, ?_⟩
    · exact f1.trans r1
    · exact f2.trans r2
    · exact f4.trans r3
    · exact f3.trans r4
    · show storeWrites ((yackreset fcpu c).2 ++ (yackinhibit (yackreset fcpu c).1 OFF).2) = _
      rw [storeWrites_append, f6, r10]; rfl
    · show (yackinhibit (yackreset fcpu c).1 OFF).1.ee.magic = _
      rw [f5]; exact r5
    · show (yackinhibit (yackreset fcpu c).1 OFF).1.ee.ctcstor = _
      rw [f5]; exact r6
    · show (yackinhibit (yackreset fcpu c).1 OFF).1.ee.wpmstor = _
      rw [f5]; exact r7
    · show (yackinhibit (yackreset fcpu c).1 OFF).1.ee.flagstor = _
      rw [f5]; exact r8

theorem yackinit_loads_or_defaults_witness :
    (16 * DEFFREQ ≤ 1000000 ∧ DEFCTC 1000000 < 65536) ∧
      (powerUp erasedEeprom).ee.magic ≠ MAGPAT ∧ freshChip.ee.magic = MAGPAT ∧
      (yackinit 1000000 (powerUp erasedEeprom)).1.ee.magic = MAGPAT ∧
      storeWrites (yackinit 1000000 freshChip).2 = [] :=
  ⟨by decide, by decide, by decide,
    ((yackinit_loads_or_defaults 1000000 (powerUp erasedEeprom) (by decide)).2
      (by decide)).2.2.1,
    ((yackinit_loads_or_defaults 1000000 freshChip (by decide)).1 (by decide)).2.2.2.1⟩

/-! ### Claims on the mode and the flags -/

set_option maxRecDepth 1000000 in
theorem mode_bits : ∀ fl, fl < 256 → ∀ x, x < 15 → x &&& MODE = x →
    ((fl &&& (MAX_BYTE - MODE)) ||| x) &&& MODE = x ∧
    ((fl &&& (MAX_BYTE - MODE)) ||| x) &&& (MAX_BYTE - MODE) = fl &&& (MAX_BYTE - MODE) ∧
    ((((fl &&& (MAX_BYTE - MODE)) ||| x) &&& (MAX_BYTE - MODE)) ||| (MODE &&& (fl &&& MODE)))
      = fl ∧
    ((fl &&& (MAX_BYTE - MODE)) ||| x) &&& CONFLOCK = fl &&& CONFLOCK := by
  decide

theorem mode_arg (m : Nat) : MODE &&& m < 15 ∧ (MODE &&& m) &&& MODE = MODE &&& m := by
  constructor
  · have : MODE &&& m ≤ MODE := Nat.and_le_left
    have hm : MODE = 14 := rfl
    rw [hm] at this ⊢
    omega
  · rw [Nat.and_comm MODE m, Nat.and_assoc, Nat.and_self]

/-- C19: for every flags byte and every argument m, yackmode (m) returns the previous mode
bits yackflags & MODE, sets the mode bits to m & MODE and leaves the other bits of yackflags as
they were; yackmode called again with the returned value restores yackflags. -/
theorem yackmode_swaps_mode (c : Chip) (m : Nat) (h : c.keyer.yackflags < 256) :
    (yackmode c m).2 = c.keyer.yackflags &&& MODE ∧
      (yackmode c m).1.keyer.yackflags &&& MODE = m &&& MODE ∧
      (yackmode c m).1.keyer.yackflags &&& (MAX_BYTE - MODE)
        = c.keyer.yackflags &&& (MAX_BYTE - MODE) ∧
      (yackmode (yackmode c m).1 (yackmode c m).2).1.keyer.yackflags = c.keyer.yackflags := by
  obtain ⟨a1, a2⟩ := mode_arg m
  obtain ⟨b1, b2, b3, _⟩ := mode_bits c.keyer.yackflags h (MODE &&& m) a1 a2
  refine ⟨rfl, ?_, b2, b3⟩
  rw [Nat.and_comm m MODE]
  exact b1

theorem yackmode_swaps_mode_witness :
    freshChip.keyer.yackflags < 256 ∧
      (yackmode freshChip IAMBB).2 = freshChip.keyer.yackflags &&& MODE ∧
      (yackmode (yackmode freshChip IAMBB).1 (yackmode freshChip IAMBB).2).1.keyer.yackflags
        = freshChip.keyer.yackflags :=
  ⟨by decide, (yackmode_swaps_mode freshChip IAMBB (by decide)).1,
    (yackmode_swaps_mode freshChip IAMBB (by decide)).2.2.2⟩

set_option maxRecDepth 1000000 in
/-- C20 fails on the code. yackmode and yacktoggle do not test the lock: in every state with
CONFLOCK set in yackflags, yackmode (m) sets the mode bits to m & MODE and returns the previous
mode bits, and yacktoggle (flag) flips the bits of flag. With the lock set in Iambic B mode, the
yackmode (DACTYL) that command mode calls on entry changes yackflags and returns IAMBB, not
FALSE; with the lock set on the defaults, yackmode (IAMBA) changes yackflags from 63 to 49 and
returns 14, and yacktoggle (SIDETONE) changes yackflags to 47. -/
theorem locked_flags_are_changed :
    (∀ (c : Chip) (m flag : Nat), c.keyer.yackflags < 256 →
        c.keyer.yackflags &&& CONFLOCK ≠ 0 →
        (yackmode c m).1.keyer.yackflags &&& MODE = m &&& MODE ∧
        (yackmode c m).2 = c.keyer.yackflags &&& MODE ∧
        (yacktoggle c flag).keyer.yackflags = toByte (c.keyer.yackflags ^^^ flag)) ∧
      (lockedChip.keyer.yackflags = 63 ∧ lockedChip.keyer.yackflags &&& CONFLOCK ≠ 0 ∧
        (yackmode lockedChip IAMBA).1.keyer.yackflags = 49 ∧
        (yackmode lockedChip IAMBA).1.keyer.yackflags ≠ lockedChip.keyer.yackflags ∧
        (yackmode lockedChip IAMBA).2 = 14 ∧ (yackmode lockedChip IAMBA).2 ≠ FALSE ∧
        (yacktoggle lockedChip SIDETONE).keyer.yackflags = 47 ∧
        (yacktoggle lockedChip SIDETONE).keyer.yackflags ≠ lockedChip.keyer.yackflags) ∧
      ((yacktoggle (yackmode freshChip IAMBB).1 CONFLOCK).keyer.yackflags &&& CONFLOCK ≠ 0 ∧
        (yacktoggle (yackmode freshChip IAMBB).1 CONFLOCK).keyer.yackflags &&& MODE = IAMBB ∧
        (yackmode (yacktoggle (yackmode freshChip IAMBB).1 CONFLOCK) DACTYL).1.keyer.yackflags
          ≠ (yacktoggle (yackmode freshChip IAMBB).1 CONFLOCK).keyer.yackflags ∧
        (yackmode (yacktoggle (yackmode freshChip IAMBB).1 CONFLOCK) DACTYL).2 = IAMBB ∧
        (yackmode (yacktoggle (yackmode freshChip IAMBB).1 CONFLOCK) DACTYL).2 ≠ FALSE) := by
  refine ⟨?_, by decide, by decide⟩
  intro c m flag hb _
  obtain ⟨a1, a2⟩ := mode_arg m
  obtain ⟨b1, _, _, _⟩ := mode_bits c.keyer.yackflags hb (MODE &&& m) a1 a2
  refine ⟨?_, rfl, rfl⟩
  rw [Nat.and_comm m MODE]
  exact b1

/-! ### Claims on numbers and character constants -/

theorem numberDigits_eq (n : Nat) : numberDigits n = Nat.digits 10 n := by
  induction n using Nat.strong_induction_on with
  | _ n ih =>
    rw [numberDigits]
    by_cases h : n > 0
    · rw [dif_pos h, ih (n / 10) (by omega), Nat.digits_def' (by decide) h]
    · have h0 : n = 0 := by omega
      subst h0
      simp

theorem digitCalls_eq : ∀ d, d < 10 → digitCalls d = [digitConstant d] := by decide

theorem digit_calls (l : List Nat) (h : ∀ d ∈ l, d < 10) :
    (l.map digitCalls).flatten = l.map digitConstant := by
  induction l with
  | nil => rfl
  | cons d ds ih =>
    rw [List.map_cons, List.flatten_cons, List.map_cons, digitCalls_eq d (h d (List.mem_cons_self _ _)),
      ih (fun x hx => h x (List.mem_cons_of_mem _ hx))]
    rfl

/-- C24 fails on the code for n = 0. The digit loop of yacknumber runs while n > 0, so for
n = 0 the buffer stays empty and the only call is yackchar (C_SPACE): no C_0 is sent. For every
n in 1..65535 the calls are the digit constants of the decimal digits of n, most significant
first, followed by C_SPACE. -/
theorem yacknumber_zero_sends_no_digit :
    yacknumberCalls 0 = [C_SPACE] ∧ C_0 ∉ yacknumberCalls 0 ∧
      (∀ c : Chip, yacknumber c 0 = sendChars c [C_SPACE]) ∧
      (∀ n, 1 ≤ n → n ≤ 65535 →
        yacknumberCalls n = (Nat.digits 10 n).reverse.map digitConstant ++ [C_SPACE]) := by
  have h0 : yacknumberCalls 0 = [C_SPACE] := by
    rw [yacknumberCalls, numberDigits_eq, show toWord 0 = 0 from rfl, Nat.digits_zero]
    rfl
  refine ⟨h0, ?_, ?_, ?_⟩
  · rw [h0]; decide
  · intro c; rw [yacknumber, h0]
  · intro n _ h2
    have hw : toWord n = n := Nat.mod_eq_of_lt (by omega)
    rw [yacknumberCalls, numberDigits_eq, hw, digit_calls]
    intro d hd
    exact Nat.digits_lt_base (by decide) (List.mem_reverse.mp hd)

set_option maxRecDepth 100000 in
/-- C25 fails on the code for four constants. For every letter, digit and the other signs the
constant of yack.h is the code the recognizer accumulates for the pattern and the value listed
in the code table. But C_AS = 61 where pattern and table give 23; C_AE = 30, which is C_X,
where pattern and table give 31; C_AA = 31, the code of Ä, where pattern and table give 83;
C_BK = 209 as listed, where the pattern gives 213. So yackchar (C_AE) plays the pattern of X. -/
theorem character_constants_disagree :
    (∀ s ∈ signs, s.constant = recognized s ∧ s.constant = s.listed) ∧
      (C_AS = 61 ∧ recognized signAS = 23 ∧ signAS.listed = 23) ∧
      (C_AE = 30 ∧ recognized signAE = 31 ∧ signAE.listed = 31 ∧ C_AE = C_X ∧
        yackcharPlays C_AE = morse "-..-" ∧ signAE.pattern ≠ morse "-..-") ∧
      (C_AA = 31 ∧ recognized signAA = 83 ∧ signAA.listed = 83 ∧ C_AA = recognized signAE) ∧
      (C_BK = 209 ∧ recognized signBK = 213 ∧ signBK.listed = 209) := by
  decide

/-! ### Claims on messages -/

theorem playBuffer_ee (buf : List Nat) : ∀ c : Chip, (playBuffer c buf).1.ee = c.ee := by
  induction buf with
  | nil => intro c; rfl
  | cons b bs ih =>
    intro c
    show (playBuffer (yackplay c (if b ≠ 0 then DAH else DIT)).1 bs).1.ee = _
    rw [ih]
    rfl

theorem yackchar_ee (c : Chip) (ch : Nat) : (yackchar c ch).1.ee = c.ee := by
  unfold yackchar
  split
  · rfl
  · split
    · rfl
    · exact playBuffer_ee _ c

theorem sendChars_ee (chs : List Nat) : ∀ c : Chip, (sendChars c chs).1.ee = c.ee := by
  induction chs with
  | nil => intro c; rfl
  | cons ch chs ih =>
    intro c
    show (sendChars (yackchar c ch).1 chs).1.ee = _
    rw [ih, yackchar_ee]

theorem slotOf_storeSlot (c : Chip) (msgnr : Nat) (block : List Nat) :
    slotOf (storeSlot c msgnr block).1.ee msgnr = block ∧
      (storeSlot c msgnr block).2 ≠ [] := by
  unfold storeSlot slotOf
  split <;> simp

set_option maxRecDepth 100000 in
/-- C21 fails on the code. In its PLAY block yackmessage calls eeprom_write_block where a read
is meant: in every state and for either slot, the bytes found in the uninitialized local
rambuffer are written over the stored message, and what is sent are those bytes up to the first
zero, whatever the slot held. With MESSAGE 1 stored and a buffer of zeros nothing is sent and
the stored message is erased. -/
theorem play_overwrites_the_stored_message (c : Chip) (msgnr : Nat) (ram : List Nat)
    (passes : List Pass) :
    (slotOf (yackmessage c PLAY msgnr ram passes).chip.ee msgnr = ram ∧
      (yackmessage c PLAY msgnr ram passes).sent = playedFrom ram ∧
      storeWrites (yackmessage c PLAY msgnr ram passes).events ≠ []) ∧
    (slotOf factoryChip.ee 1
        = [C_M, C_E, C_S, C_S, C_A, C_G, C_E, C_SPACE, C_1] ++ List.replicate 91 0 ∧
      (yackmessage factoryChip PLAY 1 (List.replicate RBSIZE 0) []).sent = [] ∧
      slotOf (yackmessage factoryChip PLAY 1 (List.replicate RBSIZE 0) []).chip.ee 1
        = List.replicate RBSIZE 0) := by
  have hp : PLAY ≠ RECORD := by decide
  have h1 : yackmessage c PLAY msgnr ram passes =
      { chip := (sendChars (storeSlot c msgnr ram).1 (playedFrom ram)).1, rambuffer := ram,
        sent := playedFrom ram,
        events := (storeSlot c msgnr ram).2 ++
          (sendChars (storeSlot c msgnr ram).1 (playedFrom ram)).2,
        ending := none } := by
    rw [yackmessage, if_neg hp, if_pos rfl]
  refine ⟨⟨?_, ?_, ?_⟩, by decide, by decide, by decide⟩
  · rw [h1]
    show slotOf (sendChars (storeSlot c msgnr ram).1 (playedFrom ram)).1.ee msgnr = ram
    rw [sendChars_ee]
    exact (slotOf_storeSlot c msgnr ram).1
  · rw [h1]
  · rw [h1]
    show storeWrites ((storeSlot c msgnr ram).2 ++ _) ≠ []
    rw [storeWrites_append]
    unfold storeSlot
    split <;> simp [storeWrites, Event.isStore]

/-! ### Claims on inhibition, debouncing and power saving -/

theorem inhibit_bits (v : Nat) :
    ((v &&& (MAX_BYTE - (TXKEY ||| SIDETONE))) ||| SIDETONE) &&& TXKEY = 0 ∧
      ((v &&& (MAX_BYTE - (TXKEY ||| SIDETONE))) ||| SIDETONE) &&& SIDETONE ≠ 0 := by
  have e1 : MAX_BYTE - (TXKEY ||| SIDETONE) = 207 := by decide
  have e3 : TXKEY = 2 ^ 5 := by decide
  have h4 : Nat.testBit SIDETONE 4 = true := by decide
  have h5 : Nat.testBit SIDETONE 5 = false := by decide
  have h6 : Nat.testBit 207 5 = false := by decide
  rw [e1]
  constructor
  · apply Nat.eq_of_testBit_eq
    intro i
    rw [e3, Nat.testBit_and, Nat.testBit_or, Nat.testBit_and, Nat.testBit_two_pow,
      Nat.zero_testBit]
    by_cases h : 5 = i
    · subst h; rw [h5, h6]; simp
    · simp [h]
  · intro h
    have hb : (((v &&& 207) ||| SIDETONE) &&& SIDETONE).testBit 4 = true := by
      rw [Nat.testBit_and, Nat.testBit_or, h4]; simp
    rw [h] at hb
    simp at hb

/-- With TXKEY clear in `volflags`, `yackkey` leaves the key line as it is. -/
theorem keyPorts_outpin (vol fl ctc : Nat) (p : Ports) (mode : Nat) (h : vol &&& TXKEY = 0) :
    (keyPorts vol fl ctc p mode).outpin = p.outpin := by
  have hn : ¬ (vol &&& TXKEY ≠ 0) := fun hne => hne h
  unfold keyPorts
  simp only [if_neg hn]
  split_ifs <;> rfl

theorem yackinhibit_on (c : Chip) :
    (yackinhibit c ON).1 =
      { c with keyer := { c.keyer with
          volflags := (c.keyer.volflags &&& (MAX_BYTE - (TXKEY ||| SIDETONE))) ||| SIDETONE } } := by
  rw [yackinhibit, if_pos (by decide)]

set_option maxRecDepth 1000000 in
/-- C26 fails on the code when the transmitter is keyed at the call. In every state
yackinhibit (ON) clears TXKEY and sets SIDETONE in volflags and leaves the ports as they are,
and no later yackkey call, UP or DOWN, moves the key line. So when the command key is pressed
one heartbeat after yackiambic has started a dit (key line high, TXINV clear), the line stays
keyed through yackctrlkey, through yackinhibit (ON) and the yackchar (C_R) of command mode, and
is released only by the yackkey (UP) of yackinhibit (OFF). -/
theorem inhibit_leaves_transmitter_keyed :
    (∀ c : Chip, (yackinhibit c ON).1.ports = c.ports ∧
        (yackinhibit c ON).1.keyer.volflags &&& TXKEY = 0 ∧
        (yackinhibit c ON).1.keyer.volflags &&& SIDETONE ≠ 0 ∧
        ∀ mode, (yackkey (yackinhibit c ON).1 mode).1.ports.outpin = c.ports.outpin) ∧
      (freshChip.ports.outpin = false ∧ keyedChip.ports.outpin = true ∧
        keyedChip.keyer.yackflags &&& TXINV = 0 ∧
        (yackctrlkey keyedChip TRUE true []).1.ports.outpin = true ∧
        (yackinhibit (yackctrlkey keyedChip TRUE true []).1 ON).1.ports.outpin = true ∧
        (yackchar (yackinhibit (yackctrlkey keyedChip TRUE true []).1 ON).1 C_R).1.ports.outpin
          = true ∧
        (yackinhibit (yackchar (yackinhibit (yackctrlkey keyedChip TRUE true []).1 ON).1
          C_R).1 OFF).1.ports.outpin = false) := by
  refine ⟨?_, by decide⟩
  intro c
  obtain ⟨b1, b2⟩ := inhibit_bits c.keyer.volflags
  rw [yackinhibit_on]
  refine ⟨rfl, b1, b2, ?_⟩
  intro mode
  exact keyPorts_outpin _ _ _ _ _ b1

theorem debounce_range (c : Nat) (level : Bool) (h : c ≤ YACKCNTS) :
    debounce c level ≤ YACKCNTS := by
  cases level
  · rw [debounce_closed]; omega
  · rw [debounce_open]; simp only [YACKCNTS] at h ⊢; split <;> omega

theorem debounce_step (c : Nat) (level : Bool) :
    c ≤ debounce c level + (if level = false then 1 else 0) := by
  cases level
  · rw [debounce_closed]; simp; omega
  · rw [debounce_open]; split <;> simp

set_option maxRecDepth 100000 in
theorem latch_bit_frame : ∀ v, v < 256 →
    (v ||| 2) &&& 1 = v &&& 1 ∧ (v &&& 253) &&& 1 = v &&& 1 ∧ (v &&& 254) &&& 1 = 0 ∧
    (v ||| 1) &&& 2 = v &&& 2 ∧ (v &&& 254) &&& 2 = v &&& 2 ∧ (v &&& 253) &&& 2 = 0 ∧
    (v ||| 1) &&& 1 = 1 ∧ (v ||| 2) &&& 2 = 2 := by decide

theorem keylatch_fields (s : Keyer) (p : Pins) (lk : Nat) :
    (keylatch s p lk).yackflags = s.yackflags ∧
      (keylatch s p lk).ditcnt = debounce s.ditcnt (ditLevel s.yackflags p) ∧
      (keylatch s p lk).dahcnt = debounce s.dahcnt (dahLevel s.yackflags p) ∧
      (keylatch s p lk).volflags =
        latchUpdate (latchUpdate s.volflags (debounce s.ditcnt (ditLevel s.yackflags p)) lk
          DITLATCH) (debounce s.dahcnt (dahLevel s.yackflags p)) lk DAHLATCH :=
  ⟨rfl, rfl, rfl, rfl⟩

theorem latchUpdate_dit_flip (v cnt lk : Nat) (hv : v < 256) :
    latchUpdate v cnt lk DITLATCH &&& DAHLATCH = v &&& DAHLATCH ∧
      (latchUpdate v cnt lk DITLATCH &&& DITLATCH ≠ v &&& DITLATCH →
        (v &&& DITLATCH = 0 ∧ cnt = 0) ∨
        (latchUpdate v cnt lk DITLATCH &&& DITLATCH = 0 ∧ YACKCNTS ≤ cnt)) := by
  obtain ⟨a1, a2, a3, a4, a5, a6, a7, a8⟩ := latch_bit_frame v hv
  have hle : v &&& 1 ≤ 1 := Nat.and_le_right
  simp only [latchUpdate, DITLATCH, DAHLATCH, MAX_BYTE, Nat.reduceSub, YACKCNTS]
  split_ifs with h1 h2
  · exact ⟨a5, fun _ => Or.inr ⟨a3, h1.1⟩⟩
  · refine ⟨a4, fun hne => Or.inl ⟨?_, by omega⟩⟩
    rw [a7] at hne
    have : v &&& 1 ≠ 1 := fun h => hne h.symm
    omega
  · exact ⟨rfl, fun hne => absurd rfl hne⟩

theorem latchUpdate_dah_flip (v cnt lk : Nat) (hv : v < 256) :
    latchUpdate v cnt lk DAHLATCH &&& DITLATCH = v &&& DITLATCH ∧
      (latchUpdate v cnt lk DAHLATCH &&& DAHLATCH ≠ v &&& DAHLATCH →
        (v &&& DAHLATCH = 0 ∧ cnt = 0) ∨
        (latchUpdate v cnt lk DAHLATCH &&& DAHLATCH = 0 ∧ YACKCNTS ≤ cnt)) := by
  obtain ⟨a1, a2, a3, a4, a5, a6, a7, a8⟩ := latch_bit_frame v hv
  have hle : v &&& 2 ≤ 2 := Nat.and_le_right
  have h1n : v &&& 2 ≠ 1 := by
    intro h
    have h' := congrArg (fun x => x &&& 1) h
    simp only [Nat.and_assoc] at h'
    simp at h'
  simp only [latchUpdate, DITLATCH, DAHLATCH, MAX_BYTE, Nat.reduceSub, YACKCNTS]
  split_ifs with h1 h2
  · exact ⟨a2, fun _ => Or.inr ⟨a6, h1.1⟩⟩
  · refine ⟨a1, fun hne => Or.inl ⟨?_, by omega⟩⟩
    rw [a8] at hne
    have : v &&& 2 ≠ 2 := fun h => hne h.symm
    omega
  · exact ⟨rfl, fun hne => absurd rfl hne⟩

/-- One call of `keylatch` on the two latch bits: each bit is set only with its counter at 0
and cleared only with its counter at YACKCNTS or above. -/
theorem keylatch_bits (s : Keyer) (p : Pins) (lk : Nat) (hv : s.volflags < 256) :
    (keylatch s p lk).volflags < 256 ∧
      ((keylatch s p lk).volflags &&& DITLATCH ≠ s.volflags &&& DITLATCH →
        (s.volflags &&& DITLATCH = 0 ∧ (keylatch s p lk).ditcnt = 0) ∨
        ((keylatch s p lk).volflags &&& DITLATCH = 0 ∧ YACKCNTS ≤ (keylatch s p lk).ditcnt)) ∧
      ((keylatch s p lk).volflags &&& DAHLATCH ≠ s.volflags &&& DAHLATCH →
        (s.volflags &&& DAHLATCH = 0 ∧ (keylatch s p lk).dahcnt = 0) ∨
        ((keylatch s p lk).volflags &&& DAHLATCH = 0 ∧ YACKCNTS ≤ (keylatch s p lk).dahcnt)) := by
  obtain ⟨_, k2, k3, k4⟩ := keylatch_fields s p lk
  rw [k2, k3, k4]
  generalize debounce s.ditcnt (ditLevel s.yackflags p) = dc
  generalize debounce s.dahcnt (dahLevel s.yackflags p) = hc
  have hv1 : latchUpdate s.volflags dc lk DITLATCH < 256 := (latchUpdate_dit _ _ _ hv).2
  obtain ⟨d1, d2⟩ := latchUpdate_dit_flip s.volflags dc lk hv
  obtain ⟨e1, e2⟩ := latchUpdate_dah_flip (latchUpdate s.volflags dc lk DITLATCH) hc lk hv1
  refine ⟨(latchUpdate_dah _ _ _ hv1).2, ?_, ?_⟩
  · rw [e1]; exact d2
  · rw [← d1]; exact e2

theorem latchRun_cons (s : Keyer) (c : Pins × Nat) (cs : List (Pins × Nat)) :
    latchRun s (c :: cs) = latchRun (keylatch s c.1 c.2) cs := rfl

theorem latchRun_counters (calls : List (Pins × Nat)) : ∀ s : Keyer,
    s.ditcnt ≤ YACKCNTS → s.dahcnt ≤ YACKCNTS →
      (latchRun s calls).ditcnt ≤ YACKCNTS ∧ (latchRun s calls).dahcnt ≤ YACKCNTS := by
  induction calls with
  | nil => intro s h1 h2; exact ⟨h1, h2⟩
  | cons c cs ih =>
    intro s h1 h2
    rw [latchRun_cons]
    exact ih _ (debounce_range _ _ h1) (debounce_range _ _ h2)

theorem ditPressed_cons (fl : Nat) (c : Pins × Nat) (cs : List (Pins × Nat)) :
    ditPressed fl (c :: cs) = (if ditLevel fl c.1 = false then 1 else 0) + ditPressed fl cs := by
  simp only [ditPressed, List.filter_cons]
  cases ditLevel fl c.1
  · simp; omega
  · simp

theorem dahPressed_cons (fl : Nat) (c : Pins × Nat) (cs : List (Pins × Nat)) :
    dahPressed fl (c :: cs) = (if dahLevel fl c.1 = false then 1 else 0) + dahPressed fl cs := by
  simp only [dahPressed, List.filter_cons]
  cases dahLevel fl c.1
  · simp; omega
  · simp

/-- While fewer pressed samples have been taken than the dit counter stands above 0, the dit
latch stays clear. -/
theorem dit_latch_stays_clear (calls : List (Pins × Nat)) : ∀ s : Keyer,
    s.volflags < 256 → s.volflags &&& DITLATCH = 0 → ditPressed s.yackflags calls < s.ditcnt →
      (latchRun s calls).volflags &&& DITLATCH = 0 := by
  induction calls with
  | nil => intro s _ h _; exact h
  | cons c cs ih =>
    intro s hv h0 hp
    rw [latchRun_cons]
    obtain ⟨k1, k2, _, _⟩ := keylatch_fields s c.1 c.2
    obtain ⟨b1, b2, _⟩ := keylatch_bits s c.1 c.2 hv
    have hs := debounce_step s.ditcnt (ditLevel s.yackflags c.1)
    rw [ditPressed_cons] at hp
    have hc : ditPressed s.yackflags cs < (keylatch s c.1 c.2).ditcnt := by rw [k2]; omega
    refine ih _ b1 ?_ (by rw [k1]; exact hc)
    by_cases hne : (keylatch s c.1 c.2).volflags &&& DITLATCH = s.volflags &&& DITLATCH
    · rw [hne]; exact h0
    · rcases b2 hne with ⟨_, h⟩ | ⟨h, _⟩
      · omega
      · exact h

theorem dah_latch_stays_clear (calls : List (Pins × Nat)) : ∀ s : Keyer,
    s.volflags < 256 → s.volflags &&& DAHLATCH = 0 → dahPressed s.yackflags calls < s.dahcnt →
      (latchRun s calls).volflags &&& DAHLATCH = 0 := by
  induction calls with
  | nil => intro s _ h _; exact h
  | cons c cs ih =>
    intro s hv h0 hp
    rw [latchRun_cons]
    obtain ⟨k1, _, k3, _⟩ := keylatch_fields s c.1 c.2
    obtain ⟨b1, _, b3⟩ := keylatch_bits s c.1 c.2 hv
    have hs := debounce_step s.dahcnt (dahLevel s.yackflags c.1)
    rw [dahPressed_cons] at hp
    have hc : dahPressed s.yackflags cs < (keylatch s c.1 c.2).dahcnt := by rw [k3]; omega
    refine ih _ b1 ?_ (by rw [k1]; exact hc)
    by_cases hne : (keylatch s c.1 c.2).volflags &&& DAHLATCH = s.volflags &&& DAHLATCH
    · rw [hne]; exact h0
    · rcases b3 hne with ⟨_, h⟩ | ⟨h, _⟩
      · omega
      · exact h

/-- C29: with the two debounce counters of keylatch within 0..YACKCNTS (they start at 0) they
stay there over any calls; one call sets a latch only with its counter at 0 and clears it only
with its counter at YACKCNTS; and from a counter at YACKCNTS with the latch clear, the latch is
still clear after any calls of which fewer than YACKCNTS sampled the contact pressed, so one
bouncing pressed sample never sets it. -/
theorem debounced_latch_needs_threshold (s : Keyer) (calls : List (Pins × Nat))
    (hv : s.volflags < 256) (hd : s.ditcnt ≤ YACKCNTS) (hh : s.dahcnt ≤ YACKCNTS) :
    ((latchRun s calls).ditcnt ≤ YACKCNTS ∧ (latchRun s calls).dahcnt ≤ YACKCNTS) ∧
      (∀ (p : Pins) (lk : Nat),
        ((keylatch s p lk).volflags &&& DITLATCH ≠ s.volflags &&& DITLATCH →
          (s.volflags &&& DITLATCH = 0 ∧ (keylatch s p lk).ditcnt = 0) ∨
          ((keylatch s p lk).volflags &&& DITLATCH = 0 ∧ (keylatch s p lk).ditcnt = YACKCNTS)) ∧
        ((keylatch s p lk).volflags &&& DAHLATCH ≠ s.volflags &&& DAHLATCH →
          (s.volflags &&& DAHLATCH = 0 ∧ (keylatch s p lk).dahcnt = 0) ∨
          ((keylatch s p lk).volflags &&& DAHLATCH = 0 ∧ (keylatch s p lk).dahcnt = YACKCNTS))) ∧
      (s.ditcnt = YACKCNTS → s.volflags &&& DITLATCH = 0 →
        ditPressed s.yackflags calls < YACKCNTS →
        (latchRun s calls).volflags &&& DITLATCH = 0) ∧
      (s.dahcnt = YACKCNTS → s.volflags &&& DAHLATCH = 0 →
        dahPressed s.yackflags calls < YACKCNTS →
        (latchRun s calls).volflags &&& DAHLATCH = 0) := by
  refine ⟨latchRun_counters calls s hd hh, ?_, ?_, ?_⟩
  · intro p lk
    obtain ⟨_, b2, b3⟩ := keylatch_bits s p lk hv
    obtain ⟨_, k2, k3, _⟩ := keylatch_fields s p lk
    have r1 : (keylatch s p lk).ditcnt ≤ YACKCNTS := by rw [k2]; exact debounce_range _ _ hd
    have r2 : (keylatch s p lk).dahcnt ≤ YACKCNTS := by rw [k3]; exact debounce_range _ _ hh
    constructor
    · intro hne
      rcases b2 hne with h | ⟨h1, h2⟩
      · exact Or.inl h
      · exact Or.inr ⟨h1, by omega⟩
    · intro hne
      rcases b3 hne with h | ⟨h1, h2⟩
      · exact Or.inl h
      · exact Or.inr ⟨h1, by omega⟩
  · intro h1 h2 h3
    exact dit_latch_stays_clear calls s hv h2 (by rw [h1]; exact h3)
  · intro h1 h2 h3
    exact dah_latch_stays_clear calls s hv h2 (by rw [h1]; exact h3)

theorem debounced_latch_needs_threshold_witness :
    restingKeyer.volflags < 256 ∧ restingKeyer.ditcnt ≤ YACKCNTS ∧
      restingKeyer.dahcnt ≤ YACKCNTS ∧ restingKeyer.ditcnt = YACKCNTS ∧
      restingKeyer.volflags &&& DITLATCH = 0 ∧ ditPressed restingKeyer.yackflags bounce = 1 ∧
      (latchRun restingKeyer bounce).volflags &&& DITLATCH = 0 :=
  ⟨by decide, by decide, by decide, by decide, by decide, by decide,
    (debounced_latch_needs_threshold restingKeyer bounce (by decide) (by decide)
      (by decide)).2.2.1 (by decide) (by decide) (by decide)⟩

/-! #### Power saving -/

theorem powerCalls_cons (s : Keyer) (n : Bool) (ns : List Bool) :
    powerCalls s (n :: ns) =
      ((powerCalls (yackpower s n).1 ns).1, (yackpower s n).2 :: (powerCalls (yackpower s n).1 ns).2) :=
  rfl

theorem yackpower_true (s : Keyer) (h : s.shdntimer < YACKSECS PSTIME) :
    (yackpower s true).2 = false ∧ (yackpower s true).1.shdntimer = s.shdntimer + 1 := by
  have h30 : YACKSECS PSTIME = 30000 := by decide
  rw [h30] at h
  unfold yackpower
  rw [if_pos rfl, if_neg (by rw [h30]; omega)]
  exact ⟨rfl, Nat.mod_eq_of_lt (by show s.shdntimer + 1 < 4294967296; omega)⟩

theorem yackpower_false (s : Keyer) :
    (yackpower s false).2 = false ∧ (yackpower s false).1.shdntimer = 0 := ⟨rfl, rfl⟩

theorem yackpower_sleep (s : Keyer) (n : Bool) :
    ((yackpower s n).2 = true ↔ n = true ∧ s.shdntimer = YACKSECS PSTIME) ∧
      ((yackpower s n).2 = true → (yackpower s n).1.shdntimer = 0) := by
  unfold yackpower
  cases n
  · simp
  · by_cases h : s.shdntimer = YACKSECS PSTIME
    · simp [h]
    · simp [h]

/-- From the counter at `c`, while the period cannot be completed: no call sleeps, and the
counter ends at `c` plus the number of calls exactly when every call had n = TRUE. -/
theorem powerCalls_count (ns : List Bool) : ∀ s : Keyer,
    s.shdntimer + ns.length ≤ YACKSECS PSTIME →
      (powerCalls s ns).2 = List.replicate ns.length false ∧
      (powerCalls s ns).1.shdntimer ≤ s.shdntimer + ns.length ∧
      ((powerCalls s ns).1.shdntimer = s.shdntimer + ns.length ↔ ∀ n ∈ ns, n = true) := by
  induction ns with
  | nil => intro s _; exact ⟨rfl, Nat.le_refl _, by simp [powerCalls]⟩
  | cons n ns ih =>
    intro s h
    rw [List.length_cons] at h
    rw [powerCalls_cons, List.length_cons]
    cases n
    · obtain ⟨f1, f2⟩ := yackpower_false s
      obtain ⟨i1, i2, i3⟩ := ih (yackpower s false).1 (by rw [f2]; omega)
      rw [f2] at i2
      refine ⟨by rw [f1, i1]; rfl, by show (powerCalls _ ns).1.shdntimer ≤ _; omega, ?_⟩
      constructor
      · intro he
        have : (powerCalls (yackpower s false).1 ns).1.shdntimer = s.shdntimer + (ns.length + 1) :=
          he
        omega
      · intro hall
        exact absurd (hall false (List.mem_cons_self _ _)) (by decide)
    · obtain ⟨t1, t2⟩ := yackpower_true s (by omega)
      obtain ⟨i1, i2, i3⟩ := ih (yackpower s true).1 (by rw [t2]; omega)
      rw [t2] at i2 i3
      refine ⟨by rw [t1, i1]; rfl, by show (powerCalls _ ns).1.shdntimer ≤ _; omega, ?_⟩
      constructor
      · intro he
        have he' : (powerCalls (yackpower s true).1 ns).1.shdntimer
            = s.shdntimer + (ns.length + 1) := he
        have := i3.mp (by omega)
        intro x hx
        rcases List.mem_cons.mp hx with h | h
        · exact h
        · exact this x h
      · intro hall
        have := i3.mpr (fun x hx => hall x (List.mem_cons_of_mem _ hx))
        show (powerCalls (yackpower s true).1 ns).1.shdntimer = _
        omega

/-- C30: in every state a call yackpower (FALSE) does not sleep and resets the beat counter; a
call sleeps exactly when n = TRUE and the counter stands at YACKSECS (PSTIME), and then the
counter restarts from 0; counted from a reset or a sleep (counter 0), no call among the next
YACKSECS (PSTIME) sleeps, and the call after them sleeps exactly when it and all of them had
n = TRUE; yackiambic called in a keyed state (S_DIT or S_DAH) does not sleep. -/
theorem yackpower_sleeps_after_idle_period (s : Keyer) :
    ((yackpower s false).2 = false ∧ (yackpower s false).1.shdntimer = 0) ∧
      (∀ n, ((yackpower s n).2 = true ↔ n = true ∧ s.shdntimer = YACKSECS PSTIME) ∧
        ((yackpower s n).2 = true → (yackpower s n).1.shdntimer = 0)) ∧
      (∀ (ns : List Bool) (n : Bool), s.shdntimer = 0 → ns.length ≤ YACKSECS PSTIME →
        (powerCalls s ns).2 = List.replicate ns.length false ∧
        ((yackpower (powerCalls s ns).1 n).2 = true ↔
          n = true ∧ ns = List.replicate (YACKSECS PSTIME) true)) ∧
      (∀ (ctrl : Nat) (p : Pins), s.state ≠ FSMSTATE.S_IDLE →
        (yackiambic s ctrl p).2.sleep = false) := by
  refine ⟨yackpower_false s, fun n => yackpower_sleep s n, ?_, ?_⟩
  · intro ns n h0 hl
    obtain ⟨c1, c2, c3⟩ := powerCalls_count ns s (by rw [h0]; omega)
    rw [h0, Nat.zero_add] at c2 c3
    refine ⟨c1, ?_⟩
    rw [(yackpower_sleep _ n).1]
    constructor
    · rintro ⟨hn, hc⟩
      have hlen : ns.length = YACKSECS PSTIME := by omega
      refine ⟨hn, ?_⟩
      rw [← hlen]
      exact List.eq_replicate_of_mem (c3.mp (by omega))
    · rintro ⟨hn, hr⟩
      refine ⟨hn, ?_⟩
      have hlen : ns.length = YACKSECS PSTIME := by rw [hr, List.length_replicate]
      rw [← hlen]
      refine c3.mpr ?_
      intro x hx
      rw [hr] at hx
      exact (List.mem_replicate.mp hx).2
  · intro ctrl p hst
    show (sampleStage s p).2 = false
    unfold sampleStage
    simp only []
    have : (if s.timer > 0 then { s with timer := s.timer - 1 } else s).state = s.state := by
      split <;> rfl
    rw [this, decide_eq_false hst]
    rfl

/-! ### The recording loop -/

theorem recordLoop_zero (c : Chip) (i : Nat) (ram : List Nat) (ps : List Pass) :
    recordLoop c 0 i ram ps =
      { chip := c, extimer := 0, i := i, rambuffer := ram, ending := Ending.timeout,
        writes := [], sent := [], events := [] } := by
  cases ps <;> rfl

theorem recordLoop_abort (c : Chip) (e i : Nat) (ram : List Nat) (p : Pass) (ps : List Pass)
    (h : (recordPass c e i ram p).ending = Ending.aborted) :
    recordLoop c (e + 1) i ram (p :: ps) = recordPass c e i ram p := by
  rw [recordLoop]
  simp only [h, if_true]

theorem recordLoop_step (c : Chip) (e i : Nat) (ram : List Nat) (p : Pass) (ps : List Pass)
    (h : (recordPass c e i ram p).ending ≠ Ending.aborted) :
    recordLoop c (e + 1) i ram (p :: ps) =
      { recordLoop (recordPass c e i ram p).chip (recordPass c e i ram p).extimer
          (recordPass c e i ram p).i (recordPass c e i ram p).rambuffer ps with
        writes := (recordPass c e i ram p).writes ++
          (recordLoop (recordPass c e i ram p).chip (recordPass c e i ram p).extimer
            (recordPass c e i ram p).i (recordPass c e i ram p).rambuffer ps).writes,
        sent := (recordPass c e i ram p).sent ++
          (recordLoop (recordPass c e i ram p).chip (recordPass c e i ram p).extimer
            (recordPass c e i ram p).i (recordPass c e i ram p).rambuffer ps).sent,
        events := (recordPass c e i ram p).events ++
          (recordLoop (recordPass c e i ram p).chip (recordPass c e i ram p).extimer
            (recordPass c e i ram p).i (recordPass c e i ram p).rambuffer ps).events } := by
  rw [recordLoop]
  simp only [h, if_false]

/-- One pass of the recording loop entered with `i < RBSIZE`: it is aborted by the command key,
or captures nothing, or writes one character at index `i`; in the last case `i` advances, or,
when the write filled the buffer, the error prosign is sent once and `i` returns to 0. -/
theorem recordPass_cases (c : Chip) (e i : Nat) (ram : List Nat) (p : Pass) (hi : i < RBSIZE) :
    ((recordPass c e i ram p).ending = Ending.aborted ∧ (recordPass c e i ram p).writes = [] ∧
        (recordPass c e i ram p).sent = [] ∧ (recordPass c e i ram p).i = i ∧
        (recordPass c e i ram p).rambuffer = ram) ∨
      ((recordPass c e i ram p).ending = Ending.running ∧ (recordPass c e i ram p).writes = [] ∧
        (recordPass c e i ram p).sent = [] ∧ (recordPass c e i ram p).i = i ∧
        (recordPass c e i ram p).rambuffer = ram ∧ (recordPass c e i ram p).extimer = e) ∨
      (∃ ch, ch ≠ 0 ∧ (recordPass c e i ram p).ending = Ending.running ∧
        (recordPass c e i ram p).writes = [(i, ch)] ∧
        (recordPass c e i ram p).rambuffer = ram.set i ch ∧
        (recordPass c e i ram p).extimer = YACKSECS DEFTIMEOUT ∧
        ((i + 1 < RBSIZE ∧ (recordPass c e i ram p).i = i + 1 ∧
            (recordPass c e i ram p).sent = []) ∨
          (i + 1 = RBSIZE ∧ (recordPass c e i ram p).i = 0 ∧
            (recordPass c e i ram p).sent = [C_HH]))) := by
  have hR : RBSIZE = 100 := rfl
  rw [hR] at hi
  have hb : toByte (i + 1) = i + 1 := Nat.mod_eq_of_lt (by omega)
  simp only [recordPass]
  generalize yackctrlkey c FALSE p.pressed p.held = k
  by_cases hk : k.2.1 ≠ 0
  · rw [if_pos hk]
    exact Or.inl ⟨rfl, rfl, rfl, rfl, rfl⟩
  · rw [if_neg hk]
    generalize iambicCall k.1 ON p.pins = y
    by_cases hc : y.2.1 ≠ 0
    · right; right
      refine ⟨y.2.1, hc, rfl, ?_⟩
      simp only [if_pos hc, hb]
      by_cases h99 : i + 1 ≥ RBSIZE
      · simp only [if_pos h99]
        refine ⟨trivial, trivial, trivial, Or.inr ⟨?_, trivial, trivial⟩⟩
        rw [hR] at h99 ⊢; omega
      · simp only [if_neg h99]
        refine ⟨trivial, trivial, trivial, Or.inl ⟨?_, trivial, trivial⟩⟩
        omega
    · right; left
      have hi2 : ¬ (i ≥ RBSIZE) := by rw [hR]; omega
      simp only [if_neg hc, if_neg hi2]
      exact ⟨trivial, trivial, trivial, trivial, trivial, trivial⟩

theorem take_succ_set (l : List Nat) (a : Nat) : ∀ i, i < l.length →
    (l.set i a).take (i + 1) = l.take i ++ [a] := by
  induction l with
  | nil => intro i h; simp at h
  | cons x xs ih =>
    intro i h
    cases i with
    | zero => rfl
    | succ i =>
      rw [List.set_cons_succ, List.take_succ_cons, List.take_succ_cons,
        ih i (by simpa using h)]
      rfl

theorem take_set_same (l : List Nat) (a : Nat) : ∀ i, (l.set i a).take i = l.take i := by
  induction l with
  | nil => intro i; simp
  | cons x xs ih =>
    intro i
    cases i with
    | zero => rfl
    | succ i => rw [List.set_cons_succ, List.take_succ_cons, List.take_succ_cons, ih i]

/-- While the buffer does not fill, the recording loop stores the captured characters one after
the other from index `i` on, and sends nothing. -/
theorem recordLoop_buffer (ps : List Pass) : ∀ (c : Chip) (e i : Nat) (ram : List Nat),
    ram.length = RBSIZE → i + (recordLoop c e i ram ps).writes.length < RBSIZE →
      (recordLoop c e i ram ps).i = i + (recordLoop c e i ram ps).writes.length ∧
      (recordLoop c e i ram ps).rambuffer.length = RBSIZE ∧
      (recordLoop c e i ram ps).rambuffer.take (i + (recordLoop c e i ram ps).writes.length)
        = ram.take i ++ (recordLoop c e i ram ps).writes.map Prod.snd ∧
      (recordLoop c e i ram ps).sent = [] := by
  have base : ∀ (i : Nat) (ram : List Nat), ram.length = RBSIZE →
      i = i + ([] : List (Nat × Nat)).length ∧ ram.length = RBSIZE ∧
        ram.take (i + ([] : List (Nat × Nat)).length)
          = ram.take i ++ ([] : List (Nat × Nat)).map Prod.snd ∧ ([] : List Nat) = [] := by
    intro i ram hl
    exact ⟨rfl, hl, by simp, rfl⟩
  induction ps with
  | nil =>
    intro c e i ram hl _
    cases e with
    | zero => rw [recordLoop_zero]; exact base i ram hl
    | succ e => exact base i ram hl
  | cons p ps ih =>
    intro c e i ram hl hn
    cases e with
    | zero => rw [recordLoop_zero]; exact base i ram hl
    | succ e =>
      have hi : i < RBSIZE := by omega
      rcases recordPass_cases c e i ram p hi with
        ⟨h1, h2, h3, h4, h5⟩ | ⟨h1, h2, h3, h4, h5, _⟩ | ⟨ch, _, h1, h2, h3, _, h5⟩
      · rw [recordLoop_abort _ _ _ _ _ _ h1, h2, h3, h4, h5]
        exact base i ram hl
      · rw [recordLoop_step _ _ _ _ _ _ (by rw [h1]; decide)] at hn ⊢
        simp only [h2, h3, List.nil_append] at hn ⊢
        rw [h4, h5] at hn ⊢
        exact ih _ _ i ram hl hn
      · rw [recordLoop_step _ _ _ _ _ _ (by rw [h1]; decide)] at hn ⊢
        simp only [h2, List.singleton_append, List.length_cons] at hn ⊢
        rcases h5 with ⟨h6, h7, h8⟩ | ⟨h6, _, _⟩
        · rw [h7, h3] at hn
          rw [h7, h8, h3]
          obtain ⟨i1, i2, i3, i4⟩ := ih (recordPass c e i ram p).chip
            (recordPass c e i ram p).extimer (i + 1) (ram.set i ch)
            (by rw [List.length_set]; exact hl) (by omega)
          generalize recordLoop (recordPass c e i ram p).chip (recordPass c e i ram p).extimer
            (i + 1) (ram.set i ch) ps = r at hn i1 i2 i3 i4
          refine ⟨by omega, i2, ?_, by rw [i4]; rfl⟩
          rw [show i + (r.writes.length + 1) = i + 1 + r.writes.length by omega, i3,
            take_succ_set ram ch i (by omega), List.map_cons, List.append_assoc]
          rfl
        · omega

/-- The effect of `recordFinish` with `k` characters captured in the first `k` entries of the
buffer: the end marker replaces the last of them, the ones before it are replayed, then the
buffer is written to the slot. -/
theorem recordFinish_commit (c : Chip) (k : Nat) (buf : List Nat) (msgnr : Nat)
    (hk : 1 ≤ k) (hk2 : k < RBSIZE) (hl : buf.length = RBSIZE) :
    (recordFinish c k buf msgnr).sent = (buf.take k).take (k - 1) ∧
      (slotOf (recordFinish c k buf msgnr).chip.ee msgnr).take k
        = (buf.take k).take (k - 1) ++ [0] ∧
      (recordFinish c k buf msgnr).events
        = (sendChars c ((buf.take k).take (k - 1))).2 ++
          (storeSlot (sendChars c ((buf.take k).take (k - 1))).1 msgnr (buf.set (k - 1) 0)).2 ∧
      (recordFinish c k buf msgnr).ending = some Ending.timeout := by
  have hR : RBSIZE = 100 := rfl
  rw [hR] at hk2 hl
  have hb : toByte (k + 255) = k - 1 := by unfold toByte; omega
  have ht : (buf.take k).take (k - 1) = buf.take (k - 1) := by
    rw [List.take_take, Nat.min_eq_left (by omega)]
  have hs : (buf.set (k - 1) 0).take (k - 1) = buf.take (k - 1) := take_set_same buf 0 (k - 1)
  have hs2 : (buf.set (k - 1) 0).take k = buf.take (k - 1) ++ [0] := by
    have := take_succ_set buf 0 (k - 1) (by omega)
    rw [show k - 1 + 1 = k by omega] at this
    exact this
  rw [ht]
  unfold recordFinish
  rw [if_pos (by omega)]
  simp only [hb, hs]
  refine ⟨trivial, ?_, trivial, trivial⟩
  rw [(slotOf_storeSlot _ _ _).1, hs2]

theorem yackmessage_record (c : Chip) (msgnr : Nat) (ram : List Nat) (passes : List Pass)
    (h : (recordLoop c (YACKSECS DEFTIMEOUT) 0 ram passes).ending = Ending.timeout) :
    yackmessage c RECORD msgnr ram passes =
      { recordFinish (recordLoop c (YACKSECS DEFTIMEOUT) 0 ram passes).chip
          (recordLoop c (YACKSECS DEFTIMEOUT) 0 ram passes).i
          (recordLoop c (YACKSECS DEFTIMEOUT) 0 ram passes).rambuffer msgnr with
        sent := (recordLoop c (YACKSECS DEFTIMEOUT) 0 ram passes).sent ++
          (recordFinish (recordLoop c (YACKSECS DEFTIMEOUT) 0 ram passes).chip
            (recordLoop c (YACKSECS DEFTIMEOUT) 0 ram passes).i
            (recordLoop c (YACKSECS DEFTIMEOUT) 0 ram passes).rambuffer msgnr).sent,
        events := (recordLoop c (YACKSECS DEFTIMEOUT) 0 ram passes).events ++
          (recordFinish (recordLoop c (YACKSECS DEFTIMEOUT) 0 ram passes).chip
            (recordLoop c (YACKSECS DEFTIMEOUT) 0 ram passes).i
            (recordLoop c (YACKSECS DEFTIMEOUT) 0 ram passes).rambuffer msgnr).events } := by
  rw [yackmessage, if_pos rfl]
  simp only [h]

/-- A recording that times out with `k` characters captured, 1 <= k < RBSIZE: the characters
sent are the first `k - 1` captured ones, replayed after the loop, and the slot then holds them
followed by the end marker. -/
theorem record_commit (c : Chip) (msgnr : Nat) (ram : List Nat) (passes : List Pass)
    (hl : ram.length = RBSIZE)
    (ht : (recordLoop c (YACKSECS DEFTIMEOUT) 0 ram passes).ending = Ending.timeout)
    (h1 : 1 ≤ (recordLoop c (YACKSECS DEFTIMEOUT) 0 ram passes).writes.length)
    (h2 : (recordLoop c (YACKSECS DEFTIMEOUT) 0 ram passes).writes.length < RBSIZE) :
    (yackmessage c RECORD msgnr ram passes).sent
        = ((recordLoop c (YACKSECS DEFTIMEOUT) 0 ram passes).writes.map Prod.snd).take
            ((recordLoop c (YACKSECS DEFTIMEOUT) 0 ram passes).writes.length - 1) ∧
      (slotOf (yackmessage c RECORD msgnr ram passes).chip.ee msgnr).take
          (recordLoop c (YACKSECS DEFTIMEOUT) 0 ram passes).writes.length
        = ((recordLoop c (YACKSECS DEFTIMEOUT) 0 ram passes).writes.map Prod.snd).take
            ((recordLoop c (YACKSECS DEFTIMEOUT) 0 ram passes).writes.length - 1) ++ [0] ∧
      (∃ replay block, (yackmessage c RECORD msgnr ram passes).events
        = (recordLoop c (YACKSECS DEFTIMEOUT) 0 ram passes).events ++ (replay ++ block) ∧
        storeWrites block = block ∧ block ≠ [] ∧
        replay = (sendChars (recordLoop c (YACKSECS DEFTIMEOUT) 0 ram passes).chip
          (((recordLoop c (YACKSECS DEFTIMEOUT) 0 ram passes).writes.map Prod.snd).take
            ((recordLoop c (YACKSECS DEFTIMEOUT) 0 ram passes).writes.length - 1))).2) := by
  obtain ⟨b1, b2, b3, b4⟩ := recordLoop_buffer passes c (YACKSECS DEFTIMEOUT) 0 ram hl
    (by rw [Nat.zero_add]; exact h2)
  rw [yackmessage_record c msgnr ram passes ht]
  generalize recordLoop c (YACKSECS DEFTIMEOUT) 0 ram passes = r at *
  rw [Nat.zero_add] at b1 b3
  rw [List.take_zero, List.nil_append] at b3
  obtain ⟨f1, f2, f3, _⟩ := recordFinish_commit r.chip r.writes.length r.rambuffer msgnr h1 h2 b2
  rw [b3] at f1 f2 f3
  rw [b1]
  refine ⟨?_, f2, ?_⟩
  · show r.sent ++ (recordFinish r.chip r.writes.length r.rambuffer msgnr).sent = _
    rw [b4, f1]; rfl
  · refine ⟨_, (storeSlot (sendChars r.chip ((r.writes.map Prod.snd).take
      (r.writes.length - 1))).1 msgnr (r.rambuffer.set (r.writes.length - 1) 0)).2,
      ?_, ?_, ?_, rfl⟩
    · show r.events ++ (recordFinish r.chip r.writes.length r.rambuffer msgnr).events = _
      rw [f3]
    · unfold storeSlot; split <;> rfl
    · unfold storeSlot; split <;> simp

/-! ### Silence during a recording -/

theorem yackctrlkey_released (c : Chip) (held : List (Bool × Bool)) :
    yackctrlkey c FALSE false held =
      ((yacksave c).1, (if c.keyer.volflags &&& CKLATCH ≠ 0 then 1 else 0),
        [] ++ (yacksave c).2) := rfl

theorem yackctrlkey_quiet (c : Chip) (held : List (Bool × Bool))
    (h1 : c.keyer.volflags &&& CKLATCH = 0) (h2 : c.keyer.volflags &&& DIRTYFLAG = 0) :
    yackctrlkey c FALSE false held = (c, 0, []) := by
  rw [yackctrlkey_released, yacksave_clean c h2, if_neg (fun hne => hne h1)]
  rfl

theorem keyCalls_keyer (ks : List Nat) : ∀ c : Chip, (keyCalls c ks).1.keyer = c.keyer := by
  induction ks with
  | nil => intro c; rfl
  | cons k ks ih =>
    intro c
    show (keyCalls (yackkey c k).1 ks).1.keyer = _
    rw [ih]
    rfl

theorem iambicCall_keyer (c : Chip) (ctrl : Nat) (p : Pins) :
    (iambicCall c ctrl p).1.keyer = (yackiambic c.keyer ctrl p).1 ∧
      (iambicCall c ctrl p).2.1 = (yackiambic c.keyer ctrl p).2.retchar := by
  refine ⟨?_, rfl⟩
  show (keyCalls _ _).1.keyer = _
  rw [keyCalls_keyer]

theorem latchUpdate_released (v c latch : Nat) : latchUpdate v (debounce c true) 0 latch = v := by
  have hd : 1 ≤ debounce c true := by rw [debounce_open]; split <;> omega
  unfold latchUpdate
  rw [if_neg (by simp), if_neg (by omega)]

theorem paddlePins_released (fl : Nat) :
    paddlePins fl false false = { ditpin := true, dahpin := true } := by
  unfold paddlePins; split <;> rfl

theorem decisionStage_volflags (s : Keyer) (ctrl mode : Nat) :
    (decisionStage s ctrl mode).1.volflags = s.volflags := by
  by_cases h : s.timer = 0
  · rw [decisionStage_zero _ _ _ h]
    show (elementBlock (idleBlock s ctrl).1 mode).1.volflags = _
    rw [(elementBlock_frame _ _).2.1, (idleBlock_frame _ _).2.1]
  · rw [decisionStage_wait _ _ _ h]

/-- With both paddles released and no previous key, a call of `yackiambic` leaves `volflags`
as it is. -/
theorem yackiambic_released_volflags (s : Keyer) (ctrl : Nat) (h : s.lastkey = 0) :
    (yackiambic s ctrl { ditpin := true, dahpin := true }).1.volflags = s.volflags := by
  rw [yackiambic_fst, decisionStage_volflags, ← paddlePins_released s.yackflags]
  obtain ⟨sh, hs⟩ := sampleStage_paddle s false false
  rw [hs, h]
  split
  · show latchUpdate (latchUpdate s.volflags (debounce s.ditcnt (!false)) 0 DITLATCH)
      (debounce s.dahcnt (!false)) 0 DAHLATCH = _
    rw [Bool.not_false, latchUpdate_released, latchUpdate_released]
  · rfl

/-- A pass of the recording loop with everything released, from the library at rest: nothing is
captured or sent, and the library is at rest again. -/
theorem quiet_pass (c : Chip) (e i : Nat) (ram : List Nat) (hi : i < RBSIZE)
    (h : quietChip c = true) :
    (recordPass c e i ram quietPass).ending = Ending.running ∧
      (recordPass c e i ram quietPass).extimer = e ∧
      (recordPass c e i ram quietPass).i = i ∧
      (recordPass c e i ram quietPass).rambuffer = ram ∧
      (recordPass c e i ram quietPass).writes = [] ∧
      (recordPass c e i ram quietPass).sent = [] ∧
      quietChip (recordPass c e i ram quietPass).chip = true := by
  obtain ⟨q1, q2, q3, q4, q5, q6, q7, q8, q9, q10, q11, q12, q13⟩ := of_decide_eq_true h
  have hk := yackctrlkey_quiet c [] q12 q13
  have hcore : CoreD c.keyer c.keyer.yackflags c.keyer.wpmcnt FSMSTATE.S_IDLE 0 0 0 1 0
      c.keyer.ditcnt := ⟨c.keyer.dahcnt, rfl, rfl, q1, q2, q3, q4, q5, q6, q7, q8, rfl, rfl, q9⟩
  have hd : debounce c.keyer.ditcnt (!false) = min (c.keyer.ditcnt + 1) 2 := by
    rw [Bool.not_false, debounce_open]; split <;> omega
  have hl : latchUpdate 0 (debounce c.keyer.ditcnt (!false)) 0 DITLATCH = 0 := by
    rw [Bool.not_false]; exact latchUpdate_released 0 _ _
  obtain ⟨t1, t2⟩ := tickD_none c.keyer c.keyer.yackflags c.keyer.wpmcnt FSMSTATE.S_IDLE 0 0 0 1
    0 c.keyer.ditcnt ON false hcore rfl (by decide) hl (Or.inr q11)
  simp only [ne_eq, not_true_eq_false, if_false, lt_irrefl, and_false] at t1 t2
  rw [paddlePins_released] at t1 t2
  obtain ⟨hc, r1, r2, r3, r4, r5, r6, r7, r8, r9, r10, r11, _, r13⟩ := t1
  have hret : (yackiambic c.keyer ON { ditpin := true, dahpin := true }).2.retchar = 0 :=
    congrArg Prod.fst t2
  have hvol := yackiambic_released_volflags c.keyer ON q3
  obtain ⟨y1, y2⟩ := iambicCall_keyer c ON { ditpin := true, dahpin := true }
  rw [hret] at y2
  have hR : RBSIZE = 100 := rfl
  have hi2 : ¬ (i ≥ RBSIZE) := by omega
  have hp : recordPass c e i ram quietPass =
      { chip := (iambicCall c ON { ditpin := true, dahpin := true }).1, extimer := e, i := i,
        rambuffer := ram, ending := Ending.running, writes := [], sent := [],
        events := [] ++ (iambicCall c ON { ditpin := true, dahpin := true }).2.2 ++ [] ++
          [Event.beat] } := by
    simp only [recordPass, quietPass, hk]
    rw [if_neg (by simp)]
    simp only [y2, ne_eq, not_true_eq_false, if_false, if_neg hi2]
  rw [hp]
  refine ⟨rfl, rfl, rfl, rfl, rfl, rfl, ?_⟩
  apply decide_eq_true
  show (iambicCall c ON { ditpin := true, dahpin := true }).1.keyer.state = _ ∧ _
  rw [y1, hvol]
  refine ⟨r3, r4, r5, r6, r7, r8, q7, q8, r13, ?_, ?_, q12, q13⟩
  · rw [r11, hd]; omega
  · rw [r2]; exact q11

theorem quiet_run (n : Nat) : ∀ (c : Chip) (i : Nat) (ram : List Nat), i < RBSIZE →
    quietChip c = true →
      (recordLoop c n i ram (List.replicate n quietPass)).ending = Ending.timeout ∧
      (recordLoop c n i ram (List.replicate n quietPass)).i = i ∧
      (recordLoop c n i ram (List.replicate n quietPass)).rambuffer = ram ∧
      (recordLoop c n i ram (List.replicate n quietPass)).writes = [] ∧
      (recordLoop c n i ram (List.replicate n quietPass)).sent = [] := by
  induction n with
  | zero => intro c i ram _ _; rw [recordLoop_zero]; exact ⟨rfl, rfl, rfl, rfl, rfl⟩
  | succ n ih =>
    intro c i ram hi h
    obtain ⟨p1, p2, p3, p4, p5, p6, p7⟩ := quiet_pass c n i ram hi h
    rw [List.replicate_succ, recordLoop_step _ _ _ _ _ _ (by rw [p1]; decide)]
    simp only [p2, p3, p4, p5, p6, List.nil_append]
    exact ih _ i ram hi p7

/-- A run of the recording loop continued by further passes. -/
theorem recordLoop_append (l1 : List Pass) : ∀ (c : Chip) (e i : Nat) (ram : List Nat)
    (l2 : List Pass), (recordLoop c e i ram l1).ending = Ending.running →
      recordLoop c e i ram (l1 ++ l2) =
        { recordLoop (recordLoop c e i ram l1).chip (recordLoop c e i ram l1).extimer
            (recordLoop c e i ram l1).i (recordLoop c e i ram l1).rambuffer l2 with
          writes := (recordLoop c e i ram l1).writes ++
            (recordLoop (recordLoop c e i ram l1).chip (recordLoop c e i ram l1).extimer
              (recordLoop c e i ram l1).i (recordLoop c e i ram l1).rambuffer l2).writes,
          sent := (recordLoop c e i ram l1).sent ++
            (recordLoop (recordLoop c e i ram l1).chip (recordLoop c e i ram l1).extimer
              (recordLoop c e i ram l1).i (recordLoop c e i ram l1).rambuffer l2).sent,
          events := (recordLoop c e i ram l1).events ++
            (recordLoop (recordLoop c e i ram l1).chip (recordLoop c e i ram l1).extimer
              (recordLoop c e i ram l1).i (recordLoop c e i ram l1).rambuffer l2).events } := by
  induction l1 with
  | nil =>
    intro c e i ram l2 h
    cases e with
    | zero => rw [recordLoop_zero] at h; cases h
    | succ e => rfl
  | cons p ps ih =>
    intro c e i ram l2 h
    cases e with
    | zero => rw [recordLoop_zero] at h; cases h
    | succ e =>
      by_cases ha : (recordPass c e i ram p).ending = Ending.aborted
      · rw [recordLoop_abort _ _ _ _ _ _ ha, ha] at h
        exact absurd h (by decide)
      · rw [recordLoop_step _ _ _ _ _ _ ha] at h ⊢
        rw [List.cons_append, recordLoop_step _ _ _ _ _ _ ha, ih _ _ _ _ l2 h]
        simp only [List.append_assoc]

/-- The fields of a run of the recording loop continued by further passes. -/
theorem recordLoop_append_fields (l1 l2 : List Pass) (c : Chip) (e i : Nat) (ram : List Nat)
    (h : (recordLoop c e i ram l1).ending = Ending.running) :
    (recordLoop c e i ram (l1 ++ l2)).ending
        = (recordLoop (recordLoop c e i ram l1).chip (recordLoop c e i ram l1).extimer
            (recordLoop c e i ram l1).i (recordLoop c e i ram l1).rambuffer l2).ending ∧
      (recordLoop c e i ram (l1 ++ l2)).i
        = (recordLoop (recordLoop c e i ram l1).chip (recordLoop c e i ram l1).extimer
            (recordLoop c e i ram l1).i (recordLoop c e i ram l1).rambuffer l2).i ∧
      (recordLoop c e i ram (l1 ++ l2)).rambuffer
        = (recordLoop (recordLoop c e i ram l1).chip (recordLoop c e i ram l1).extimer
            (recordLoop c e i ram l1).i (recordLoop c e i ram l1).rambuffer l2).rambuffer ∧
      (recordLoop c e i ram (l1 ++ l2)).writes
        = (recordLoop c e i ram l1).writes ++
          (recordLoop (recordLoop c e i ram l1).chip (recordLoop c e i ram l1).extimer
            (recordLoop c e i ram l1).i (recordLoop c e i ram l1).rambuffer l2).writes ∧
      (recordLoop c e i ram (l1 ++ l2)).sent
        = (recordLoop c e i ram l1).sent ++
          (recordLoop (recordLoop c e i ram l1).chip (recordLoop c e i ram l1).extimer
            (recordLoop c e i ram l1).i (recordLoop c e i ram l1).rambuffer l2).sent := by
  rw [recordLoop_append l1 c e i ram l2 h]
  exact ⟨rfl, rfl, rfl, rfl, rfl⟩

set_option maxRecDepth 1000000 in
/-- The passes of `keyTwoE` from the state after `yackinit`: the letter E is captured twice and
the loop is still running, with the end-of-message timer reset and the library at rest. -/
theorem keyTwoE_run :
    (recordLoop freshChip (YACKSECS DEFTIMEOUT) 0 (List.replicate RBSIZE 255) keyTwoE).ending
        = Ending.running ∧
      (recordLoop freshChip (YACKSECS DEFTIMEOUT) 0 (List.replicate RBSIZE 255) keyTwoE).extimer
        = YACKSECS DEFTIMEOUT ∧
      (recordLoop freshChip (YACKSECS DEFTIMEOUT) 0 (List.replicate RBSIZE 255) keyTwoE).i = 2 ∧
      (recordLoop freshChip (YACKSECS DEFTIMEOUT) 0 (List.replicate RBSIZE 255) keyTwoE).rambuffer
        = [C_E, C_E] ++ List.replicate 98 255 ∧
      (recordLoop freshChip (YACKSECS DEFTIMEOUT) 0 (List.replicate RBSIZE 255) keyTwoE).writes
        = [(0, C_E), (1, C_E)] ∧
      quietChip
        (recordLoop freshChip (YACKSECS DEFTIMEOUT) 0 (List.replicate RBSIZE 255) keyTwoE).chip
        = true := by
  decide

/-- The recording of `recordTwoE`: the loop times out with two characters captured. -/
theorem recordTwoE_run :
    (recordLoop freshChip (YACKSECS DEFTIMEOUT) 0 (List.replicate RBSIZE 255) recordTwoE).ending
        = Ending.timeout ∧
      (recordLoop freshChip (YACKSECS DEFTIMEOUT) 0 (List.replicate RBSIZE 255) recordTwoE).writes
        = [(0, C_E), (1, C_E)] := by
  obtain ⟨h1, h2, h3, h4, h5, h7⟩ := keyTwoE_run
  obtain ⟨q1, _, _, q4, _⟩ := quiet_run (YACKSECS DEFTIMEOUT)
    (recordLoop freshChip (YACKSECS DEFTIMEOUT) 0 (List.replicate RBSIZE 255) keyTwoE).chip
    2 ([C_E, C_E] ++ List.replicate 98 255) (by decide) h7
  obtain ⟨a1, _, _, a4, _⟩ := recordLoop_append_fields keyTwoE
    (List.replicate (YACKSECS DEFTIMEOUT) quietPass) freshChip (YACKSECS DEFTIMEOUT) 0
    (List.replicate RBSIZE 255) h1
  rw [h2, h3, h4] at a1 a4
  rw [h5, q4] at a4
  rw [q1] at a1
  exact ⟨a1, a4⟩

/-- C22 as stated fails on the code. From the state after yackinit, with the letter E keyed
twice and then silence until the end-of-message timer runs out, yackmessage (RECORD, 1) has
captured k = 2 characters; the end marker is written over the second one, so only the first E
is played back and the slot holds E followed by the end marker, not E, E and the end marker. -/
theorem record_drops_last_character :
    (recordLoop freshChip (YACKSECS DEFTIMEOUT) 0 (List.replicate RBSIZE 255) recordTwoE).ending
        = Ending.timeout ∧
      (recordLoop freshChip (YACKSECS DEFTIMEOUT) 0 (List.replicate RBSIZE 255)
        recordTwoE).writes.map Prod.snd = [C_E, C_E] ∧
      (yackmessage freshChip RECORD 1 (List.replicate RBSIZE 255) recordTwoE).sent = [C_E] ∧
      (slotOf (yackmessage freshChip RECORD 1 (List.replicate RBSIZE 255) recordTwoE).chip.ee
        1).take 2 = [C_E, 0] ∧
      (slotOf (yackmessage freshChip RECORD 1 (List.replicate RBSIZE 255) recordTwoE).chip.ee
        1).take 2 ≠ [C_E, C_E] := by
  obtain ⟨r1, r2⟩ := recordTwoE_run
  obtain ⟨c1, c2, _⟩ := record_commit freshChip 1 (List.replicate RBSIZE 255) recordTwoE
    (by decide) r1 (by rw [r2]; decide) (by rw [r2]; decide)
  rw [r2] at c1 c2
  have c3 : (slotOf (yackmessage freshChip RECORD 1 (List.replicate RBSIZE 255)
      recordTwoE).chip.ee 1).take 2 = [C_E, 0] := c2
  refine ⟨r1, by rw [r2]; rfl, c1, c3, ?_⟩
  rw [c3]
  decide

/-- C22 amended: when yackmessage (RECORD, slot) ends by timeout after capturing k characters
with 1 <= k < RBSIZE, the end marker is written over the last captured character: the buffer
committed to the slot holds the first k - 1 captured characters in order followed by the zero
terminator, and those k - 1 characters are played back once, after the loop and before the
commit, which is the last thing the function does. -/
theorem record_commits_all_but_last (c : Chip) (msgnr : Nat) (ram : List Nat)
    (passes : List Pass) (hl : ram.length = RBSIZE)
    (ht : (recordLoop c (YACKSECS DEFTIMEOUT) 0 ram passes).ending = Ending.timeout)
    (hk : 1 ≤ (recordLoop c (YACKSECS DEFTIMEOUT) 0 ram passes).writes.length ∧
      (recordLoop c (YACKSECS DEFTIMEOUT) 0 ram passes).writes.length < RBSIZE) :
    (yackmessage c RECORD msgnr ram passes).sent
        = ((recordLoop c (YACKSECS DEFTIMEOUT) 0 ram passes).writes.map Prod.snd).take
            ((recordLoop c (YACKSECS DEFTIMEOUT) 0 ram passes).writes.length - 1) ∧
      (slotOf (yackmessage c RECORD msgnr ram passes).chip.ee msgnr).take
          (recordLoop c (YACKSECS DEFTIMEOUT) 0 ram passes).writes.length
        = ((recordLoop c (YACKSECS DEFTIMEOUT) 0 ram passes).writes.map Prod.snd).take
            ((recordLoop c (YACKSECS DEFTIMEOUT) 0 ram passes).writes.length - 1) ++ [0] ∧
      (∃ replay block, (yackmessage c RECORD msgnr ram passes).events
        = (recordLoop c (YACKSECS DEFTIMEOUT) 0 ram passes).events ++ (replay ++ block) ∧
        storeWrites block = block ∧ block ≠ [] ∧
        replay = (sendChars (recordLoop c (YACKSECS DEFTIMEOUT) 0 ram passes).chip
          (((recordLoop c (YACKSECS DEFTIMEOUT) 0 ram passes).writes.map Prod.snd).take
            ((recordLoop c (YACKSECS DEFTIMEOUT) 0 ram passes).writes.length - 1))).2) :=
  record_commit c msgnr ram passes hl ht hk.1 hk.2

theorem record_commits_all_but_last_witness :
    (List.replicate RBSIZE 255).length = RBSIZE ∧
      (recordLoop freshChip (YACKSECS DEFTIMEOUT) 0 (List.replicate RBSIZE 255) recordTwoE).ending
        = Ending.timeout ∧
      (1 ≤ (recordLoop freshChip (YACKSECS DEFTIMEOUT) 0 (List.replicate RBSIZE 255)
          recordTwoE).writes.length ∧
        (recordLoop freshChip (YACKSECS DEFTIMEOUT) 0 (List.replicate RBSIZE 255)
          recordTwoE).writes.length < RBSIZE) ∧
      (yackmessage freshChip RECORD 2 (List.replicate RBSIZE 255) recordTwoE).sent
        = ((recordLoop freshChip (YACKSECS DEFTIMEOUT) 0 (List.replicate RBSIZE 255)
            recordTwoE).writes.map Prod.snd).take
          ((recordLoop freshChip (YACKSECS DEFTIMEOUT) 0 (List.replicate RBSIZE 255)
            recordTwoE).writes.length - 1) :=
  ⟨by decide, recordTwoE_run.1,
    ⟨by rw [recordTwoE_run.2]; decide, by rw [recordTwoE_run.2]; decide⟩,
    (record_commits_all_but_last freshChip 2 (List.replicate RBSIZE 255) recordTwoE (by decide)
      recordTwoE_run.1
      ⟨by rw [recordTwoE_run.2]; decide, by rw [recordTwoE_run.2]; decide⟩).1⟩

/-! ### Dactylic mode: one paddle held -/

theorem held_dit_latch (x : Nat) (hx : 1 ≤ x) :
    latchUpdate (latchUpdate 1 0 1 DITLATCH) x 1 DAHLATCH = 1 := by
  rw [show latchUpdate 1 0 1 DITLATCH = 1 by decide]
  simp only [latchUpdate, DAHLATCH, show (1 : Nat) &&& 2 = 0 from rfl]
  rw [if_neg (by simp), if_neg (by omega)]

theorem held_dah_latch (x : Nat) (hx : 1 ≤ x) :
    latchUpdate (latchUpdate 2 x 2 DITLATCH) 0 2 DAHLATCH = 2 := by
  have h : latchUpdate 2 x 2 DITLATCH = 2 := by
    simp only [latchUpdate, DITLATCH, show (2 : Nat) &&& 1 = 0 from rfl]
    rw [if_neg (by simp), if_neg (by omega)]
  rw [h]
  decide

theorem held_latch (t pl k dc hc : Nat) (h : HeldCounts k dc hc) :
    sampledLatch t pl k dc hc k (decide (k = DITLATCH)) (decide (k = DAHLATCH)) = k ∧
      HeldCounts k (sampledCount t pl dc (decide (k = DITLATCH)))
        (sampledCount t pl hc (decide (k = DAHLATCH))) := by
  rcases h with ⟨rfl, rfl, h1⟩ | ⟨rfl, rfl, h1⟩
  · have hd : 1 ≤ debounce hc true := by rw [debounce_open]; split <;> omega
    have e1 : decide (DITLATCH = DITLATCH) = true := rfl
    have e2 : decide (DITLATCH = DAHLATCH) = false := rfl
    rw [e1, e2]
    constructor
    · simp only [sampledLatch]
      split
      · exact held_dit_latch _ hd
      · rfl
    · left
      refine ⟨rfl, ?_, ?_⟩
      · simp only [sampledCount]
        split <;> rfl
      · simp only [sampledCount]
        split
        · exact hd
        · exact h1
  · have hd : 1 ≤ debounce dc true := by rw [debounce_open]; split <;> omega
    have e1 : decide (DAHLATCH = DITLATCH) = false := rfl
    have e2 : decide (DAHLATCH = DAHLATCH) = true := rfl
    rw [e1, e2]
    constructor
    · simp only [sampledLatch]
      split
      · exact held_dah_latch _ hd
      · rfl
    · right
      refine ⟨rfl, ?_, ?_⟩
      · simp only [sampledCount]
        split <;> rfl
      · simp only [sampledCount]
        split
        · exact hd
        · exact h1

theorem heldCounts_key (k dc hc : Nat) (h : HeldCounts k dc hc) :
    (k = DITLATCH ∨ k = DAHLATCH) ∧ 0 < k := by
  rcases h with ⟨rfl, _, _⟩ | ⟨rfl, _, _⟩
  · exact ⟨Or.inl rfl, by decide⟩
  · exact ⟨Or.inr rfl, by decide⟩

/-- In Dactylic mode a latched key set equal to the previous one gives a dit. -/
theorem nextState_dactyl_same (st : FSMSTATE) (k : Nat) (h : k = DITLATCH ∨ k = DAHLATCH) :
    nextState DACTYL st k k = FSMSTATE.S_DIT := by
  rcases h with rfl | rfl <;> simp [nextState, DACTYL, IAMBA, SQUEEZED, DITLATCH, DAHLATCH]

theorem heldAt_wait_tick (s : Keyer) (fl w k ctrl : Nat) (st : FSMSTATE) (t : Nat)
    (hs : HeldAt s fl w k st t) (ht : t - 1 ≠ 0) :
    HeldAt (yackiambic s ctrl (heldTick fl ctrl k).pins).1 fl w k st (t - 1) ∧
      startedElement (yackiambic s ctrl (heldTick fl ctrl k).pins) = none := by
  obtain ⟨bc, pl, bf, dc, hc, hcore, hcnt⟩ := hs
  obtain ⟨l1, l2⟩ := held_latch t pl k dc hc hcnt
  obtain ⟨a1, _, a3⟩ := tick_core_wait s fl w st t k bc pl bf k dc hc ctrl
    (decide (k = DITLATCH)) (decide (k = DAHLATCH)) hcore ht
  rw [l1] at a1
  exact ⟨⟨_, _, _, _, _, a1, l2⟩, startedElement_none _ a3⟩

theorem heldAt_decide_tick (s : Keyer) (fl w k ctrl : Nat) (st : FSMSTATE) (t : Nat)
    (hm : fl &&& MODE = DACTYL) (hs : HeldAt s fl w k st t) (ht : t - 1 = 0) :
    HeldAt (yackiambic s ctrl (heldTick fl ctrl k).pins).1 fl w k FSMSTATE.S_DIT
        (toWord (DITLEN * w)) ∧
      startedElement (yackiambic s ctrl (heldTick fl ctrl k).pins) = some Element.dit := by
  obtain ⟨bc, pl, bf, dc, hc, hcore, hcnt⟩ := hs
  obtain ⟨l1, l2⟩ := held_latch t pl k dc hc hcnt
  obtain ⟨k1, k2⟩ := heldCounts_key k dc hc hcnt
  obtain ⟨a1, a2⟩ := tick_core_some s fl w st t k bc pl bf k dc hc ctrl
    (decide (k = DITLATCH)) (decide (k = DAHLATCH)) FSMSTATE.S_DIT _ _ hcore ht
    (by rw [l1]; exact k2) (by rw [l1, hm, nextState_dactyl_same st k k1]) rfl rfl
  rw [l1] at a1
  simp only [if_true] at a1
  exact ⟨⟨_, _, _, _, _, a1, l2⟩, startedElement_dit _ a2 a1.2.2.1⟩

theorem heldTick_pins (fl ctrl k : Nat) :
    (heldTick fl ctrl k).pins = paddlePins fl (decide (k = DITLATCH)) (decide (k = DAHLATCH)) ∧
      (heldTick fl ctrl k).ctrl = ctrl := ⟨rfl, rfl⟩

/-- While one paddle is held in Dactylic mode after the first element, every element started
is a dit. -/
theorem held_run (fl w k : Nat) (hm : fl &&& MODE = DACTYL) :
    ∀ (ts : List Tick) (s : Keyer),
      (∀ u ∈ ts, u.pins = (heldTick fl OFF k).pins) → Held s fl w k →
      ∃ m, elements (trace s ts) = List.replicate m Element.dit := by
  intro ts
  induction ts with
  | nil => intro s _ _; exact ⟨0, rfl⟩
  | cons u us ih =>
    intro s hts hs
    obtain ⟨st, t, hat⟩ := hs
    have hu : u.pins = (heldTick fl u.ctrl k).pins := hts u (List.mem_cons_self _ _)
    have hus : ∀ v ∈ us, v.pins = (heldTick fl OFF k).pins :=
      fun v hv => hts v (List.mem_cons_of_mem _ hv)
    rw [trace_cons, hu]
    by_cases ht : t - 1 = 0
    · obtain ⟨d1, d2⟩ := heldAt_decide_tick s fl w k u.ctrl st t hm hat ht
      obtain ⟨m, hmm⟩ := ih _ hus ⟨_, _, d1⟩
      exact ⟨m + 1, by rw [elements_cons_some _ _ _ d2, hmm]; rfl⟩
    · obtain ⟨d1, d2⟩ := heldAt_wait_tick s fl w k u.ctrl st t hat ht
      obtain ⟨m, hmm⟩ := ih _ hus ⟨_, _, d1⟩
      exact ⟨m, by rw [elements_cons_none _ _ d2, hmm]⟩

/-- The first tick with one paddle held from the initial state in Dactylic mode starts a dit
for the dit paddle and a dah for the dah paddle. -/
theorem held_first_tick (fl vol w ctrl k : Nat) (hm : fl &&& MODE = DACTYL) (hv : vol < 256)
    (hl : vol &&& SQUEEZED = 0) (hk : k = DITLATCH ∨ k = DAHLATCH) :
    HeldAt (yackiambic (initKeyer fl vol w) ctrl (heldTick fl ctrl k).pins).1 fl w k
        (if k = DITLATCH then FSMSTATE.S_DIT else FSMSTATE.S_DAH)
        (if k = DITLATCH then toWord (DITLEN * w) else toWord (DAHLEN * w)) ∧
      startedElement (yackiambic (initKeyer fl vol w) ctrl (heldTick fl ctrl k).pins)
        = some (if k = DITLATCH then Element.dit else Element.dah) := by
  have hcore := initKeyer_core fl vol w hv
  rw [show vol &&& 3 = 0 from hl] at hcore
  rcases hk with rfl | rfl
  · have hL : sampledLatch 0 0 0 0 0 0 (decide (DITLATCH = DITLATCH))
        (decide (DITLATCH = DAHLATCH)) = 1 := by decide
    have hC1 : sampledCount 0 0 0 (decide (DITLATCH = DITLATCH)) = 0 := by decide
    have hC2 : sampledCount 0 0 0 (decide (DITLATCH = DAHLATCH)) = 1 := by decide
    obtain ⟨a1, a2⟩ := tick_core_some (initKeyer fl vol w) fl w FSMSTATE.S_IDLE 0 0 0 0 1 0 0 0
      ctrl (decide (DITLATCH = DITLATCH)) (decide (DITLATCH = DAHLATCH)) FSMSTATE.S_DIT _ _
      hcore rfl (by rw [hL]; decide) (by rw [hL, hm]; decide) rfl rfl
    rw [hL, hC1, hC2] at a1
    simp only [if_true] at a1 ⊢
    exact ⟨⟨_, _, _, _, _, a1, Or.inl ⟨rfl, rfl, by decide⟩⟩, startedElement_dit _ a2 a1.2.2.1⟩
  · have hL : sampledLatch 0 0 0 0 0 0 (decide (DAHLATCH = DITLATCH))
        (decide (DAHLATCH = DAHLATCH)) = 2 := by decide
    have hC1 : sampledCount 0 0 0 (decide (DAHLATCH = DITLATCH)) = 1 := by decide
    have hC2 : sampledCount 0 0 0 (decide (DAHLATCH = DAHLATCH)) = 0 := by decide
    obtain ⟨a1, a2⟩ := tick_core_some (initKeyer fl vol w) fl w FSMSTATE.S_IDLE 0 0 0 0 1 0 0 0
      ctrl (decide (DAHLATCH = DITLATCH)) (decide (DAHLATCH = DAHLATCH)) FSMSTATE.S_DAH _ _
      hcore rfl (by rw [hL]; decide) (by rw [hL, hm]; decide) rfl rfl
    rw [hL, hC1, hC2] at a1
    have hne : DAHLATCH ≠ DITLATCH := by decide
    simp only [if_neg hne, reduceCtorEq, if_false] at a1 ⊢
    exact ⟨⟨_, _, _, _, _, a1, Or.inr ⟨rfl, rfl, by decide⟩⟩, startedElement_dah _ a2 a1.2.2.1⟩

theorem trace_held (s : Keyer) (fl ctrl k : Nat) :
    trace s [heldTick fl ctrl k] = [yackiambic s ctrl (heldTick fl ctrl k).pins] := rfl

theorem runKeyer_held (s : Keyer) (fl ctrl k : Nat) :
    runKeyer s [heldTick fl ctrl k] = (yackiambic s ctrl (heldTick fl ctrl k).pins).1 := rfl

/-- While the timer of an element runs with one paddle held, no element is started. -/
theorem heldAt_wait (fl w k ctrl : Nat) (st : FSMSTATE) (m : Nat) (hm : 1 ≤ m) :
    ∀ (n t : Nat) (s : Keyer), t = n + m → HeldAt s fl w k st t →
      (trace s (List.replicate n (heldTick fl ctrl k))).map startedElement
          = List.replicate n none ∧
        HeldAt (runKeyer s (List.replicate n (heldTick fl ctrl k))) fl w k st m := by
  intro n
  induction n with
  | zero => intro t s ht hs; subst ht; exact ⟨rfl, by simpa using hs⟩
  | succ n ih =>
    intro t s ht hs
    subst ht
    obtain ⟨t1, t2⟩ := heldAt_wait_tick s fl w k ctrl st (n + 1 + m) hs (by omega)
    obtain ⟨i1, i2⟩ := ih (n + 1 + m - 1) _ (by omega) t1
    rw [replicate_succ_append, trace_append, runKeyer_append, List.map_append, trace_held,
      runKeyer_held]
    refine ⟨?_, i2⟩
    rw [i1, List.map_singleton, t2]
    rfl

/-- One element time with one paddle held in Dactylic mode: the timer runs out and a dit is
started. -/
theorem held_element (fl w k ctrl : Nat) (st : FSMSTATE) (s : Keyer) (n : Nat)
    (hm : fl &&& MODE = DACTYL) (hs : HeldAt s fl w k st (n + 1)) :
    (trace s (List.replicate (n + 1) (heldTick fl ctrl k))).map startedElement
        = List.replicate n none ++ [some Element.dit] ∧
      HeldAt (runKeyer s (List.replicate (n + 1) (heldTick fl ctrl k))) fl w k FSMSTATE.S_DIT
        (toWord (DITLEN * w)) := by
  obtain ⟨oA, sA⟩ := heldAt_wait fl w k ctrl st 1 (by omega) n (n + 1) s rfl hs
  obtain ⟨sB, oB⟩ := heldAt_decide_tick _ fl w k ctrl st 1 hm sA rfl
  rw [replicate_split]
  constructor
  · refine started_append _ _ _ _ _ oA ?_
    show List.map startedElement (trace _ [heldTick fl ctrl k]) = _
    rw [trace_held, List.map_singleton, oB]
  · rw [runKeyer_append]
    exact sB

/-- The elements started over `c` dit times with one paddle held in Dactylic mode, entered as
a dit starts. -/
theorem held_periods (fl w k ctrl : Nat) (hm : fl &&& MODE = DACTYL) (hw : 1 ≤ w)
    (hw2 : DITLEN * w < 65536) :
    ∀ (c : Nat) (s : Keyer), HeldAt s fl w k FSMSTATE.S_DIT (toWord (DITLEN * w)) →
      elements (trace s (List.replicate (c * (DITLEN * w)) (heldTick fl ctrl k)))
        = List.replicate c Element.dit := by
  have hD : DITLEN = 2 := rfl
  have hT2 : toWord (DITLEN * w) = DITLEN * w := Nat.mod_eq_of_lt hw2
  intro c
  induction c with
  | zero => intro s _; simp [trace, elements]
  | succ c ih =>
    intro s hs
    have hT : toWord (DITLEN * w) = (DITLEN * w - 1) + 1 := by rw [hT2, hD]; omega
    rw [hT] at hs
    obtain ⟨p1, p2⟩ := held_element fl w k ctrl FSMSTATE.S_DIT s (DITLEN * w - 1) hm hs
    rw [show (c + 1) * (DITLEN * w) = (DITLEN * w - 1 + 1) + c * (DITLEN * w) by
        rw [hD]; have := Nat.mul_comm c (2 * w); ring_nf; omega,
      replicate_split, trace_append, elements_append, ih _ p2, elements_of_started, p1]
    simp only [List.filterMap_append, filterMap_none, List.nil_append]
    rw [List.replicate_succ]
    rfl

/-- One paddle held from the initial state in Dactylic mode: the first tick starts the element
of the paddle and every later element is a dit. -/
theorem held_from_init (fl vol w k : Nat) (hm : fl &&& MODE = DACTYL) (hv : vol < 256)
    (hl : vol &&& SQUEEZED = 0) (hk : k = DITLATCH ∨ k = DAHLATCH) (t : Tick) (ts : List Tick)
    (hts : ∀ u ∈ t :: ts, u.pins = (heldTick fl OFF k).pins) :
    ∃ m, elements (trace (initKeyer fl vol w) (t :: ts))
      = (if k = DITLATCH then Element.dit else Element.dah) :: List.replicate m Element.dit := by
  have ht : t.pins = (heldTick fl t.ctrl k).pins := hts t (List.mem_cons_self _ _)
  have hus : ∀ v ∈ ts, v.pins = (heldTick fl OFF k).pins :=
    fun v hv => hts v (List.mem_cons_of_mem _ hv)
  obtain ⟨f1, f2⟩ := held_first_tick fl vol w t.ctrl k hm hv hl hk
  rw [trace_cons, ht, elements_cons_some _ _ _ f2]
  obtain ⟨m, hmm⟩ := held_run fl w k hm ts _ hus ⟨_, _, f1⟩
  exact ⟨m, by rw [hmm]⟩

/-- The elements started while the dit paddle alone is held from the initial state in Dactylic
mode, counted over dit times. -/
theorem held_dit_counts (fl vol w c : Nat) (hm : fl &&& MODE = DACTYL) (hv : vol < 256)
    (hl : vol &&& SQUEEZED = 0) (hw : 1 ≤ w) (hw2 : DITLEN * w < 65536) :
    elements (trace (initKeyer fl vol w) (holdDit fl (1 + c * (DITLEN * w))))
      = List.replicate (c + 1) Element.dit := by
  obtain ⟨f1, f2⟩ := held_first_tick fl vol w OFF DITLATCH hm hv hl (Or.inl rfl)
  simp only [if_true] at f1 f2
  show elements (trace _ (List.replicate (1 + c * (DITLEN * w)) (heldTick fl OFF DITLATCH))) = _
  rw [replicate_split, trace_append, elements_append,
    show List.replicate 1 (heldTick fl OFF DITLATCH) = [heldTick fl OFF DITLATCH] from rfl,
    runKeyer_held, held_periods fl w DITLATCH OFF hm hw hw2 c _ f1]
  show elements [yackiambic _ OFF (heldTick fl OFF DITLATCH).pins] ++ _ = _
  rw [elements_cons_some _ _ _ f2, List.replicate_succ]
  rfl

/-- The elements started while the dah paddle alone is held from the initial state in Dactylic
mode: the dah, and one dit per dit time after it. -/
theorem held_dah_counts (fl vol w c : Nat) (hm : fl &&& MODE = DACTYL) (hv : vol < 256)
    (hl : vol &&& SQUEEZED = 0) (hw : 1 ≤ w) (hw4 : DAHLEN * w < 65536) :
    elements (trace (initKeyer fl vol w) (holdDah fl (1 + DAHLEN * w + c * (DITLEN * w))))
      = Element.dah :: List.replicate (c + 1) Element.dit := by
  have hD : DITLEN = 2 := rfl
  have hH : DAHLEN = 4 := rfl
  have hw2 : DITLEN * w < 65536 := by rw [hD]; rw [hH] at hw4; omega
  obtain ⟨f1, f2⟩ := held_first_tick fl vol w OFF DAHLATCH hm hv hl (Or.inr rfl)
  have hne : DAHLATCH ≠ DITLATCH := by decide
  simp only [if_neg hne] at f1 f2
  have hT : toWord (DAHLEN * w) = (DAHLEN * w - 1) + 1 := by
    rw [toWord, Nat.mod_eq_of_lt hw4, hH]; omega
  rw [hT] at f1
  obtain ⟨p1, p2⟩ := held_element fl w DAHLATCH OFF FSMSTATE.S_DAH _ (DAHLEN * w - 1) hm f1
  show elements (trace _ (List.replicate (1 + DAHLEN * w + c * (DITLEN * w))
    (heldTick fl OFF DAHLATCH))) = _
  rw [show 1 + DAHLEN * w + c * (DITLEN * w) = 1 + ((DAHLEN * w - 1 + 1) + c * (DITLEN * w)) by
      rw [hH]; omega,
    replicate_split, trace_append, elements_append,
    show List.replicate 1 (heldTick fl OFF DAHLATCH) = [heldTick fl OFF DAHLATCH] from rfl,
    runKeyer_held, replicate_split, trace_append,
    elements_append, held_periods fl w DAHLATCH OFF hm hw hw2 c _ p2, elements_of_started
      (trace _ (List.replicate (DAHLEN * w - 1 + 1) _)), p1]
  show elements [yackiambic _ OFF (heldTick fl OFF DAHLATCH).pins] ++ _ = _
  rw [elements_cons_some _ _ _ f2]
  simp only [List.filterMap_append, filterMap_none, List.nil_append]
  rw [List.replicate_succ]
  rfl

/-- C27: in Dactylic mode, (1) every tick that takes an element decision records the latched key
set as the previous key set of the next decision, and a tick that takes none keeps it; at every
element decision, in any state, with a non-empty latched key set: when the previous key set was
empty the element started is a dit if the dit latch is set and a dah otherwise, and when it was
non-empty the element is a dit if the latched key set equals the previous one and a dah if it
differs; (2) holding only the dah paddle from the initial Idle state starts a dah on the first
tick and only dits after it; (3) holding only the dit paddle starts only dits; (4) at a speed
count wpmcnt >= 1 that fits the timer, the dah paddle held for 1 + DAHLEN * wpmcnt + c * DITLEN
* wpmcnt ticks starts the dah and c + 1 dits, and the dit paddle held for 1 + c * DITLEN * wpmcnt
ticks starts c + 1 dits. -/
theorem dactylic_repeats_dits (fl vol w : Nat) (hm : fl &&& MODE = DACTYL) (hv : vol < 256)
    (hl : vol &&& SQUEEZED = 0) :
    (∀ (s : Keyer) (ctrl : Nat) (p : Pins), s.yackflags &&& MODE = DACTYL →
        (1 < s.timer → (yackiambic s ctrl p).1.lastkey = s.lastkey ∧
          startedElement (yackiambic s ctrl p) = none) ∧
        (s.timer ≤ 1 →
          (yackiambic s ctrl p).1.lastkey = (yackiambic s ctrl p).1.volflags &&& SQUEEZED) ∧
        (s.timer ≤ 1 → 0 < (yackiambic s ctrl p).1.volflags &&& SQUEEZED →
          (s.lastkey = 0 → startedElement (yackiambic s ctrl p) = some
            (if ((yackiambic s ctrl p).1.volflags &&& SQUEEZED) &&& DITLATCH ≠ 0
              then Element.dit else Element.dah)) ∧
          (s.lastkey ≠ 0 → startedElement (yackiambic s ctrl p) = some
            (if (yackiambic s ctrl p).1.volflags &&& SQUEEZED = s.lastkey
              then Element.dit else Element.dah)))) ∧
    (∀ (t : Tick) (ts : List Tick), (∀ u ∈ t :: ts, u.pins = paddlePins fl false true) →
        ∃ m, elements (trace (initKeyer fl vol w) (t :: ts))
          = Element.dah :: List.replicate m Element.dit) ∧
    (∀ (t : Tick) (ts : List Tick), (∀ u ∈ t :: ts, u.pins = paddlePins fl true false) →
        ∃ m, elements (trace (initKeyer fl vol w) (t :: ts))
          = List.replicate (m + 1) Element.dit) ∧
    (∀ c : Nat, 1 ≤ w → DAHLEN * w < 65536 →
        elements (trace (initKeyer fl vol w) (holdDah fl (1 + DAHLEN * w + c * (DITLEN * w))))
          = Element.dah :: List.replicate (c + 1) Element.dit ∧
        elements (trace (initKeyer fl vol w) (holdDit fl (1 + c * (DITLEN * w))))
          = List.replicate (c + 1) Element.dit) := by
  refine ⟨?_, ?_, ?_, ?_⟩
  · intro s ctrl p hfl
    obtain ⟨f1, f2, f3, f4, f5, f6, f7, f8, f9⟩ := sampleStage_frame s p
    refine ⟨?_, ?_, ?_⟩
    · intro ht
      have ht3 : (sampleStage s p).1.timer ≠ 0 := by rw [f1]; omega
      constructor
      · rw [yackiambic_fst, decisionStage_wait _ _ _ ht3]; exact f8
      · apply startedElement_none
        rw [yackiambic_down, decisionStage_wait _ _ _ ht3]
        simp
    · intro ht
      have ht3 : (sampleStage s p).1.timer = 0 := by rw [f1]; omega
      obtain ⟨e1, e2, e3, e4, e5, e6, e7⟩ :=
        elementBlock_frame (idleBlock (sampleStage s p).1 ctrl).1 (s.yackflags &&& MODE)
      rw [yackiambic_fst, decisionStage_zero _ _ _ ht3]
      show (elementBlock _ _).1.lastkey = (elementBlock _ _).1.volflags &&& SQUEEZED
      rw [e7, e2]
    · intro ht hk
      obtain ⟨d1, d2⟩ := decision_element s ctrl p ht hk
      rw [hfl] at d2
      constructor
      · intro h0
        rw [h0] at d2
        by_cases hb : ((yackiambic s ctrl p).1.volflags &&& SQUEEZED) &&& DITLATCH ≠ 0
        · rw [if_pos hb]
          refine startedElement_dit _ d1 ?_
          rw [d2]
          simp [nextState, DACTYL, IAMBA, hb]
        · rw [if_neg hb]
          refine startedElement_dah _ d1 ?_
          rw [d2]
          have hk0 : 0 ≠ (yackiambic s ctrl p).1.volflags &&& SQUEEZED := by omega
          simp [nextState, DACTYL, IAMBA, hb, hk0]
      · intro h0
        by_cases hb : (yackiambic s ctrl p).1.volflags &&& SQUEEZED = s.lastkey
        · rw [if_pos hb]
          refine startedElement_dit _ d1 ?_
          rw [d2]
          simp [nextState, DACTYL, IAMBA, hb]
        · rw [if_neg hb]
          refine startedElement_dah _ d1 ?_
          rw [d2]
          have hb2 : ¬ s.lastkey = (yackiambic s ctrl p).1.volflags &&& SQUEEZED :=
            fun h => hb h.symm
          simp [nextState, DACTYL, IAMBA, hb2, h0]
  · intro t ts hts
    obtain ⟨m, h⟩ := held_from_init fl vol w DAHLATCH hm hv hl (Or.inr rfl) t ts hts
    exact ⟨m, h⟩
  · intro t ts hts
    obtain ⟨m, h⟩ := held_from_init fl vol w DITLATCH hm hv hl (Or.inl rfl) t ts hts
    exact ⟨m, h⟩
  · intro c hw hw4
    have hw2 : DITLEN * w < 65536 := by
      have hD : DITLEN = 2 := rfl
      have hH : DAHLEN = 4 := rfl
      rw [hD]; rw [hH] at hw4; omega
    exact ⟨held_dah_counts fl vol w c hm hv hl hw hw4,
      held_dit_counts fl vol w c hm hv hl hw hw2⟩

theorem dactylic_repeats_dits_witness :
    flagsDactyl &&& MODE = DACTYL ∧ volInit < 256 ∧ volInit &&& SQUEEZED = 0 ∧
      elements (trace (initKeyer flagsDactyl volInit 75)
          (holdDah flagsDactyl (1 + DAHLEN * 75 + 3 * (DITLEN * 75))))
        = Element.dah :: List.replicate (3 + 1) Element.dit ∧
      elements (trace (initKeyer flagsDactyl volInit 75)
          (holdDit flagsDactyl (1 + 3 * (DITLEN * 75))))
        = List.replicate (3 + 1) Element.dit :=
  ⟨by decide, by decide, by decide,
    (dactylic_repeats_dits flagsDactyl volInit 75 (by decide) (by decide) (by decide)).2.2.2 3
      (by decide) (by decide)⟩

/-! ### Element timing -/

theorem yackiambic_keys (s : Keyer) (ctrl : Nat) (p : Pins) :
    (yackiambic s ctrl p).2.keys =
      if (yackiambic s ctrl p).1.timer ≤ toWord (IEGLEN * (yackiambic s ctrl p).1.wpmcnt) then
        (decisionStage (sampleStage s p).1 ctrl (s.yackflags &&& MODE)).2.2 ++ [UP]
      else (decisionStage (sampleStage s p).1 ctrl (s.yackflags &&& MODE)).2.2 := rfl

/-- A tick on which the timer does not run out: the timer counts down, no decision is taken,
and key-up is requested when the timer is within the inter-element gap. -/
theorem tick_wait_frame (s : Keyer) (ctrl : Nat) (p : Pins) (h : 2 ≤ s.timer) :
    (yackiambic s ctrl p).1.timer = s.timer - 1 ∧
      (yackiambic s ctrl p).1.wpmcnt = s.wpmcnt ∧
      (yackiambic s ctrl p).1.state = s.state ∧
      (yackiambic s ctrl p).2.keys
        = (if s.timer - 1 ≤ toWord (IEGLEN * s.wpmcnt) then [UP] else []) := by
  obtain ⟨f1, f2, f3, f4, f5, f6, f7, f8, f9⟩ := sampleStage_frame s p
  have ht3 : (sampleStage s p).1.timer ≠ 0 := by rw [f1]; omega
  have e1 : (yackiambic s ctrl p).1 = (sampleStage s p).1 := by
    rw [yackiambic_fst, decisionStage_wait _ _ _ ht3]
  refine ⟨by rw [e1, f1], by rw [e1, f6], by rw [e1, f2], ?_⟩
  rw [yackiambic_keys, e1, f1, f6, decisionStage_wait _ _ _ ht3]
  rfl

theorem runKeyer_cons (s : Keyer) (t : Tick) (ts : List Tick) :
    runKeyer s (t :: ts) = runKeyer (yackiambic s t.ctrl t.pins).1 ts := rfl

/-- While the timer of an element runs, whatever the paddles do, it counts down by one per
tick and the speed count and the state are kept. -/
theorem run_wait : ∀ (ts : List Tick) (s : Keyer), ts.length < s.timer →
    (runKeyer s ts).timer = s.timer - ts.length ∧ (runKeyer s ts).wpmcnt = s.wpmcnt ∧
      (runKeyer s ts).state = s.state := by
  intro ts
  induction ts with
  | nil => intro s _; exact ⟨rfl, rfl, rfl⟩
  | cons t ts ih =>
    intro s h
    rw [List.length_cons] at h
    obtain ⟨a1, a2, a3, _⟩ := tick_wait_frame s t.ctrl t.pins (by omega)
    obtain ⟨i1, i2, i3⟩ := ih (yackiambic s t.ctrl t.pins).1 (by rw [a1]; omega)
    rw [runKeyer_cons, i1, i2, i3, a1, a2, a3, List.length_cons]
    exact ⟨by omega, rfl, rfl⟩

/-- The tick that starts an element requests key-down only and loads the timer with the
length of the element. -/
theorem start_timer (s : Keyer) (ctrl : Nat) (p : Pins) (e : Element)
    (hs : startedElement (yackiambic s ctrl p) = some e) :
    (yackiambic s ctrl p).1.timer = toWord (elementLen e * s.wpmcnt) ∧
      (yackiambic s ctrl p).1.wpmcnt = s.wpmcnt ∧
      (decisionStage (sampleStage s p).1 ctrl (s.yackflags &&& MODE)).2.2 = [DOWN] := by
  obtain ⟨f1, f2, f3, f4, f5, f6, f7, f8, f9⟩ := sampleStage_frame s p
  have hd : DOWN ∈ (yackiambic s ctrl p).2.keys := by
    by_contra hn
    rw [startedElement_none _ hn] at hs
    cases hs
  rw [yackiambic_down] at hd
  have ht3 : (sampleStage s p).1.timer = 0 := by
    by_contra hn
    rw [decisionStage_wait _ _ _ hn] at hd
    simp at hd
  obtain ⟨i1, i2, i3, i4, i5, i6, i7, i8, i9⟩ := idleBlock_frame (sampleStage s p).1 ctrl
  have hk : 0 < (idleBlock (sampleStage s p).1 ctrl).1.volflags &&& SQUEEZED := by
    by_contra hn
    have h0 : (idleBlock (sampleStage s p).1 ctrl).1.volflags &&& SQUEEZED = 0 := by omega
    rw [decisionStage_zero _ _ _ ht3,
      (elementBlock_none _ (s.yackflags &&& MODE) h0).2.2.2.2.2] at hd
    simp at hd
  obtain ⟨n1, n2, n3, n4⟩ :=
    elementBlock_some (idleBlock (sampleStage s p).1 ctrl).1 (s.yackflags &&& MODE) hk
  obtain ⟨e1, e2, e3, e4, e5, e6, e7⟩ :=
    elementBlock_frame (idleBlock (sampleStage s p).1 ctrl).1 (s.yackflags &&& MODE)
  have hfst : (yackiambic s ctrl p).1
      = (elementBlock (idleBlock (sampleStage s p).1 ctrl).1 (s.yackflags &&& MODE)).1 := by
    rw [yackiambic_fst, decisionStage_zero _ _ _ ht3]
  have hw : (yackiambic s ctrl p).1.wpmcnt = s.wpmcnt := by rw [hfst, e3, i3, f6]
  refine ⟨?_, hw, by rw [decisionStage_zero _ _ _ ht3]; exact n2⟩
  have hdn : DOWN ∈ (yackiambic s ctrl p).2.keys := by rw [yackiambic_down]; exact hd
  by_cases hst : nextState (s.yackflags &&& MODE) (idleBlock (sampleStage s p).1 ctrl).1.state
      (idleBlock (sampleStage s p).1 ctrl).1.lastkey
      ((idleBlock (sampleStage s p).1 ctrl).1.volflags &&& SQUEEZED) = FSMSTATE.S_DIT
  · have hstate : (yackiambic s ctrl p).1.state = FSMSTATE.S_DIT := by rw [hfst, n1, hst]
    rw [startedElement_dit _ hdn hstate] at hs
    cases hs
    rw [hfst, (n3 hst).1, i3, f6]
    rfl
  · have hstate : (yackiambic s ctrl p).1.state ≠ FSMSTATE.S_DIT := by rw [hfst, n1]; exact hst
    have he : e = Element.dah := by
      cases hc : (yackiambic s ctrl p).1.state with
      | S_DIT => exact absurd hc hstate
      | S_DAH => rw [startedElement_dah _ hdn hc] at hs; cases hs; rfl
      | S_IDLE => simp [startedElement, hc] at hs
    subst he
    rw [hfst, (n4 hst).1, i3, f6]
    rfl

/-- Every speed count computed from a speed of 1 to 255 wpm is positive and fits the timer
four times. -/
theorem speed_fits (wpm : Nat) (h1 : 1 ≤ wpm) (h2 : wpm ≤ 255) :
    0 < speedCount wpm ∧ DAHLEN * speedCount wpm < 65536 ∧
      0 < WPMCALC wpm ∧ DAHLEN * WPMCALC wpm < 65536 := by
  have hy : 12000 / YACKBEAT = 1200 := by decide
  have hH : DAHLEN = 4 := rfl
  have a1 : (1200 + wpm / 2) / wpm ≤ 1200 + wpm / 2 := Nat.div_le_self _ _
  have a2 : 1200 / wpm ≤ 1200 := Nat.div_le_self _ _
  have a3 : 0 < (1200 + wpm / 2) / wpm := Nat.div_pos (by omega) (by omega)
  have a4 : 0 < 1200 / wpm := Nat.div_pos (by omega) (by omega)
  simp only [speedCount, WPMCALC, hy, hH, toWord]
  rw [Nat.mod_eq_of_lt (by omega)]
  omega

/-- C28: for every speed count wpmcnt > 0 that fits the timer (DAHLEN * wpmcnt below 65536,
which holds for the speed count of every speed from 1 to 255 wpm), whatever the paddles and the
argument do on the following ticks: (1) the tick on which yackiambic starts an element requests
key-down and nothing else, so no key-up; (2) on each of the following ticks before the element
time L * wpmcnt has passed (L = DITLEN for a dit, DAHLEN for a dah) no decision is taken and no
key-down is requested, and key-up is requested exactly on those that come at least
(L - IEGLEN) * wpmcnt ticks after the start; (3) the tick that comes L * wpmcnt ticks after the
start takes the next element decision; so key-up is first requested (L - IEGLEN) * wpmcnt ticks
after the start and the element ends with a key-up gap of IEGLEN * wpmcnt ticks. -/
theorem element_timing (s : Keyer) (ctrl : Nat) (p : Pins) (e : Element)
    (hw : 0 < s.wpmcnt) (hfit : DAHLEN * s.wpmcnt < 65536)
    (hs : startedElement (yackiambic s ctrl p) = some e) :
    (yackiambic s ctrl p).2.keys = [DOWN] ∧
    (∀ (ts : List Tick) (t : Tick), ts.length + 1 < elementLen e * s.wpmcnt →
        (sampleStage (runKeyer (yackiambic s ctrl p).1 ts) t.pins).1.timer ≠ 0 ∧
        DOWN ∉ (yackiambic (runKeyer (yackiambic s ctrl p).1 ts) t.ctrl t.pins).2.keys ∧
        (UP ∈ (yackiambic (runKeyer (yackiambic s ctrl p).1 ts) t.ctrl t.pins).2.keys ↔
          (elementLen e - IEGLEN) * s.wpmcnt ≤ ts.length + 1)) ∧
    (∀ (ts : List Tick) (t : Tick), ts.length + 1 = elementLen e * s.wpmcnt →
        (sampleStage (runKeyer (yackiambic s ctrl p).1 ts) t.pins).1.timer = 0 ∧
        (yackiambic (runKeyer (yackiambic s ctrl p).1 ts) t.ctrl t.pins).1.lastkey =
          (yackiambic (runKeyer (yackiambic s ctrl p).1 ts) t.ctrl t.pins).1.volflags
            &&& SQUEEZED) ∧
    (∀ wpm, 1 ≤ wpm → wpm ≤ 255 →
        0 < speedCount wpm ∧ DAHLEN * speedCount wpm < 65536 ∧
        0 < WPMCALC wpm ∧ DAHLEN * WPMCALC wpm < 65536) := by
  obtain ⟨s1, s2, s3⟩ := start_timer s ctrl p e hs
  have hH : DAHLEN = 4 := rfl
  have hI : IEGLEN = 1 := rfl
  rw [hH] at hfit
  have hL : elementLen e = 2 ∨ elementLen e = 4 := by cases e <;> simp [elementLen, DITLEN, DAHLEN]
  have hLw : elementLen e * s.wpmcnt < 65536 := by rcases hL with h | h <;> rw [h] <;> omega
  have hI1 : toWord (IEGLEN * s.wpmcnt) = s.wpmcnt := by
    rw [hI, Nat.one_mul, toWord, Nat.mod_eq_of_lt (by omega)]
  rw [toWord, Nat.mod_eq_of_lt hLw] at s1
  have hsub : (elementLen e - IEGLEN) * s.wpmcnt = elementLen e * s.wpmcnt - s.wpmcnt := by
    rw [Nat.sub_mul, hI, Nat.one_mul]
  have hge : 2 * s.wpmcnt ≤ elementLen e * s.wpmcnt := by
    rcases hL with h | h
    · rw [h]
    · rw [h]; omega
  refine ⟨?_, ?_, ?_, speed_fits⟩
  · rw [yackiambic_keys, s1, s2, hI1, s3, if_neg (by omega)]
  · intro ts t hlen
    obtain ⟨r1, r2, r3⟩ := run_wait ts (yackiambic s ctrl p).1 (by rw [s1]; omega)
    rw [s1] at r1
    rw [s2] at r2
    obtain ⟨w1, w2, w3, w4⟩ := tick_wait_frame (runKeyer (yackiambic s ctrl p).1 ts) t.ctrl
      t.pins (by rw [r1]; omega)
    refine ⟨?_, ?_, ?_⟩
    · rw [(sampleStage_frame _ _).1, r1]; omega
    · rw [w4]; split <;> simp [DOWN, UP]
    · rw [w4, r1, r2, hI1, hsub]
      split
      · simp only [List.mem_singleton, true_iff]; omega
      · simp only [List.not_mem_nil, false_iff]; omega
  · intro ts t hlen
    obtain ⟨r1, r2, r3⟩ := run_wait ts (yackiambic s ctrl p).1 (by rw [s1]; omega)
    rw [s1] at r1
    have ht3 : (sampleStage (runKeyer (yackiambic s ctrl p).1 ts) t.pins).1.timer = 0 := by
      rw [(sampleStage_frame _ _).1, r1]; omega
    refine ⟨ht3, ?_⟩
    obtain ⟨e1, e2, e3, e4, e5, e6, e7⟩ :=
      elementBlock_frame (idleBlock (sampleStage (runKeyer (yackiambic s ctrl p).1 ts)
        t.pins).1 t.ctrl).1 ((runKeyer (yackiambic s ctrl p).1 ts).yackflags &&& MODE)
    rw [yackiambic_fst, decisionStage_zero _ _ _ ht3]
    show (elementBlock _ _).1.lastkey = (elementBlock _ _).1.volflags &&& SQUEEZED
    rw [e7, e2]

theorem element_timing_witness :
    0 < (initKeyer FLAGDEFAULT volInit 75).wpmcnt ∧
      DAHLEN * (initKeyer FLAGDEFAULT volInit 75).wpmcnt < 65536 ∧
      startedElement (yackiambic (initKeyer FLAGDEFAULT volInit 75) OFF
        (paddlePins FLAGDEFAULT false true)) = some Element.dah ∧
      (yackiambic (initKeyer FLAGDEFAULT volInit 75) OFF
        (paddlePins FLAGDEFAULT false true)).2.keys = [DOWN] :=
  ⟨by decide, by decide, by decide,
    (element_timing (initKeyer FLAGDEFAULT volInit 75) OFF (paddlePins FLAGDEFAULT false true)
      Element.dah (by decide) (by decide) (by decide)).1⟩

/-! ### Claims on the pitch range and the saved speed -/

/-- C34: for every value of ctcvalue, also one outside the valid range, and every argument,
after yackpitch the value satisfies MAXCTC <= ctcvalue <= MINCTC, given 0 < MAXCTC <= MINCTC <
65535; the wrap-around is included: yackpitch (UP) at 0 decrements to 65535 and leaves MINCTC,
yackpitch (DOWN) at 65535 increments to 0 and leaves MAXCTC. -/
theorem yackpitch_stays_in_range (fcpu : Nat) (c : Chip) (dir : Nat)
    (h1 : 0 < MAXCTC fcpu) (h2 : MAXCTC fcpu ≤ MINCTC fcpu) (h3 : MINCTC fcpu < 65535) :
    (MAXCTC fcpu ≤ (yackpitch fcpu c dir).ctcvalue ∧
        (yackpitch fcpu c dir).ctcvalue ≤ MINCTC fcpu) ∧
      (c.ctcvalue = 0 → (yackpitch fcpu c UP).ctcvalue = MINCTC fcpu) ∧
      (c.ctcvalue = 65535 → (yackpitch fcpu c DOWN).ctcvalue = MAXCTC fcpu) := by
  have e1 : toWord (MAXCTC fcpu) = MAXCTC fcpu := Nat.mod_eq_of_lt (by omega)
  have e2 : toWord (MINCTC fcpu) = MINCTC fcpu := Nat.mod_eq_of_lt (by omega)
  refine ⟨?_, ?_, ?_⟩
  · rw [yackpitch_ctcvalue, e1, e2]
    split_ifs <;> omega
  · intro h0
    rw [yackpitch_ctcvalue, e1, e2, h0]
    simp only [UP, DOWN, toWord]
    split_ifs <;> omega
  · intro h0
    rw [yackpitch_ctcvalue, e1, e2, h0]
    simp only [UP, DOWN, toWord]
    split_ifs <;> omega

theorem yackpitch_stays_in_range_witness :
    0 < MAXCTC 1000000 ∧ MAXCTC 1000000 ≤ MINCTC 1000000 ∧ MINCTC 1000000 < 65535 ∧
      (MAXCTC 1000000 ≤ (yackpitch 1000000 fastChip UP).ctcvalue ∧
        (yackpitch 1000000 fastChip UP).ctcvalue ≤ MINCTC 1000000) :=
  ⟨by decide, by decide, by decide,
    (yackpitch_stays_in_range 1000000 fastChip UP (by decide) (by decide) (by decide)).1⟩

theorem yackplay_flags (c : Chip) (i : Nat) :
    (yackplay c i).1.keyer.volflags = c.keyer.volflags ∧
      (yackplay c i).1.keyer.yackflags = c.keyer.yackflags := by
  obtain ⟨sh, hsh⟩ := yackpower_fst c.keyer false
  constructor
  · show (yackpower c.keyer false).1.volflags = _
    rw [hsh]
  · show (yackpower c.keyer false).1.yackflags = _
    rw [hsh]

/-- What `yackspeed` leaves: the rounded speed count, the dirty flag, and the pitch and the
flags as they were. -/
theorem yackspeed_frame (c : Chip) (dir : Nat) :
    (yackspeed c dir).1.keyer.wpmcnt = speedCount (yackspeed c dir).1.wpm ∧
      (yackspeed c dir).1.keyer.volflags &&& DIRTYFLAG ≠ 0 ∧
      (yackspeed c dir).1.ctcvalue = c.ctcvalue ∧
      (yackspeed c dir).1.keyer.yackflags = c.keyer.yackflags := by
  unfold yackspeed
  simp only []
  refine ⟨?_, ?_, ?_, ?_⟩
  · rw [yackplay_wpmcnt, yackplay_wpmcnt, (yackplay_wpm _ _).1, (yackplay_wpm _ _).1]
  · rw [(yackplay_flags _ _).1, (yackplay_flags _ _).1]
    exact or_dirty _
  · rw [(yackplay_wpm _ _).2.1, (yackplay_wpm _ _).2.1]
  · rw [(yackplay_flags _ _).2, (yackplay_flags _ _).2]

/-- What a power cycle restores from a saved configuration. -/
theorem powerCycle_saved (fcpu : Nat) (c : Chip) (h : c.keyer.volflags &&& DIRTYFLAG ≠ 0) :
    (powerCycle fcpu (yacksave c).1).ctcvalue = c.ctcvalue ∧
      (powerCycle fcpu (yacksave c).1).wpm = c.wpm ∧
      (powerCycle fcpu (yacksave c).1).keyer.yackflags = c.keyer.yackflags ∧
      (powerCycle fcpu (yacksave c).1).keyer.wpmcnt = toWord (WPMCALC c.wpm) := by
  rw [yacksave_dirty c h]
  unfold powerCycle
  rw [yackinit_valid _ _ rfl]
  obtain ⟨f1, f2, f3, f4, _, _⟩ := yackinhibit_frame
    { powerUp ({ c with
          ee := { c.ee with magic := MAGPAT, ctcstor := c.ctcvalue, wpmstor := c.wpm,
                            flagstor := c.keyer.yackflags },
          keyer := { c.keyer with volflags := c.keyer.volflags &&& (MAX_BYTE - DIRTYFLAG) } }
          : Chip).ee with
      ctcvalue := c.ctcvalue, wpm := c.wpm,
      keyer := { (powerUp ({ c with
          ee := { c.ee with magic := MAGPAT, ctcstor := c.ctcvalue, wpmstor := c.wpm,
                            flagstor := c.keyer.yackflags },
          keyer := { c.keyer with volflags := c.keyer.volflags &&& (MAX_BYTE - DIRTYFLAG) } }
          : Chip).ee).keyer with
        wpmcnt := toWord ((12000 / YACKBEAT) / c.wpm), yackflags := c.keyer.yackflags } } OFF
  exact ⟨f1, f2, f3, f4⟩

set_option maxRecDepth 100000 in
/-- C33 fails on the code for the speed count. After yackspeed, in every state, yacksave
followed by a power cycle with yackinit restores ctcvalue, wpm and yackflags, but the speed
count loaded is 1200 / wpm rounded down, where yackspeed had computed it rounded to nearest:
the two differ at 14, 17, 18, 22, 28, 31, 32, 38, 39, 42, 43, 45 and 47 wpm. From the default
speed, one yackspeed (UP) gives 17 wpm with speed count 71; after saving and a power cycle the
speed is 17 wpm with speed count 70. -/
theorem load_truncates_speed_count :
    (∀ (fcpu : Nat) (c : Chip) (dir : Nat),
        (powerCycle fcpu (yacksave (yackspeed c dir).1).1).ctcvalue
          = (yackspeed c dir).1.ctcvalue ∧
        (powerCycle fcpu (yacksave (yackspeed c dir).1).1).wpm = (yackspeed c dir).1.wpm ∧
        (powerCycle fcpu (yacksave (yackspeed c dir).1).1).keyer.yackflags
          = (yackspeed c dir).1.keyer.yackflags ∧
        (yackspeed c dir).1.keyer.wpmcnt = speedCount (yackspeed c dir).1.wpm ∧
        (powerCycle fcpu (yacksave (yackspeed c dir).1).1).keyer.wpmcnt
          = toWord (WPMCALC (yackspeed c dir).1.wpm)) ∧
      (List.range (MAXWPM + 1)).filter
          (fun w => decide (MINWPM ≤ w ∧ speedCount w ≠ toWord (WPMCALC w)))
        = [14, 17, 18, 22, 28, 31, 32, 38, 39, 42, 43, 45, 47] ∧
      (freshChip.wpm = 16 ∧ (yackspeed freshChip UP).1.wpm = 17 ∧
        (yackspeed freshChip UP).1.keyer.wpmcnt = 71 ∧
        (powerCycle 1000000 (yacksave (yackspeed freshChip UP).1).1).wpm = 17 ∧
        (powerCycle 1000000 (yacksave (yackspeed freshChip UP).1).1).keyer.wpmcnt = 70) := by
  refine ⟨?_, by decide, by decide⟩
  intro fcpu c dir
  obtain ⟨s1, s2, _, _⟩ := yackspeed_frame c dir
  obtain ⟨p1, p2, p3, p4⟩ := powerCycle_saved fcpu (yackspeed c dir).1 s2
  exact ⟨p1, p2, p3, s1, p4⟩

/-! ### Claims on table accesses and on the keyer at rest -/

theorem buildDit_index (b : Nat × Nat) (h : b.2 ≤ NFIB - 2) : (buildDit b).2 ≤ NFIB - 2 := by
  simp only [buildDit, NFIB, toByte] at h ⊢
  split
  · show (b.2 + 1) % 256 ≤ 11
    omega
  · exact h

theorem buildDah_index (b : Nat × Nat) (h : b.2 ≤ NFIB - 2) : (buildDah b).2 ≤ NFIB - 2 := by
  simp only [buildDah, NFIB, toByte] at h ⊢
  split
  · show ((b.2 + 1) % 256 + 1) % 256 ≤ 11
    omega
  · exact h

/-- One call of `yackiambic` keeps the element index within the table. -/
theorem yackiambic_index (s : Keyer) (ctrl : Nat) (p : Pins) (h : s.bcntr ≤ NFIB - 2) :
    (yackiambic s ctrl p).1.bcntr ≤ NFIB - 2 := by
  obtain ⟨f1, f2, f3, f4, f5, f6, f7, f8, f9⟩ := sampleStage_frame s p
  rw [yackiambic_fst]
  by_cases ht : (sampleStage s p).1.timer = 0
  · rw [decisionStage_zero _ _ _ ht]
    show (elementBlock (idleBlock (sampleStage s p).1 ctrl).1 (s.yackflags &&& MODE)).1.bcntr ≤ _
    have hi : (idleBlock (sampleStage s p).1 ctrl).1.bcntr ≤ NFIB - 2 := by
      rw [(idleBlock_buffer _ _).1, f3]
      split
      · exact Nat.zero_le _
      · exact h
    by_cases hk : (idleBlock (sampleStage s p).1 ctrl).1.volflags &&& SQUEEZED = 0
    · rw [(elementBlock_none _ _ hk).2.2.2.1]
      exact hi
    · obtain ⟨_, _, n3, n4⟩ := elementBlock_some (idleBlock (sampleStage s p).1 ctrl).1
        (s.yackflags &&& MODE) (by omega)
      by_cases hst : nextState (s.yackflags &&& MODE) (idleBlock (sampleStage s p).1 ctrl).1.state
          (idleBlock (sampleStage s p).1 ctrl).1.lastkey
          ((idleBlock (sampleStage s p).1 ctrl).1.volflags &&& SQUEEZED) = FSMSTATE.S_DIT
      · rw [(n3 hst).2.2.2]
        exact buildDit_index _ hi
      · rw [(n4 hst).2.2.2]
        exact buildDah_index _ hi
  · rw [decisionStage_wait _ _ _ ht, f3]
    exact h

/-- Along every run the element index stays within the table. -/
theorem trace_index : ∀ (ts : List Tick) (s : Keyer), s.bcntr ≤ NFIB - 2 →
    ∀ r ∈ trace s ts, r.1.bcntr ≤ NFIB - 2 := by
  intro ts
  induction ts with
  | nil => intro s _ r hr; simp [trace] at hr
  | cons t ts ih =>
    intro s h r hr
    rw [trace_cons, List.mem_cons] at hr
    have h1 := yackiambic_index s t.ctrl t.pins h
    rcases hr with rfl | hr
    · exact h1
    · exact ih _ h1 r hr

/-- The reads of one call of `yackiambic` are at indices up to NFIB-2. -/
theorem tickReads_bound (s : Keyer) (ctrl : Nat) (p : Pins) :
    ∀ j ∈ tickReads s ctrl p, j ≤ NFIB - 2 := by
  intro j hj
  simp only [tickReads, ditReads, dahReads, NFIB, toByte] at hj ⊢
  split_ifs at hj
  · simp only [List.mem_singleton] at hj
    omega
  · simp at hj
  · simp only [List.mem_cons, List.mem_singleton, List.not_mem_nil, or_false] at hj
    omega
  · simp at hj
  · simp at hj
  · simp at hj

set_option maxRecDepth 1000000 in
/-- What the decomposition loop of `yackchar` accesses, for every byte. -/
theorem yackcharAccess_all : ∀ c, c < 256 →
    (yackcharAccess (NFIB - 2) c []).buf = yackcharLoop (NFIB - 2) c [] ∧
      (∀ j ∈ (yackcharAccess (NFIB - 2) c []).reads, j ≤ NFIB - 2) ∧
      (∀ x ∈ (yackcharAccess (NFIB - 2) c []).subs, x.2 ≤ x.1) ∧
      (yackcharAccess (NFIB - 2) c []).buf.length ≤ NFIB - 3 := by
  decide

/-- C36: every access to the Fibonacci table f is within 0..NFIB-1 for every input. In
yackiambic, from every state and on every input, the reads of a call are at indices up to
NFIB-2, the values added to the accumulator are those read there, and the element index bcntr,
once at most NFIB-2 (it starts at 0), stays at most NFIB-2 along every run. In yackchar, for
every byte c, the loop reads only f[0..NFIB-2], every subtraction takes at most the current
value of c (no unsigned underflow), and at most NFIB-3 elements are stored in the NFIB-sized
element buffer. -/
theorem table_accesses_in_range :
    (∀ (s : Keyer) (ctrl : Nat) (p : Pins), ∀ j ∈ tickReads s ctrl p, j ≤ NFIB - 2 ∧ j < NFIB) ∧
    (∀ b : Nat × Nat,
      (buildDit b).1 = (if ditReads b.2 = [] then MAX_BYTE else toByte (b.1 + f b.2)) ∧
      (buildDah b).1 = (if dahReads b.2 = [] then MAX_BYTE
        else toByte (toByte (b.1 + f (toByte (b.2 + 1))) + f (toByte (toByte (b.2 + 1) + 1))))) ∧
    (∀ (s : Keyer) (ts : List Tick), s.bcntr ≤ NFIB - 2 →
      ∀ r ∈ trace s ts, r.1.bcntr ≤ NFIB - 2) ∧
    (∀ (fl vol w : Nat) (ts : List Tick),
      ∀ r ∈ trace (initKeyer fl vol w) ts, r.1.bcntr ≤ NFIB - 2) ∧
    (∀ c, c < 256 →
      (yackcharAccess (NFIB - 2) c []).buf = yackcharLoop (NFIB - 2) c [] ∧
      (∀ j ∈ (yackcharAccess (NFIB - 2) c []).reads, j ≤ NFIB - 2) ∧
      (∀ x ∈ (yackcharAccess (NFIB - 2) c []).subs, x.2 ≤ x.1) ∧
      (yackcharAccess (NFIB - 2) c []).buf.length ≤ NFIB - 3) := by
  refine ⟨?_, ?_, fun s ts h => trace_index ts s h,
    fun fl vol w ts => trace_index ts (initKeyer fl vol w) (Nat.zero_le _), yackcharAccess_all⟩
  · intro s ctrl p j hj
    have h := tickReads_bound s ctrl p j hj
    exact ⟨h, by simp only [NFIB] at h ⊢; omega⟩
  · intro b
    constructor
    · simp only [buildDit, ditReads]
      split <;> simp
    · simp only [buildDah, dahReads]
      split <;> simp

/-- The keyer at rest: Idle with the timer run out, no previous key, no element counted, the
accumulator at 1 and no latch set. -/
theorem rest_tick (s : Keyer) (fl w dc hc : Nat)
    (hcore : Core s fl w FSMSTATE.S_IDLE 0 0 0 0 1 0 dc hc) :
    (∃ dc1 hc1, Core (yackiambic s OFF { ditpin := true, dahpin := true }).1 fl w
        FSMSTATE.S_IDLE 0 0 0 0 1 0 dc1 hc1) ∧
      (yackiambic s OFF { ditpin := true, dahpin := true }).2.retchar = 0 ∧
      DOWN ∉ (yackiambic s OFF { ditpin := true, dahpin := true }).2.keys := by
  have hL : sampledLatch 0 0 0 dc hc 0 false false = 0 := by
    simp only [sampledLatch, Nat.zero_le, if_true, Bool.not_false]
    rw [latchUpdate_released, latchUpdate_released]
  obtain ⟨a1, a2⟩ := tick_core_none s fl w FSMSTATE.S_IDLE 0 0 0 0 1 0 dc hc OFF false false
    hcore rfl hL
  rw [paddlePins_released] at a1 a2
  simp only [ne_eq, not_true_eq_false, if_false, lt_irrefl, and_false] at a1
  have hr := tick_ret s OFF { ditpin := true, dahpin := true }
    hcore.2.2.2.2.2.2.2.2.2.2.2.2 (Or.inl rfl)
  rw [hcore.2.2.2.2.2.1, if_neg (by simp)] at hr
  exact ⟨⟨_, _, a1⟩, hr, a2⟩

theorem rest_run : ∀ (ts : List Tick) (s : Keyer) (fl w dc hc : Nat),
    (∀ t ∈ ts, t.ctrl = OFF ∧ t.pins = { ditpin := true, dahpin := true }) →
    Core s fl w FSMSTATE.S_IDLE 0 0 0 0 1 0 dc hc →
    ∀ r ∈ trace s ts, r.2.retchar = 0 ∧ r.1.state = FSMSTATE.S_IDLE ∧ r.1.buffer = 1 ∧
      DOWN ∉ r.2.keys := by
  intro ts
  induction ts with
  | nil => intro s fl w dc hc _ _ r hr; simp [trace] at hr
  | cons t ts ih =>
    intro s fl w dc hc hts hcore r hr
    obtain ⟨t1, t2⟩ := hts t (List.mem_cons_self _ _)
    rw [trace_cons, t1, t2, List.mem_cons] at hr
    obtain ⟨⟨dc1, hc1, c1⟩, c2, c3⟩ := rest_tick s fl w dc hc hcore
    rcases hr with rfl | hr
    · exact ⟨c2, c1.2.2.1, c1.2.2.2.2.2.2.2.1, c3⟩
    · exact ih _ fl w dc1 hc1 (fun u hu => hts u (List.mem_cons_of_mem _ hu)) c1 r hr

/-- C35: from the initial state (Idle, timer 0, debounce counters 0, latches clear), in every
mode and with any other flags, at every speed count, if both paddles read released on every
tick then yackiambic (OFF) returns 0 on every tick, stays in Idle with the accumulator at 1,
and never requests key-down. -/
theorem released_paddles_stay_idle (fl vol w : Nat) (ts : List Tick) (hv : vol < 256)
    (hl : vol &&& SQUEEZED = 0)
    (hts : ∀ t ∈ ts, t.ctrl = OFF ∧ t.pins = { ditpin := true, dahpin := true }) :
    ∀ r ∈ trace (initKeyer fl vol w) ts,
      r.2.retchar = 0 ∧ r.1.state = FSMSTATE.S_IDLE ∧ r.1.buffer = 1 ∧ DOWN ∉ r.2.keys := by
  have hcore := initKeyer_core fl vol w hv
  rw [show vol &&& 3 = 0 from hl] at hcore
  exact rest_run ts _ fl w 0 0 hts hcore

theorem released_paddles_stay_idle_witness :
    volInit < 256 ∧ volInit &&& SQUEEZED = 0 ∧
      (∀ r ∈ trace (initKeyer FLAGDEFAULT volInit 75)
          (List.replicate 5000 { ctrl := OFF, pins := { ditpin := true, dahpin := true } }),
        r.2.retchar = 0 ∧ r.1.state = FSMSTATE.S_IDLE ∧ r.1.buffer = 1 ∧ DOWN ∉ r.2.keys) :=
  ⟨by decide, by decide,
    released_paddles_stay_idle FLAGDEFAULT volInit 75
      (List.replicate 5000 { ctrl := OFF, pins := { ditpin := true, dahpin := true } })
      (by decide) (by decide)
      (fun t ht => by rw [List.eq_of_mem_replicate ht]; exact ⟨rfl, rfl⟩)⟩

/-! ### The modes other than Iambic A and Dactylic -/

/-- In a mode other than Iambic A and Dactylic the element is a dit when the dit latch is set
and a dah otherwise, whatever the state and the previous key set. -/
theorem nextState_plain (m : Nat) (hm : m ∈ plainModes) (st : FSMSTATE) (lk key : Nat) :
    nextState m st lk key =
      if key &&& DITLATCH ≠ 0 then FSMSTATE.S_DIT else FSMSTATE.S_DAH := by
  have h : m ≠ IAMBA ∧ m ≠ DACTYL := by
    simp only [plainModes, List.mem_cons, List.mem_singleton, List.not_mem_nil, or_false] at hm
    rcases hm with rfl | rfl | rfl | rfl <;> decide
  simp only [nextState, h.1, h.2, false_and, if_false, ne_eq, not_false_eq_true, or_true,
    true_and, or_false]

theorem yackpower_withFlags (s : Keyer) (fl : Nat) (n : Bool) :
    yackpower (withFlags s fl) n = (withFlags (yackpower s n).1 fl, (yackpower s n).2) := by
  unfold yackpower withFlags
  split
  · split
    · rfl
    · rfl
  · rfl

theorem keylatch_withFlags (s : Keyer) (fl : Nat) (p : Pins) (lk : Nat)
    (hsw : s.yackflags &&& PDLSWAP = fl &&& PDLSWAP) :
    keylatch (withFlags s fl) p lk = withFlags (keylatch s p lk) fl := by
  unfold keylatch withFlags
  simp only [hsw]

theorem latchStep_withFlags (s : Keyer) (fl : Nat) (p : Pins)
    (hsw : s.yackflags &&& PDLSWAP = fl &&& PDLSWAP) :
    (if (withFlags s fl).timer ≥ (withFlags s fl).prelatch then
        keylatch (withFlags s fl) p (withFlags s fl).lastkey else withFlags s fl)
      = withFlags (if s.timer ≥ s.prelatch then keylatch s p s.lastkey else s) fl := by
  show (if s.timer ≥ s.prelatch then keylatch (withFlags s fl) p s.lastkey else withFlags s fl)
    = _
  split
  · exact keylatch_withFlags s fl p s.lastkey hsw
  · rfl

theorem sampleStage_eq (s : Keyer) (p : Pins) :
    sampleStage s p =
      ((if (yackpower (if s.timer > 0 then { s with timer := s.timer - 1 } else s)
            (decide ((if s.timer > 0 then { s with timer := s.timer - 1 } else s).state
              = FSMSTATE.S_IDLE))).1.timer ≥
          (yackpower (if s.timer > 0 then { s with timer := s.timer - 1 } else s)
            (decide ((if s.timer > 0 then { s with timer := s.timer - 1 } else s).state
              = FSMSTATE.S_IDLE))).1.prelatch
        then keylatch (yackpower (if s.timer > 0 then { s with timer := s.timer - 1 } else s)
            (decide ((if s.timer > 0 then { s with timer := s.timer - 1 } else s).state
              = FSMSTATE.S_IDLE))).1 p
          (yackpower (if s.timer > 0 then { s with timer := s.timer - 1 } else s)
            (decide ((if s.timer > 0 then { s with timer := s.timer - 1 } else s).state
              = FSMSTATE.S_IDLE))).1.lastkey
        else (yackpower (if s.timer > 0 then { s with timer := s.timer - 1 } else s)
            (decide ((if s.timer > 0 then { s with timer := s.timer - 1 } else s).state
              = FSMSTATE.S_IDLE))).1),
      (yackpower (if s.timer > 0 then { s with timer := s.timer - 1 } else s)
        (decide ((if s.timer > 0 then { s with timer := s.timer - 1 } else s).state
          = FSMSTATE.S_IDLE))).2) := rfl

theorem sampleStage_withFlags (s : Keyer) (fl : Nat) (p : Pins)
    (hsw : s.yackflags &&& PDLSWAP = fl &&& PDLSWAP) :
    sampleStage (withFlags s fl) p = (withFlags (sampleStage s p).1 fl, (sampleStage s p).2) := by
  have h1 : (if (withFlags s fl).timer > 0 then
        { withFlags s fl with timer := (withFlags s fl).timer - 1 } else withFlags s fl)
      = withFlags (if s.timer > 0 then { s with timer := s.timer - 1 } else s) fl := by
    show (if s.timer > 0 then _ else _) = _
    split <;> rfl
  have hs1 : (if s.timer > 0 then { s with timer := s.timer - 1 } else s).yackflags &&& PDLSWAP
      = fl &&& PDLSWAP := by
    rw [← hsw]
    split <;> rfl
  rw [sampleStage_eq, sampleStage_eq, h1]
  generalize (if s.timer > 0 then { s with timer := s.timer - 1 } else s) = s1 at hs1 ⊢
  rw [show (withFlags s1 fl).state = s1.state from rfl, yackpower_withFlags]
  obtain ⟨sh, hsh⟩ := yackpower_fst s1 (decide (s1.state = FSMSTATE.S_IDLE))
  have hpw : (yackpower s1 (decide (s1.state = FSMSTATE.S_IDLE))).1.yackflags &&& PDLSWAP
      = fl &&& PDLSWAP := by
    rw [hsh]; exact hs1
  generalize yackpower s1 (decide (s1.state = FSMSTATE.S_IDLE)) = pw at hpw ⊢
  show ((if (withFlags pw.1 fl).timer ≥ (withFlags pw.1 fl).prelatch then
      keylatch (withFlags pw.1 fl) p (withFlags pw.1 fl).lastkey else withFlags pw.1 fl), pw.2)
    = _
  rw [latchStep_withFlags pw.1 fl p hpw]

theorem idleBlock_withFlags (s : Keyer) (fl ctrl : Nat) :
    idleBlock (withFlags s fl) ctrl = (withFlags (idleBlock s ctrl).1 fl, (idleBlock s ctrl).2) := by
  unfold idleBlock withFlags
  simp only []
  split_ifs <;> rfl

theorem elementBlock_withFlags (s : Keyer) (fl m1 m2 : Nat) (h1 : m1 ∈ plainModes)
    (h2 : m2 ∈ plainModes) :
    elementBlock (withFlags s fl) m2
      = (withFlags (elementBlock s m1).1 fl, (elementBlock s m1).2) := by
  unfold elementBlock withFlags
  simp only [nextState_plain m1 h1, nextState_plain m2 h2]
  split_ifs <;> rfl

theorem decisionStage_withFlags (s : Keyer) (fl ctrl m1 m2 : Nat) (h1 : m1 ∈ plainModes)
    (h2 : m2 ∈ plainModes) :
    decisionStage (withFlags s fl) ctrl m2
      = (withFlags (decisionStage s ctrl m1).1 fl, (decisionStage s ctrl m1).2) := by
  by_cases ht : s.timer = 0
  · have ht2 : (withFlags s fl).timer = 0 := ht
    rw [decisionStage_zero _ _ _ ht, decisionStage_zero _ _ _ ht2, idleBlock_withFlags,
      elementBlock_withFlags _ _ m1 m2 h1 h2]
  · have ht2 : (withFlags s fl).timer ≠ 0 := ht
    rw [decisionStage_wait _ _ _ ht, decisionStage_wait _ _ _ ht2]

/-- One call of `yackiambic` in two of the modes: the same outputs and the same new state up
to the flags. -/
theorem yackiambic_withFlags (s : Keyer) (fl ctrl : Nat) (p : Pins)
    (hsw : s.yackflags &&& PDLSWAP = fl &&& PDLSWAP)
    (h1 : s.yackflags &&& MODE ∈ plainModes) (h2 : fl &&& MODE ∈ plainModes) :
    yackiambic (withFlags s fl) ctrl p
      = (withFlags (yackiambic s ctrl p).1 fl, (yackiambic s ctrl p).2) := by
  unfold yackiambic
  simp only []
  rw [sampleStage_withFlags s fl p hsw,
    show (withFlags s fl).yackflags = fl from rfl,
    decisionStage_withFlags _ fl ctrl _ _ h1 h2]
  rfl

theorem yackiambic_flags (s : Keyer) (ctrl : Nat) (p : Pins) :
    (yackiambic s ctrl p).1.yackflags = s.yackflags := by
  rw [yackiambic_fst, ← (sampleStage_frame s p).2.2.2.2.2.2.1]
  by_cases ht : (sampleStage s p).1.timer = 0
  · rw [decisionStage_zero _ _ _ ht]
    show (elementBlock _ _).1.yackflags = _
    rw [(elementBlock_frame _ _).1, (idleBlock_frame _ _).1]
  · rw [decisionStage_wait _ _ _ ht]

theorem trace_withFlags (fl : Nat) (h2 : fl &&& MODE ∈ plainModes) :
    ∀ (ts : List Tick) (s : Keyer), s.yackflags &&& PDLSWAP = fl &&& PDLSWAP →
      s.yackflags &&& MODE ∈ plainModes →
      trace (withFlags s fl) ts = (trace s ts).map (fun r => (withFlags r.1 fl, r.2)) := by
  intro ts
  induction ts with
  | nil => intro s _ _; rfl
  | cons t ts ih =>
    intro s hsw h1
    rw [trace_cons, trace_cons, List.map_cons, yackiambic_withFlags s fl t.ctrl t.pins hsw h1 h2]
    have hf := yackiambic_flags s t.ctrl t.pins
    rw [ih (yackiambic s t.ctrl t.pins).1 (by rw [hf]; exact hsw) (by rw [hf]; exact h1)]

/-- C32: the keyer mode influences yackiambic only through the tests mode == IAMBA and mode ==
DACTYL. From every state and for every input sequence, two settings of yackflags whose mode
bits are any of IAMBB, ULTIM, DITPR, DAHPR (the paddle swap bit being the same) give tick by
tick the same returned characters, the same key requests and the same new state, the flags
apart; in each of these modes the element chosen at a decision is a dit when the dit latch is
set and a dah otherwise, so on a squeeze each of them chooses a dit. -/
theorem plain_modes_key_alike (s : Keyer) (fl1 fl2 : Nat) (ts : List Tick)
    (hsw : fl1 &&& PDLSWAP = fl2 &&& PDLSWAP)
    (h1 : fl1 &&& MODE ∈ plainModes) (h2 : fl2 &&& MODE ∈ plainModes) :
    trace (withFlags s fl2) ts
        = (trace (withFlags s fl1) ts).map (fun r => (withFlags r.1 fl2, r.2)) ∧
      (∀ r ∈ trace (withFlags s fl1) ts, r.1.yackflags = fl1) ∧
      (∀ m ∈ plainModes, ∀ (st : FSMSTATE) (lk key : Nat),
        nextState m st lk key =
          if key &&& DITLATCH ≠ 0 then FSMSTATE.S_DIT else FSMSTATE.S_DAH) ∧
      (∀ m ∈ plainModes, ∀ (st : FSMSTATE) (lk : Nat),
        nextState m st lk SQUEEZED = FSMSTATE.S_DIT) := by
  refine ⟨?_, ?_, fun m hm st lk key => nextState_plain m hm st lk key, ?_⟩
  · have h := trace_withFlags fl2 h2 ts (withFlags s fl1) hsw h1
    exact h
  · have hrun : ∀ (ts : List Tick) (s : Keyer), ∀ r ∈ trace s ts,
        r.1.yackflags = s.yackflags := by
      intro ts
      induction ts with
      | nil => intro s r hr; simp [trace] at hr
      | cons t ts ih =>
        intro s r hr
        rw [trace_cons, List.mem_cons] at hr
        rcases hr with rfl | hr
        · exact yackiambic_flags s t.ctrl t.pins
        · rw [ih _ r hr, yackiambic_flags]
    exact fun r hr => hrun ts (withFlags s fl1) r hr
  · intro m hm st lk
    rw [nextState_plain m hm]
    rfl

theorem plain_modes_key_alike_witness :
    (IAMBB ||| TXKEY ||| SIDETONE) &&& PDLSWAP = (DAHPR ||| TXKEY ||| SIDETONE) &&& PDLSWAP ∧
      (IAMBB ||| TXKEY ||| SIDETONE) &&& MODE ∈ plainModes ∧
      (DAHPR ||| TXKEY ||| SIDETONE) &&& MODE ∈ plainModes ∧
      trace (withFlags (initKeyer 0 volInit 24) (DAHPR ||| TXKEY ||| SIDETONE)) (squeeze 0 60)
        = (trace (withFlags (initKeyer 0 volInit 24) (IAMBB ||| TXKEY ||| SIDETONE))
            (squeeze 0 60)).map
          (fun r => (withFlags r.1 (DAHPR ||| TXKEY ||| SIDETONE), r.2)) :=
  ⟨by decide, by decide, by decide,
    (plain_modes_key_alike (initKeyer 0 volInit 24) (IAMBB ||| TXKEY ||| SIDETONE)
      (DAHPR ||| TXKEY ||| SIDETONE) (squeeze 0 60) (by decide) (by decide) (by decide)).1⟩

/-! ### The beacon interval -/

theorem keyCalls_ee (ks : List Nat) : ∀ c : Chip, (keyCalls c ks).1.ee = c.ee := by
  induction ks with
  | nil => intro c; rfl
  | cons k ks ih =>
    intro c
    show (keyCalls (yackkey c k).1 ks).1.ee = _
    rw [ih]
    rfl

theorem iambicCall_ee (c : Chip) (ctrl : Nat) (p : Pins) : (iambicCall c ctrl p).1.ee = c.ee := by
  show (keyCalls _ _).1.ee = _
  rw [keyCalls_ee]

theorem beaconDigit_lt (ch i : Nat) (h : i < 11) : beaconDigit ch i < 11 := by
  unfold beaconDigit
  split_ifs <;> omega

theorem beaconDigit_digit (ch i : Nat)
    (h : ch ∈ [C_0, C_1, C_2, C_3, C_4, C_5, C_6, C_7, C_8, C_9]) : beaconDigit ch i < 10 := by
  simp only [List.mem_cons, List.mem_singleton, List.not_mem_nil, or_false] at h
  rcases h with rfl | rfl | rfl | rfl | rfl | rfl | rfl | rfl | rfl | rfl
  all_goals
    unfold beaconDigit
    simp [C_0, C_1, C_2, C_3, C_4, C_5, C_6, C_7, C_8, C_9]

theorem beaconDigit_other (ch i : Nat)
    (h : ch ∉ [C_0, C_1, C_2, C_3, C_4, C_5, C_6, C_7, C_8, C_9]) : beaconDigit ch i = i := by
  simp only [List.mem_cons, List.mem_singleton, List.not_mem_nil, or_false, not_or] at h
  obtain ⟨h0, h1, h2, h3, h4, h5, h6, h7, h8, h9⟩ := h
  unfold beaconDigit
  rw [if_neg h0, if_neg h1, if_neg h2, if_neg h3, if_neg h4, if_neg h5, if_neg h6, if_neg h7,
    if_neg h8, if_neg h9]

/-- A pass entered with a digit in `i`: the digit in `i` after the pass is appended to the
interval and the timer is set anew. -/
theorem beaconPass_armed (c : Chip) (iv t i : Nat) (p : Pins) (h : i < 11) :
    (beaconPass c iv t i p).i = beaconDigit (iambicCall c OFF p).2.1 i ∧
      (beaconPass c iv t i p).i < 11 ∧
      (beaconPass c iv t i p).timer = YACKSECS DEFTIMEOUT ∧
      (beaconPass c iv t i p).interval
        = toWord (toWord (iv * 10) + beaconDigit (iambicCall c OFF p).2.1 i) ∧
      (beaconPass c iv t i p).chip = (iambicCall c OFF p).1 := by
  have hd := beaconDigit_lt (iambicCall c OFF p).2.1 i h
  unfold beaconPass
  simp only [if_pos hd]
  exact ⟨trivial, hd, trivial, trivial, trivial⟩

theorem beaconLoop_cons (p : Pins) (ps : List Pins) (c : Chip) (iv t i : Nat)
    (h : toWord (t + 65535) ≠ 0) :
    beaconLoop (p :: ps) c iv t i =
      beaconLoop ps (beaconPass c iv (toWord (t + 65535)) i p).chip
        (beaconPass c iv (toWord (t + 65535)) i p).interval
        (beaconPass c iv (toWord (t + 65535)) i p).timer
        (beaconPass c iv (toWord (t + 65535)) i p).i := by
  rw [beaconLoop, if_neg h]

/-- Once a digit is in `i`, the loop is never left: every pass sets the timer anew. -/
theorem beaconLoop_stuck : ∀ (ps : List Pins) (c : Chip) (iv i : Nat), i < 11 →
    (beaconLoop ps c iv (YACKSECS DEFTIMEOUT) i).ending = Ending.running := by
  have ht : toWord (YACKSECS DEFTIMEOUT + 65535) ≠ 0 := by decide
  intro ps
  induction ps with
  | nil => intro c iv i _; rw [beaconLoop, if_neg ht]
  | cons p ps ih =>
    intro c iv i h
    obtain ⟨_, a2, a3, _, _⟩ := beaconPass_armed c iv (toWord (YACKSECS DEFTIMEOUT + 65535)) i p h
    rw [beaconLoop_cons _ _ _ _ _ _ ht, a3]
    exact ih _ _ _ a2

theorem beaconLoop_append (l1 : List Pins) : ∀ (c : Chip) (iv t i : Nat) (l2 : List Pins),
    (beaconLoop l1 c iv t i).ending = Ending.running →
      beaconLoop (l1 ++ l2) c iv t i =
        beaconLoop l2 (beaconLoop l1 c iv t i).chip (beaconLoop l1 c iv t i).interval
          (beaconLoop l1 c iv t i).timer (beaconLoop l1 c iv t i).i := by
  induction l1 with
  | nil =>
    intro c iv t i l2 h
    by_cases ht : toWord (t + 65535) = 0
    · rw [beaconLoop, if_pos ht] at h
      cases h
    · rw [List.nil_append]
      conv => rhs; rw [beaconLoop, if_neg ht]
  | cons p ps ih =>
    intro c iv t i l2 h
    by_cases ht : toWord (t + 65535) = 0
    · rw [beaconLoop, if_pos ht] at h
      cases h
    · rw [beaconLoop_cons _ _ _ _ _ _ ht] at h
      rw [List.cons_append, beaconLoop_cons _ _ _ _ _ _ ht, beaconLoop_cons _ _ _ _ _ _ ht]
      exact ih _ _ _ _ l2 h

/-- The loop of the beacon leaves the EEPROM as it is. -/
theorem beaconLoop_ee : ∀ (ps : List Pins) (c : Chip) (iv t i : Nat),
    (beaconLoop ps c iv t i).chip.ee = c.ee := by
  intro ps
  induction ps with
  | nil =>
    intro c iv t i
    rw [beaconLoop]
    split <;> rfl
  | cons p ps ih =>
    intro c iv t i
    by_cases ht : toWord (t + 65535) = 0
    · rw [beaconLoop, if_pos ht]
    · rw [beaconLoop_cons _ _ _ _ _ _ ht, ih]
      unfold beaconPass
      simp only []
      split
      · exact iambicCall_ee c OFF p
      · exact iambicCall_ee c OFF p

/-- With the keyer at rest and no digit in `i`, silence lets the timer run out: the loop is
left by its test after as many passes as the timer allows, with the interval as it was. -/
theorem beaconLoop_quiet : ∀ (n : Nat) (c : Chip) (iv fl w dc hc : Nat),
    Core c.keyer fl w FSMSTATE.S_IDLE 0 0 0 0 1 0 dc hc → n + 1 < 65536 →
      (beaconLoop (List.replicate n releasedPins) c iv (n + 1) 11).ending = Ending.timeout ∧
      (beaconLoop (List.replicate n releasedPins) c iv (n + 1) 11).interval = iv := by
  intro n
  induction n with
  | zero =>
    intro c iv fl w dc hc _ _
    have ht : toWord (0 + 1 + 65535) = 0 := by decide
    rw [List.replicate_zero, beaconLoop, if_pos ht]
    exact ⟨rfl, rfl⟩
  | succ n ih =>
    intro c iv fl w dc hc hcore hn
    have ht : toWord (n + 1 + 1 + 65535) = n + 1 := by unfold toWord; omega
    obtain ⟨⟨dc1, hc1, r1⟩, r2, _⟩ := rest_tick c.keyer fl w dc hc hcore
    obtain ⟨k1, k2⟩ := iambicCall_keyer c OFF releasedPins
    have hch : (iambicCall c OFF releasedPins).2.1 = 0 := by rw [k2]; exact r2
    have hp : beaconPass c iv (n + 1) 11 releasedPins
        = { chip := (iambicCall c OFF releasedPins).1, interval := iv, timer := n + 1, i := 11,
            ending := Ending.running } := by
      unfold beaconPass
      simp only [hch]
      rfl
    rw [List.replicate_succ, beaconLoop_cons _ _ _ _ _ _ (by rw [ht]; omega), ht, hp]
    exact ih _ iv fl w dc1 hc1 (by rw [k1]; exact r1) (by omega)

/-- When the loop of the beacon is left by its test with an interval up to 9999, the interval
is stored in the first user word. -/
theorem beaconRecord_timeout (c : Chip) (ps : List Pins)
    (h1 : (beaconLoop ps (yackchar c C_N).1 0 (YACKSECS DEFTIMEOUT) 11).ending = Ending.timeout)
    (h2 : (beaconLoop ps (yackchar c C_N).1 0 (YACKSECS DEFTIMEOUT) 11).interval ≤ 9999) :
    (beaconRecord c ps).ending = Ending.timeout ∧
      (beaconRecord c ps).interval
        = (beaconLoop ps (yackchar c C_N).1 0 (YACKSECS DEFTIMEOUT) 11).interval ∧
      (beaconRecord c ps).chip.ee.user1
        = toWord (beaconLoop ps (yackchar c C_N).1 0 (YACKSECS DEFTIMEOUT) 11).interval := by
  unfold beaconRecord
  simp only []
  rw [if_pos h1, if_pos h2]
  refine ⟨h1, rfl, ?_⟩
  show (yacknumber _ _).1.ee.user1 = _
  rw [yacknumber, sendChars_ee]
  rfl

/-- From a keyer at rest, silence until the timer runs out: the RECORD branch of the beacon
ends and stores the interval 0. -/
theorem beaconRecord_silence (c : Chip) (fl w dc hc : Nat)
    (hcore : Core (yackchar c C_N).1.keyer fl w FSMSTATE.S_IDLE 0 0 0 0 1 0 dc hc) :
    (beaconRecord c (List.replicate 4999 releasedPins)).ending = Ending.timeout ∧
      (beaconRecord c (List.replicate 4999 releasedPins)).interval = 0 ∧
      (beaconRecord c (List.replicate 4999 releasedPins)).chip.ee.user1 = 0 := by
  have hq : (beaconLoop (List.replicate 4999 releasedPins) (yackchar c C_N).1 0
        (YACKSECS DEFTIMEOUT) 11).ending = Ending.timeout ∧
      (beaconLoop (List.replicate 4999 releasedPins) (yackchar c C_N).1 0
        (YACKSECS DEFTIMEOUT) 11).interval = 0 :=
    beaconLoop_quiet 4999 (yackchar c C_N).1 0 fl w dc hc hcore (by decide)
  obtain ⟨q1, q2⟩ := hq
  obtain ⟨t1, t2, t3⟩ := beaconRecord_timeout c _ q1 (by rw [q2]; decide)
  rw [q2] at t2 t3
  exact ⟨t1, t2, t3⟩

set_option maxRecDepth 1000000 in
/-- The run of the loop while the digit 5 is keyed at 50 wpm. -/
theorem keyFive_run :
    (beaconLoop keyFive (yackchar quickChip C_N).1 0 (YACKSECS DEFTIMEOUT) 11).ending
        = Ending.running ∧
      (beaconLoop keyFive (yackchar quickChip C_N).1 0 (YACKSECS DEFTIMEOUT) 11).timer
        = YACKSECS DEFTIMEOUT ∧
      (beaconLoop keyFive (yackchar quickChip C_N).1 0 (YACKSECS DEFTIMEOUT) 11).i = 5 ∧
      (beaconLoop keyFive (yackchar quickChip C_N).1 0 (YACKSECS DEFTIMEOUT) 11).interval
        = 5555 := by
  decide

/-- C31 fails on the code as soon as one digit is recognised. The local i of beacon is set by
a recognised digit and never set back to 11, so on every later pass of the loop, whatever
yackiambic returns, the digit in i is appended to the interval again and the timer is set anew:
from every state with a digit in i the loop is still running after any number of passes on any
input, so it never times out, and nothing is stored. With the digit 5 keyed at 50 wpm, three
passes after the one that recognised it the interval is 5555, and however long silence follows
beacon (RECORD) has not returned and the stored interval is unchanged. -/
theorem beacon_digit_never_times_out :
    (∀ (ps : List Pins) (c : Chip) (iv i : Nat), i < 11 →
        (beaconLoop ps c iv (YACKSECS DEFTIMEOUT) i).ending = Ending.running) ∧
    (∀ (c : Chip) (iv t i : Nat) (p : Pins),
        (iambicCall c OFF p).2.1 ∈ [C_0, C_1, C_2, C_3, C_4, C_5, C_6, C_7, C_8, C_9] →
        (beaconPass c iv t i p).i < 10 ∧
        (beaconPass c iv t i p).timer = YACKSECS DEFTIMEOUT) ∧
    (∀ (c : Chip) (iv t i : Nat) (p : Pins), i < 11 →
        (iambicCall c OFF p).2.1 ∉ [C_0, C_1, C_2, C_3, C_4, C_5, C_6, C_7, C_8, C_9] →
        (beaconPass c iv t i p).i = i ∧
        (beaconPass c iv t i p).interval = toWord (toWord (iv * 10) + i) ∧
        (beaconPass c iv t i p).timer = YACKSECS DEFTIMEOUT) ∧
    ((beaconRecord quickChip (List.replicate 4999 releasedPins)).ending = Ending.timeout ∧
      (beaconRecord quickChip (List.replicate 4999 releasedPins)).interval = 0 ∧
      (beaconRecord quickChip (List.replicate 4999 releasedPins)).chip.ee.user1 = 0) ∧
    ((beaconRecord quickChip keyFive).interval = 5555 ∧
      (beaconRecord quickChip keyFive).i = 5 ∧
      ∀ ps : List Pins,
        (beaconRecord quickChip (keyFive ++ ps)).ending = Ending.running ∧
        (beaconRecord quickChip (keyFive ++ ps)).chip.ee.user1 = quickChip.ee.user1) := by
  obtain ⟨k1, k2, k3, k4⟩ := keyFive_run
  have hrec : ∀ ps : List Pins,
      beaconLoop (keyFive ++ ps) (yackchar quickChip C_N).1 0 (YACKSECS DEFTIMEOUT) 11
        = beaconLoop ps
            (beaconLoop keyFive (yackchar quickChip C_N).1 0 (YACKSECS DEFTIMEOUT) 11).chip
            5555 (YACKSECS DEFTIMEOUT) 5 := by
    intro ps
    rw [beaconLoop_append keyFive _ _ _ _ ps k1, k2, k3, k4]
  have hrun : ∀ ps : List Pins,
      (beaconLoop (keyFive ++ ps) (yackchar quickChip C_N).1 0 (YACKSECS DEFTIMEOUT) 11).ending
        = Ending.running := by
    intro ps
    rw [hrec]
    exact beaconLoop_stuck ps _ _ _ (by decide)
  have hout : ∀ ps : List Pins,
      (beaconLoop ps (yackchar quickChip C_N).1 0 (YACKSECS DEFTIMEOUT) 11).ending
          = Ending.running →
        beaconRecord quickChip ps
          = beaconLoop ps (yackchar quickChip C_N).1 0 (YACKSECS DEFTIMEOUT) 11 := by
    intro ps h
    unfold beaconRecord
    simp only []
    rw [if_neg (by rw [h]; decide)]
  have hcore : Core (yackchar quickChip C_N).1.keyer quickChip.keyer.yackflags 24
      FSMSTATE.S_IDLE 0 0 0 0 1 0 0 0 := by
    unfold Core
    decide
  obtain ⟨q1, q2, q3⟩ := beaconRecord_silence quickChip _ _ _ _ hcore
  refine ⟨beaconLoop_stuck, ?_, ?_, ⟨?_, ?_, ?_⟩, ?_, ?_, ?_⟩
  · intro c iv t i p h
    have hd := beaconDigit_digit _ i h
    unfold beaconPass
    simp only [if_pos (show beaconDigit (iambicCall c OFF p).2.1 i < 11 by omega)]
    exact ⟨hd, trivial⟩
  · intro c iv t i p hi h
    obtain ⟨a1, _, a3, a4, _⟩ := beaconPass_armed c iv t i p hi
    rw [beaconDigit_other _ _ h] at a1 a4
    exact ⟨a1, a4, a3⟩
  · exact q1
  · exact q2
  · exact q3
  · rw [hout keyFive k1]
    exact k4
  · rw [hout keyFive k1]
    exact k3
  · intro ps
    rw [hout _ (hrun ps)]
    refine ⟨hrun ps, ?_⟩
    rw [beaconLoop_ee, yackchar_ee]

end Yack
